import Mathlib

/-!
# apple-music-downloader: variant selection, track selection, file names, ledger

A shallow embedding of the parts of `main.go` that decide which delivery
variant of a master manifest is taken (`extractMedia`), which tracks an
interactive selection picks (`rip`), how a track file name is rendered
(`downloadTrack`) and how the completion ledger `okDict` gates the track loop
(`rip`).

Modelling conventions
* A Go `string` holding text is a Lean `String`; `len(s)` is its UTF-8 byte size and
  `[]rune(s)` its list of characters.
* A Go `int` is an `Int`; the 64-bit range is enforced where the code can observe it,
  namely in `strconv.Atoi`.
* Library calls whose result depends on the outside world or on an algorithm the
  library does not fix are parameters: `sort.Slice` (any function meeting its
  documented contract, `SortSliceSpec`), `(*url.URL).Parse` (reference resolution)
  and, in the track loop, the effect of `downloadTrack` on counters and ledger.
  The algorithm `sort.Slice` runs in Go 1.19 and later is given as `goSortSlice` and
  evaluated on concrete manifests.
* `fmt.Sprintf("%.1f", float64(n)/1000.0)` is computed exactly with integers.
* A run-time panic is an explicit outcome.

The file has two parts: definitions, then theorems.
-/

namespace Amd

/-! ## Go standard-library helpers -/

/-- The pieces of `cs` between occurrences of the separator `sep`
(`strings.Split` with a one-character separator, on characters). -/
def splitChars (sep : Char) : List Char → List (List Char)
  | [] => [[]]
  | c :: cs =>
    if c = sep then [] :: splitChars sep cs
    else
      match splitChars sep cs with
      | [] => [[c]]
      | h :: t => (c :: h) :: t

/-- Go `strings.Split(s, sep)` for a one-character separator: never empty. -/
def Split (s : String) (sep : Char) : List String :=
  (splitChars sep s.toList).map String.mk

/-- Does `sub` occur in `cs` as a contiguous block? -/
def containsChars (sub : List Char) : List Char → Bool
  | [] => sub.isEmpty
  | c :: cs => sub.isPrefixOf (c :: cs) || containsChars sub cs

/-- Go `strings.Contains(s, substr)`. -/
def Contains (s substr : String) : Bool :=
  containsChars substr.toList s.toList

/-- Value of a run of ASCII decimal digits, `none` when some character is not a digit. -/
def parseDigits : List Char → Nat → Option Nat
  | [], acc => some acc
  | c :: cs, acc =>
    if c.isDigit then parseDigits cs (acc * 10 + (c.toNat - 48)) else none

/-- The digits of `strconv.Atoi` after the optional sign: at least one decimal digit,
and a value in the range of a 64-bit `int`. -/
def atoiDigits (neg : Bool) (r : List Char) : Option Int :=
  if r.isEmpty then none
  else
    match parseDigits r 0 with
    | none => none
    | some n =>
      if -(2 ^ 63 : Int) ≤ (if neg then -(n : Int) else (n : Int)) ∧
          (if neg then -(n : Int) else (n : Int)) ≤ 2 ^ 63 - 1 then
        some (if neg then -(n : Int) else (n : Int))
      else none

/-- Go `strconv.Atoi` on a 64-bit platform: an optional sign followed by at least
one decimal digit; `none` stands for the returned error (syntax or range). -/
def Atoi (s : String) : Option Int :=
  match s.toList with
  | '-' :: r => atoiDigits true r
  | '+' :: r => atoiDigits false r
  | r => atoiDigits false r

/-- Nearest integer to `num / den`, ties to the even neighbour. -/
def roundHalfEven (num den : Nat) : Nat :=
  let q := num / den
  let r := num % den
  if 2 * r < den then q
  else if den < 2 * r then q + 1
  else if q % 2 = 0 then q else q + 1

/-- The pair `(num * 2^(-e), den)` or `(num, den * 2^e)`: the fraction `num / den / 2^e`. -/
def scaleBy (num den : Nat) (e : Int) : Nat × Nat :=
  if 0 ≤ e then (num, den * 2 ^ e.toNat) else (num * 2 ^ (-e).toNat, den)

/-- Number of binary digits of `n`, with the recursion bounded by the first argument. -/
def bitLenAux : Nat → Nat → Nat
  | 0, _ => 0
  | f + 1, n => if n = 0 then 0 else bitLenAux f (n / 2) + 1

/-- Number of binary digits of `n` (`0` for `0`). -/
def bitLen (n : Nat) : Nat := bitLenAux n n

/-- The IEEE-754 binary64 value nearest to the positive fraction `num / den`
(round to nearest, ties to even; normal range), as `(m, e)` meaning `m * 2^e`. -/
def roundToFloat64 (num den : Nat) : Nat × Int :=
  let e1 : Int := (bitLen num : Int) - (bitLen den : Int) - 52
  let s1 := scaleBy num den e1
  let e : Int := if s1.1 / s1.2 < 2 ^ 52 then e1 - 1 else e1
  let s := scaleBy num den e
  (roundHalfEven s.1 s.2, e)

/-- Go `fmt.Sprintf("%.1f", float64(n) / 1000.0)` for an `int` `n`, computed exactly:
the conversion and the division each round to the nearest binary64 value, and the
formatter rounds the exact binary value to one decimal (ties to even). -/
def fmtKHz (n : Int) : String :=
  let a := n.natAbs
  if a = 0 then "0.0"
  else
    -- float64(n)
    let f : Nat × Int := if a < 2 ^ 53 then (a, 0) else roundToFloat64 a 1
    -- float64(n) / 1000.0
    let d := roundToFloat64 (f.1 * 2 ^ f.2.toNat) 1000
    -- tenths, rounded from the exact binary value
    let s := scaleBy (d.1 * 10) 1 (-d.2)
    let t := roundHalfEven s.1 s.2
    (if n < 0 then "-" else "") ++ toString (t / 10) ++ "." ++ toString (t % 10)

/-- The replacement made by the pattern `audio-stereo-\d+` of `extractMedia`:
every leftmost, longest-digit-run match is replaced by `aac`. The counter is the
number of characters of the current match still to be dropped. -/
def aacReplaceChars : Nat → List Char → List Char
  | _, [] => []
  | k + 1, _ :: cs => aacReplaceChars k cs
  | 0, c :: cs =>
    let rest := (c :: cs).drop 13
    if "audio-stereo-".toList.isPrefixOf (c :: cs) ∧ (rest.head?.map Char.isDigit) = some true then
      "aac".toList ++ aacReplaceChars (12 + (rest.takeWhile Char.isDigit).length) cs
    else c :: aacReplaceChars 0 cs

/-- Go `regexp.MustCompile("audio-stereo-\\d+").ReplaceAllString(s, "aac")`. -/
def aacregexReplaceAll (s : String) : String :=
  String.mk (aacReplaceChars 0 s.toList)

/-- Go slice indexing `l[i]` with an `int` index: `none` is the index-out-of-range panic. -/
def index? (l : List String) (i : Int) : Option String :=
  if i < 0 then none else l.get? i.toNat

/-! ## Data model -/

/-- One `m3u8.Alternative` (an `EXT-X-MEDIA` rendition) of a variant, with the fields
`main.go` reads. -/
structure Alternative where
  GroupId : String := ""
  URI : String := ""
deriving DecidableEq, Repr

/-- One `m3u8.Variant` of a master playlist, with the fields `main.go` reads. -/
structure Variant where
  URI : String := ""
  Codecs : String := ""
  Audio : String := ""
  Bandwidth : Nat := 0
  AverageBandwidth : Nat := 0
  Alternatives : List Alternative := []
deriving DecidableEq, Repr

/-- The fields of `structs.ConfigSet` read by the embedded code. -/
structure ConfigSet where
  AlacMax : Int := 192000
  AtmosMax : Int := 2768
  AacType : String := "aac-lc"
  LimitMax : Int := 200
  SongFileFormat : String := "\x7bSongNumer\x7d. \x7bSongName\x7d"
  AppleMasterChoice : String := "[M]"
  ExplicitChoice : String := "[E]"
  CleanChoice : String := "[C]"
  MVMax : Int := 2160
  MVAudioType : String := "atmos"
  UseSongInfoForPlaylist : Bool := false
  GetM3u8Mode : String := "hires"
  MediaUserToken : String := ""
  EmbedCover : Bool := true
  DlAlbumcoverForPlaylist : Bool := false
  ArtistFolderFormat : String := "\x7bUrlArtistName\x7d"
  AlbumFolderFormat : String := "\x7bAlbumName\x7d"
  PlaylistFolderFormat : String := "\x7bPlaylistName\x7d"
  AlacSaveFolder : String := "AM-DL downloads"
  AtmosSaveFolder : String := "AM-DL-Atmos downloads"
deriving DecidableEq, Repr

/-- The package-level mode switches of `main.go`. -/
structure Flags where
  dl_atmos : Bool := false
  dl_aac : Bool := false
  dl_select : Bool := false
  dl_song : Bool := false
  debug_mode : Bool := false
  lyrics_only : Bool := false
  atmos_only : Bool := false
  skip_mv : Bool := false
  cover_art_only : Bool := false
deriving DecidableEq, Repr

/-- The errors `extractMedia` returns. -/
inductive ExtractError where
  /-- the manifest could not be fetched or is not a master playlist -/
  | manifest (msg : String)
  /-- the error of `strconv.Atoi` on the given text -/
  | atoi (text : String)
  /-- the error of resolving a variant URI against the manifest URL -/
  | urlParse (uri : String)
  /-- `errors.New("no codec found")` -/
  | noCodecFound
deriving DecidableEq, Repr

/-- What a call of `extractMedia` ends in. -/
inductive Outcome where
  /-- `return streamUrl.String(), Quality, nil` -/
  | ok (url : String) (quality : String)
  /-- `return "", "", err` -/
  | error (e : ExtractError)
  /-- a run-time panic (explicit `panic(err)` or an index out of range) -/
  | panic
deriving DecidableEq, Repr

/-- How the selection loop of `extractMedia` ends. -/
inductive Scan where
  /-- `break` with `streamUrl` set from `variant` -/
  | chosen (variant : Variant) (streamUrl : String) (Quality : String)
  /-- `return "", "", err` inside the loop -/
  | failed (e : ExtractError)
  /-- a run-time panic inside the loop -/
  | panicked
  /-- the loop ran to the end, `streamUrl` is still nil -/
  | exhausted
deriving DecidableEq, Repr

/-! ## `extractMedia` -/

/-- The documented contract of `sort.Slice(master.Variants, less)` with
`less(i, j) = Variants[i].AverageBandwidth > Variants[j].AverageBandwidth`:
the result is a rearrangement of the input in which no later element is `less`
than an earlier one. Nothing is promised about the order of equal elements. -/
structure SortSliceSpec (sortSlice : List Variant → List Variant) : Prop where
  perm : ∀ l, List.Perm (sortSlice l) l
  sorted : ∀ l, List.Pairwise (fun a b => b.AverageBandwidth ≤ a.AverageBandwidth) (sortSlice l)

/-- The selection loop of `extractMedia` (the `for _, variant := range master.Variants`
at the end of the function) over the already sorted variants. `parseRef` is
`masterUrl.Parse(uri)` followed by `String()`, `none` being its error. -/
def scanVariants (parseRef : String → Option String) (cfg : ConfigSet) (fl : Flags) :
    List Variant → Scan
  | [] => .exhausted
  | variant :: rest =>
    if fl.dl_atmos then
      if variant.Codecs = "ec-3" ∧ Contains variant.Audio "atmos" = true then
        let split := Split variant.Audio '-'
        let length : Int := split.length
        match index? split (length - 1) with
        | none => .panicked
        | some last =>
          match Atoi last with
          | none => .failed (.atoi last)
          | some length_int =>
            if length_int ≤ cfg.AtmosMax then
              match parseRef variant.URI with
              | none => .failed (.urlParse variant.URI)
              | some streamUrl => .chosen variant streamUrl (last ++ " kbps")
            else scanVariants parseRef cfg fl rest
      else if variant.Codecs = "ac-3" then
        match parseRef variant.URI with
        | none => .failed (.urlParse variant.URI)
        | some streamUrl =>
          let split := Split variant.Audio '-'
          match index? split ((split.length : Int) - 1) with
          | none => .panicked
          | some last => .chosen variant streamUrl (last ++ " kbps")
      else scanVariants parseRef cfg fl rest
    else if fl.dl_aac then
      if variant.Codecs = "mp4a.40.2" then
        if aacregexReplaceAll variant.Audio = cfg.AacType then
          match parseRef variant.URI with
          | none => .panicked
          | some streamUrl =>
            match index? (Split variant.Audio '-') 2 with
            | none => .panicked
            | some bitrate => .chosen variant streamUrl (bitrate ++ " kbps")
        else scanVariants parseRef cfg fl rest
      else scanVariants parseRef cfg fl rest
    else
      if variant.Codecs = "alac" then
        let split := Split variant.Audio '-'
        let length : Int := split.length
        match index? split (length - 2) with
        | none => .panicked
        | some rate =>
          match Atoi rate with
          | none => .failed (.atoi rate)
          | some length_int =>
            if length_int ≤ cfg.AlacMax then
              match parseRef variant.URI with
              | none => .panicked
              | some streamUrl =>
                match index? split (length - 1) with
                | none => .panicked
                | some depth => .chosen variant streamUrl (depth ++ "B-" ++ fmtKHz length_int ++ "kHz")
            else scanVariants parseRef cfg fl rest
      else scanVariants parseRef cfg fl rest

/-- `extractMedia(b, more_mode)` from the point where the manifest at `b` has been
fetched and decoded: `master` is the decoded variant list, or the error of the
fetch/decode steps. In enumerate mode (`debug_mode && more_mode`) the function
prints its report and returns two empty strings. -/
def extractMedia (sortSlice : List Variant → List Variant) (parseRef : String → Option String)
    (cfg : ConfigSet) (fl : Flags) (master : Except ExtractError (List Variant))
    (more_mode : Bool) : Outcome :=
  match master with
  | .error e => .error e
  | .ok variants =>
    let sorted := sortSlice variants
    if fl.debug_mode ∧ more_mode = true then .ok "" ""
    else
      match scanVariants parseRef cfg fl sorted with
      | .chosen _ streamUrl Quality => .ok streamUrl Quality
      | .failed e => .error e
      | .panicked => .panic
      | .exhausted => .error .noCodecFound

/-- The variant `extractMedia` selects in selection mode, when it selects one. -/
def selectedVariant (sortSlice : List Variant → List Variant) (parseRef : String → Option String)
    (cfg : ConfigSet) (fl : Flags) (variants : List Variant) : Option Variant :=
  match scanVariants parseRef cfg fl (sortSlice variants) with
  | .chosen v _ _ => some v
  | _ => none

/-- The order `less(i, j)` of `extractMedia` read as "not after": descending average bandwidth. -/
def bwGe (a b : Variant) : Prop := b.AverageBandwidth ≤ a.AverageBandwidth

instance : DecidableRel bwGe := fun a b => Nat.decLe b.AverageBandwidth a.AverageBandwidth

/-- A stable sort meeting `SortSliceSpec` (insertion sort, as `sort.Slice` uses on short slices). -/
def stableSortSlice (l : List Variant) : List Variant := List.insertionSort bwGe l

/-- Another sort meeting `SortSliceSpec`, which leaves equal elements in reverse input order. -/
def reversingSortSlice (l : List Variant) : List Variant := List.insertionSort bwGe l.reverse

/-- A reference resolver for examples: the manifest lives under `https://h/`. -/
def sampleParseRef (uri : String) : Option String := some ("https://h/" ++ uri)

/-! ## Acceptance conditions of the selection loop -/

/-- The sample rate the ALAC branch parses from a label: `Atoi(split[length-2])`. -/
def sampleRate? (v : Variant) : Option Int :=
  (index? (Split v.Audio '-') (((Split v.Audio '-').length : Int) - 2)).bind Atoi

/-- The bit depth the ALAC branch reads from a label: `split[length-1]`. -/
def bitDepth? (v : Variant) : Option String :=
  index? (Split v.Audio '-') (((Split v.Audio '-').length : Int) - 1)

/-- The number the ATMOS branch parses from a label: `Atoi(split[length-1])`. -/
def trailingNumber? (v : Variant) : Option Int :=
  (index? (Split v.Audio '-') (((Split v.Audio '-').length : Int) - 1)).bind Atoi

/-- An optional number is present and at most the ceiling. -/
def withinCeiling (x : Option Int) (ceiling : Int) : Prop :=
  match x with
  | some n => n ≤ ceiling
  | none => False

instance (x : Option Int) (ceiling : Int) : Decidable (withinCeiling x ceiling) :=
  match x with
  | some n => Int.decLe n ceiling
  | none => isFalse (fun h => h)

/-- ALAC mode accepts `v`: codec `alac` and parsed sample rate within `Config.AlacMax`. -/
def alacQualifies (cfg : ConfigSet) (v : Variant) : Prop :=
  v.Codecs = "alac" ∧ withinCeiling (sampleRate? v) cfg.AlacMax

/-- ATMOS mode accepts `v` as Dolby Atmos: codec `ec-3`, label containing `atmos`,
trailing number within `Config.AtmosMax`. -/
def atmosQualifies (cfg : ConfigSet) (v : Variant) : Prop :=
  v.Codecs = "ec-3" ∧ Contains v.Audio "atmos" = true ∧ withinCeiling (trailingNumber? v) cfg.AtmosMax

/-- AAC mode accepts `v`: codec `mp4a.40.2` and normalised label equal to `Config.AacType`. -/
def aacMatches (cfg : ConfigSet) (v : Variant) : Prop :=
  v.Codecs = "mp4a.40.2" ∧ aacregexReplaceAll v.Audio = cfg.AacType

/-- The acceptance condition of the active mode (`dl_atmos`, else `dl_aac`, else ALAC). -/
def accepts (cfg : ConfigSet) (fl : Flags) (v : Variant) : Prop :=
  if fl.dl_atmos then atmosQualifies cfg v ∨ v.Codecs = "ac-3"
  else if fl.dl_aac then aacMatches cfg v
  else alacQualifies cfg v

instance (cfg : ConfigSet) (v : Variant) : Decidable (alacQualifies cfg v) := by
  unfold alacQualifies; infer_instance

instance (cfg : ConfigSet) (v : Variant) : Decidable (atmosQualifies cfg v) := by
  unfold atmosQualifies; infer_instance

instance (cfg : ConfigSet) (v : Variant) : Decidable (aacMatches cfg v) := by
  unfold aacMatches; infer_instance

instance (cfg : ConfigSet) (fl : Flags) (v : Variant) : Decidable (accepts cfg fl v) := by
  unfold accepts; infer_instance

/-- The label of `v` can be read by the branch of the active mode that looks at it:
the number parses (ATMOS, ALAC) and the indexed fields exist (ALAC, AAC). -/
def labelReadable (cfg : ConfigSet) (fl : Flags) (v : Variant) : Prop :=
  if fl.dl_atmos then
    (v.Codecs = "ec-3" ∧ Contains v.Audio "atmos" = true) → trailingNumber? v ≠ none
  else if fl.dl_aac then
    aacMatches cfg v → index? (Split v.Audio '-') 2 ≠ none
  else
    v.Codecs = "alac" → sampleRate? v ≠ none

/-! ## Sample inputs -/

/-- The ALAC scenario of the specification, labels as written there
(bit depth before sample rate). -/
def scenarioManifest : List Variant :=
  [{ URI := "a.m3u8", Codecs := "alac", Audio := "audio-alac-stereo-24-48000",
     Bandwidth := 1000000, AverageBandwidth := 1000000 },
   { URI := "b.m3u8", Codecs := "alac", Audio := "audio-alac-stereo-16-44100",
     Bandwidth := 800000, AverageBandwidth := 800000 }]

/-- The ALAC scenario with labels in the order the code reads them
(sample rate before bit depth). -/
def scenarioManifestRateFirst : List Variant :=
  [{ URI := "a.m3u8", Codecs := "alac", Audio := "audio-alac-stereo-48000-24",
     Bandwidth := 1000000, AverageBandwidth := 1000000 },
   { URI := "b.m3u8", Codecs := "alac", Audio := "audio-alac-stereo-44100-16",
     Bandwidth := 800000, AverageBandwidth := 800000 }]

/-- Configuration of the ALAC scenario: ceiling 48000. -/
def scenarioConfig : ConfigSet := { AlacMax := 48000 }

/-- ALAC mode: neither `dl_atmos` nor `dl_aac`. -/
def alacFlags : Flags := {}

/-- ATMOS mode: `dl_atmos`. -/
def atmosFlags : Flags := { dl_atmos := true }

/-- AAC mode: `dl_aac` and not `dl_atmos`. -/
def aacFlags : Flags := { dl_aac := true }

/-- Two ALAC variants within the ceiling that share one average bandwidth. -/
def tieManifest : List Variant :=
  [{ URI := "a.m3u8", Codecs := "alac", Audio := "audio-alac-stereo-44100-16",
     Bandwidth := 800000, AverageBandwidth := 800000 },
   { URI := "b.m3u8", Codecs := "alac", Audio := "audio-alac-stereo-48000-24",
     Bandwidth := 800000, AverageBandwidth := 800000 }]

/-- A Dolby Atmos variant within the default ceiling 2768. -/
def atmosVariant : Variant :=
  { URI := "atmos.m3u8", Codecs := "ec-3", Audio := "audio-atmos-2768",
    Bandwidth := 768000, AverageBandwidth := 768000 }

/-- A Dolby Audio (`ac-3`) variant of greater average bandwidth than `atmosVariant`. -/
def dolbyAudioVariant : Variant :=
  { URI := "ac3.m3u8", Codecs := "ac-3", Audio := "audio-ac3-896",
    Bandwidth := 896000, AverageBandwidth := 896000 }

/-- A manifest offering both a qualifying Atmos variant and an `ac-3` variant. -/
def dolbyManifest : List Variant := [atmosVariant, dolbyAudioVariant]

/-- An ALAC manifest whose variant of greatest bandwidth has no number where the
sample rate is read, followed by a variant within the ceiling 48000. -/
def unreadableManifest : List Variant :=
  [{ URI := "x.m3u8", Codecs := "alac", Audio := "audio-alac-stereo-hires-24",
     Bandwidth := 2000000, AverageBandwidth := 2000000 },
   { URI := "b.m3u8", Codecs := "alac", Audio := "audio-alac-stereo-44100-16",
     Bandwidth := 800000, AverageBandwidth := 800000 }]

/-- An AAC manifest: binaural, plain stereo and downmix variants. -/
def aacManifest : List Variant :=
  [{ URI := "bin.m3u8", Codecs := "mp4a.40.2", Audio := "audio-stereo-256-binaural",
     Bandwidth := 270000, AverageBandwidth := 270000 },
   { URI := "st.m3u8", Codecs := "mp4a.40.2", Audio := "audio-stereo-256",
     Bandwidth := 265000, AverageBandwidth := 265000 },
   { URI := "dm.m3u8", Codecs := "mp4a.40.2", Audio := "audio-stereo-256-downmix",
     Bandwidth := 260000, AverageBandwidth := 260000 }]

/-! ## Interactive track selection in `rip` -/

/-- Go `unicode.IsSpace`. -/
def isSpace (c : Char) : Bool :=
  c = '\t' || c = '\n' || c.toNat = 0x0B || c.toNat = 0x0C || c = '\r' || c = ' ' ||
  c.toNat = 0x85 || c.toNat = 0xA0 || c.toNat = 0x1680 ||
  (0x2000 ≤ c.toNat && c.toNat ≤ 0x200A) ||
  c.toNat = 0x2028 || c.toNat = 0x2029 || c.toNat = 0x202F || c.toNat = 0x205F ||
  c.toNat = 0x3000

/-- Go `strings.TrimSpace`. -/
def TrimSpace (s : String) : String :=
  String.mk ((s.toList.dropWhile isSpace).reverse.dropWhile isSpace).reverse

/-- The array `arr` of `rip`: `1, 2, ..., trackTotal`. -/
def arr (trackTotal : Nat) : List Int :=
  (List.range trackTotal).map (fun i => (i : Int) + 1)

/-- The values of `i` in `for i := start; i <= end; i++`. -/
def intRange (start stop : Int) : List Int :=
  (List.range (stop - start + 1).toNat).map (fun k => start + (k : Int))

/-- The first loop of the interactive branch: each comma-separated part becomes its
`-`-separated pieces when it contains `-`, and itself otherwise. -/
def selectedOptions (input : String) : List (List String) :=
  (Split input ',').map (fun part => if Contains part "-" = true then Split part '-' else [part])

/-- One iteration of `for _, opt := range selectedOptions`, over `n = len(arr)` tracks. -/
def selectOption (n : Nat) (selected : List Int) (opt : List String) : List Int :=
  match opt with
  | [single] =>
    match Atoi single with
    | none => selected
    | some num => if num > 0 ∧ num ≤ (n : Int) then selected ++ [num] else selected
  | [first, second] =>
    match Atoi first, Atoi second with
    | some start, some stop =>
      if start < 1 ∨ stop > (n : Int) ∨ start > stop then selected
      else selected ++ intRange start stop
    | _, _ => selected
  | _ => selected

/-- The slice `selected` that `rip` builds from the line read in interactive mode
(`dl_select`), from the `strings.TrimSpace` on. -/
def ripSelected (trackTotal : Nat) (input : String) : List Int :=
  let input := TrimSpace input
  if input = "all" then arr trackTotal
  else (selectedOptions input).foldl (selectOption trackTotal) []

/-- What one comma-separated token adds to `selected`. -/
def tokenIndices (n : Nat) (token : String) : List Int :=
  selectOption n [] (if Contains token "-" = true then Split token '-' else [token])

/-- Every way to cut `cs` at one of its `-` characters: the text before and the text after. -/
def dashCuts : List Char → List (List Char × List Char)
  | [] => []
  | c :: cs =>
    (if c = '-' then [([], cs)] else []) ++ (dashCuts cs).map (fun p => (c :: p.1, p.2))

/-- Specification side: `[k]` for a token that is an integer `k` with `1 ≤ k ≤ n`. -/
def singleIndex? (n : Nat) (token : String) : Option (List Int) :=
  match Atoi token with
  | some k => if 1 ≤ k ∧ k ≤ (n : Int) then some [k] else none
  | none => none

/-- Specification side: `[a..b]` for the two sides `a`, `b` of a cut `a-b` that are
integers with `1 ≤ a ≤ b ≤ n`. -/
def rangeOfCut (n : Nat) (p : List Char × List Char) : Option (List Int) :=
  match Atoi (String.mk p.1), Atoi (String.mk p.2) with
  | some a, some b => if 1 ≤ a ∧ a ≤ b ∧ b ≤ (n : Int) then some (intRange a b) else none
  | _, _ => none

/-- Specification side: what a token contributes, in the words of the specification:
`[k]` for an integer `k` with `1 ≤ k ≤ n`, `[a..b]` for a token `a-b` with
`1 ≤ a ≤ b ≤ n`, and nothing for any other token. A text is an integer when
`strconv.Atoi` accepts it (optional sign, decimal digits, no blanks), and a token is
`a-b` when it can be cut at one of its `-` characters into `a` and `b`. -/
def tokenIndicesSpec (n : Nat) (token : String) : List Int :=
  match singleIndex? n token with
  | some l => l
  | none =>
    match (dashCuts token.toList).findSome? (rangeOfCut n) with
    | some l => l
    | none => []

/-! ## Track file names in `downloadTrack` -/

/-- The constant `maxNameLength`. -/
def maxNameLength : Nat := 100

/-- The fields of `track.Attributes` read by the embedded code. -/
structure TrackAttributes where
  Name : String := ""
  ArtistName : String := ""
  ContentRating : String := ""
  DiscNumber : Int := 1
  TrackNumber : Int := 1
  IsAppleDigitalMaster : Bool := false
  AlbumName : String := ""
  GenreNames : List String := ["Music"]
  AudioTraits : List String := []
deriving DecidableEq, Repr

/-- An element of `Relationships.Artists.Data`. -/
structure ArtistRef where
  ID : String := ""
deriving DecidableEq, Repr

/-- An element of a track's `Relationships.Albums.Data`, with the attributes read
(`Attributes.ArtistName`, `Attributes.URL`). -/
structure AlbumRef where
  ArtistName : String := ""
  URL : String := ""
deriving DecidableEq, Repr

/-- `track.Relationships`: the lists `Artists.Data` and `Albums.Data`. -/
structure TrackRelationships where
  Artists : List ArtistRef := []
  Albums : List AlbumRef := []
deriving DecidableEq, Repr

/-- The fields of `structs.TrackData` read by the embedded code (`Type_` is the Go
field `Type`). -/
structure TrackData where
  ID : String := ""
  Type_ : String := "songs"
  Attributes : TrackAttributes := {}
  Relationships : TrackRelationships := {}
deriving DecidableEq, Repr

/-- `LimitString`: the first `Config.LimitMax` runes of `s` when it has more; `none` is
the slice-bounds panic of `[]rune(s)[:Config.LimitMax]` for a negative limit. -/
def LimitString (cfg : ConfigSet) (s : String) : Option String :=
  if (s.length : Int) > cfg.LimitMax then
    if cfg.LimitMax < 0 then none else some (String.mk (s.toList.take cfg.LimitMax.toNat))
  else some s

/-- The generic replacer of `strings.NewReplacer`: scanning left to right, at each
position the first pair in argument order whose old text starts there is applied and
the scan resumes after the match. The counter is the number of characters of the
current match still to be dropped. -/
def replaceChars (pairs : List (List Char × List Char)) : Nat → List Char → List Char
  | _, [] => []
  | k + 1, _ :: cs => replaceChars pairs k cs
  | 0, c :: cs =>
    match pairs.find? (fun p => p.1.isPrefixOf (c :: cs)) with
    | some p => p.2 ++ replaceChars pairs (p.1.length - 1) cs
    | none => c :: replaceChars pairs 0 cs

/-- Go `strings.NewReplacer(oldnew...).Replace(s)`, all old texts non-empty. -/
def Replace (oldnew : List (String × String)) (s : String) : String :=
  String.mk (replaceChars (oldnew.map (fun p => (p.1.toList, p.2.toList))) 0 s.toList)

/-- A character matched by `forbiddenNames`, the class of the nine characters
slash, backslash, less-than, greater-than, colon, double quote, bar, question mark, star. -/
def forbiddenChar (c : Char) : Bool :=
  c = '/' || c.toNat = 92 || c = '<' || c = '>' || c = ':' || c.toNat = 34 || c = '|' ||
  c = '?' || c = '*'

/-- `forbiddenNames.ReplaceAllString(s, "_")`. -/
def forbiddenNamesReplaceAll (s : String) : String :=
  String.mk (s.toList.map (fun c => if forbiddenChar c then '_' else c))

/-- `fmt.Sprintf("%02d", i)`. -/
def fmt02d (i : Int) : String :=
  if 0 ≤ i ∧ i < 10 then "0" ++ toString i else toString i

/-- `fmt.Sprintf("%0d", i)`. -/
def fmt0d (i : Int) : String := toString i

/-- `Tag_string` of `downloadTrack`: the configured marks for Apple Digital Master,
explicit and clean tracks, joined by one space. -/
def Tag_string (cfg : ConfigSet) (track : TrackData) : String :=
  " ".intercalate
    ((if track.Attributes.IsAppleDigitalMaster = true ∧ cfg.AppleMasterChoice ≠ ""
        then [cfg.AppleMasterChoice] else []) ++
     (if track.Attributes.ContentRating = "explicit" ∧ cfg.ExplicitChoice ≠ ""
        then [cfg.ExplicitChoice] else []) ++
     (if track.Attributes.ContentRating = "clean" ∧ cfg.CleanChoice ≠ ""
        then [cfg.CleanChoice] else []))

/-- `songName` of `downloadTrack`: the template `Config.SongFileFormat` rendered with the
track's fields; `none` when a `LimitString` call panics. -/
def songName (cfg : ConfigSet) (track : TrackData) (trackNum : Int) (Quality Codec : String) :
    Option String :=
  match LimitString cfg track.Attributes.Name with
  | none => none
  | some name =>
    match LimitString cfg track.Attributes.ArtistName with
    | none => none
    | some artist =>
      some (Replace
        [("\x7bSongId\x7d", track.ID),
         ("\x7bSongNumer\x7d", fmt02d trackNum),
         ("\x7bSongName\x7d", name),
         ("\x7bDiscNumber\x7d", fmt0d track.Attributes.DiscNumber),
         ("\x7bTrackNumber\x7d", fmt0d track.Attributes.TrackNumber),
         ("\x7bQuality\x7d", Quality),
         ("\x7bTag\x7d", Tag_string cfg track),
         ("\x7bCodec\x7d", Codec),
         ("\x7bArtistName\x7d", artist)]
        cfg.SongFileFormat)

/-- `songNameFallback` of `downloadTrack`: the same template rendered with the track ID
as song name and the other descriptive fields blank. -/
def songNameFallback (cfg : ConfigSet) (track : TrackData) (trackNum : Int) : String :=
  Replace
    [("\x7bSongId\x7d", track.ID),
     ("\x7bSongNumer\x7d", fmt02d trackNum),
     ("\x7bSongName\x7d", track.ID),
     ("\x7bDiscNumber\x7d", ""),
     ("\x7bTrackNumber\x7d", ""),
     ("\x7bQuality\x7d", ""),
     ("\x7bTag\x7d", ""),
     ("\x7bCodec\x7d", ""),
     ("\x7bArtistName\x7d", "")]
    cfg.SongFileFormat

/-- The ID-based fallback file name. -/
def fallbackFilename (cfg : ConfigSet) (track : TrackData) (trackNum : Int) : String :=
  forbiddenNamesReplaceAll (songNameFallback cfg track trackNum) ++ ".m4a"

/-- The value of `filename` in `downloadTrack` once the length check has run; `len` is
the byte length. `none` when rendering panics. -/
def filename (cfg : ConfigSet) (track : TrackData) (trackNum : Int) (Quality Codec : String) :
    Option String :=
  match songName cfg track trackNum Quality Codec with
  | none => none
  | some rendered =>
    if (forbiddenNamesReplaceAll rendered ++ ".m4a").utf8ByteSize > maxNameLength then
      some (fallbackFilename cfg track trackNum)
    else some (forbiddenNamesReplaceAll rendered ++ ".m4a")

/-- A template with a long literal part. -/
def longTemplateConfig : ConfigSet :=
  { SongFileFormat :=
      "Apple Music Lossless Library - Original Studio Album Release - Apple Digital Master - \x7bSongNumer\x7d. \x7bSongName\x7d" }

/-- A track with a ten-digit catalogue ID. -/
def sampleTrack : TrackData :=
  { ID := "1440857781", Attributes := { Name := "Bohemian Rhapsody", ArtistName := "Queen" } }

/-! ## The completion ledger in `rip` -/

/-- The fields of `structs.Counter`. -/
structure Counter where
  Unavailable : Int := 0
  NotSong : Int := 0
  Error : Int := 0
  Success : Int := 0
  Total : Int := 0
deriving DecidableEq, Repr

/-- The package-level variables `counter` and `okDict` (a map from entity id to the list
of completed track ordinals, kept as an association list). -/
structure RunState where
  counter : Counter := {}
  okDict : List (String × List Int) := []
deriving DecidableEq, Repr

/-- `okDict[albumId]`: the zero value (empty slice) for a missing key. -/
def okDictGet (okDict : List (String × List Int)) (albumId : String) : List Int :=
  (okDict.lookup albumId).getD []

/-- `isInArray`. -/
def isInArray : List Int → Int → Bool
  | [], _ => false
  | num :: rest, target => if num = target then true else isInArray rest target

/-- `counter.Total++; counter.Success++` of the ledger branch of `rip`. -/
def countLedgerHit (st : RunState) : RunState :=
  { st with counter :=
      { st.counter with Total := st.counter.Total + 1, Success := st.counter.Success + 1 } }

/-- The final loop of `rip`, `for trackNum, track := range ...Tracks.Data` with
`trackNum++` at the top of the body; the first argument after `selected` is the ordinal
of the head of the list. `downloadTrack` is the effect of a call of that function on the
counters and the ledger; the second component of the state records, in order, the
ordinals for which it was called. -/
def ripTrackLoop (downloadTrack : Int → TrackData → RunState → RunState) (albumId : String)
    (selected : List Int) : Int → List TrackData → RunState × List Int → RunState × List Int
  | _, [], acc => acc
  | trackNum, track :: rest, (st, calls) =>
    if isInArray (okDictGet st.okDict albumId) trackNum = true then
      ripTrackLoop downloadTrack albumId selected (trackNum + 1) rest (countLedgerHit st, calls)
    else if isInArray selected trackNum = true then
      ripTrackLoop downloadTrack albumId selected (trackNum + 1) rest
        (downloadTrack trackNum track st, calls ++ [trackNum])
    else
      ripTrackLoop downloadTrack albumId selected (trackNum + 1) rest (st, calls)

/-- The search loop of the single-track branch of `rip`: the first track whose ID equals
`urlArg_i`, with its ordinal. -/
def findTrack (urlArg_i : String) : Int → List TrackData → Option (Int × TrackData)
  | _, [] => none
  | trackNum, track :: rest =>
    if urlArg_i = track.ID then some (trackNum, track) else findTrack urlArg_i (trackNum + 1) rest

/-- The part of `rip` from `trackTotal := len(...)` to the end: single-track mode
(`dl_song`), else all tracks or the interactive selection (`dl_select`, with the line
read from standard input), then the final loop. The result is the state left behind and
the ordinals for which `downloadTrack` was called. -/
def ripTracks (downloadTrack : Int → TrackData → RunState → RunState) (fl : Flags)
    (albumId urlArg_i input : String) (tracks : List TrackData) (st : RunState) :
    RunState × List Int :=
  if fl.dl_song = true then
    if urlArg_i = "" then (st, [])
    else
      match findTrack urlArg_i 1 tracks with
      | some (trackNum, track) => (downloadTrack trackNum track st, [trackNum])
      | none => (st, [])
  else
    let selected := if fl.dl_select = false then arr tracks.length
      else ripSelected tracks.length input
    ripTrackLoop downloadTrack albumId selected 1 tracks (st, [])

/-- A stand-in effect of `downloadTrack` for examples: a successful download, which
counts the track and records its ordinal in the ledger of the album `a1`. -/
def sampleDownloadTrack (trackNum : Int) (_track : TrackData) (st : RunState) : RunState :=
  { counter := { st.counter with Total := st.counter.Total + 1,
                                  Success := st.counter.Success + 1 },
    okDict := [("a1", okDictGet st.okDict "a1" ++ [trackNum])] }

/-- A ledger that lists ordinal 1 of the album `a1` as completed. -/
def ledgerState : RunState := { okDict := [("a1", [1])] }

/-- A track whose title makes the default rendering longer than `maxNameLength`. -/
def longNameTrack : TrackData :=
  { ID := "1440857781",
    Attributes :=
      { Name := "Symphony No. 9 in D Minor, Op. 125 Choral - IV. Finale. Presto - Allegro assai - Allegro assai vivace (Live)",
        ArtistName := "Berliner Philharmoniker" } }

/-! ## URL shapes: `checkUrl` and its siblings -/

/-- The class `\w` of Go regular expressions: ASCII letters, digits and underscore. -/
def isWordChar (c : Char) : Bool := c.isAlphanum || c = '_'

/-- The text after the literal `lit` when `s` starts with it. -/
def afterLit : List Char → List Char → Option (List Char)
  | [], s => some s
  | _ :: _, [] => none
  | a :: lit, c :: s => if a = c then afterLit lit s else none

/-- The first part of every URL pattern, anchored at the start of the text,
`^https:\/\/(?:beta\.music|music)\.apple\.com\/(\w{2})`: the two captured characters
and the text after them. -/
def matchStorefront (s : List Char) : Option (List Char × List Char) :=
  match afterLit "https://".toList s with
  | none => none
  | some r1 =>
    match (match afterLit "beta.music".toList r1 with
           | some r => some r
           | none => afterLit "music".toList r1) with
    | none => none
    | some r2 =>
      match afterLit ".apple.com/".toList r2 with
      | some (a :: b :: r3) =>
        if isWordChar a = true ∧ isWordChar b = true then some ([a, b], r3) else none
      | _ => none

/-- The text after an optional `id`, the group `(?:id)?`. -/
def afterOptionalId : List Char → List Char
  | 'i' :: 'd' :: r => r
  | r => r

/-- The end of the album, song, artist and music-video patterns at the start of `s`,
`\/(?:id)?(\d[^\D]+)(?:$|\?)`: a slash, an optional `id`, a run of at least two decimal
digits that ends the text or is followed by `?`; the result is the captured run. -/
def matchNumericId (s : List Char) : Option (List Char) :=
  match s with
  | '/' :: r =>
    let digits := (afterOptionalId r).takeWhile Char.isDigit
    let rest := (afterOptionalId r).dropWhile Char.isDigit
    if 2 ≤ digits.length ∧ (rest = [] ∨ rest.head? = some '?') then some digits else none
  | _ => none

/-- The end of the playlist pattern at the start of `s`, `\/(?:id)?(pl\.[\w-]+)(?:$|\?)`. -/
def matchPlaylistId (s : List Char) : Option (List Char) :=
  match s with
  | '/' :: r =>
    match afterLit "pl.".toList (afterOptionalId r) with
    | none => none
    | some r3 =>
      let body := r3.takeWhile (fun c => isWordChar c || c = '-')
      let rest := r3.dropWhile (fun c => isWordChar c || c = '-')
      if 1 ≤ body.length ∧ (rest = [] ∨ rest.head? = some '?') then
        some ("pl.".toList ++ body)
      else none
  | _ => none

/-- A greedy `.*` (any characters but newline, as many as possible) followed by `tail`. -/
def dotStar {α : Type} (tail : List Char → Option α) : List Char → Option α
  | [] => tail []
  | c :: cs =>
    if c = '\n' then tail (c :: cs)
    else
      match dotStar tail cs with
      | some r => some r
      | none => tail (c :: cs)

/-- A greedy `.+` followed by `tail`. -/
def dotPlus {α : Type} (tail : List Char → Option α) : List Char → Option α
  | [] => none
  | c :: cs => if c = '\n' then none else dotStar tail cs

/-- The group `(?:\/kind|\/kind\/.+)` followed by `tail`: the first alternative is
preferred, the second is tried when the first leads to no match. -/
def matchKind (kind : String) (tail : List Char → Option (List Char)) (s : List Char) :
    Option (List Char) :=
  match (match afterLit ("/" ++ kind).toList s with
         | some r => tail r
         | none => none) with
  | some id => some id
  | none =>
    match afterLit ("/" ++ kind ++ "/").toList s with
    | some r => dotPlus tail r
    | none => none

/-- The common body of the five `checkUrl` functions: the two groups of the first match
of the pattern for `kind`, or two empty strings when the text does not match. -/
def checkUrlWith (kind : String) (tail : List Char → Option (List Char)) (url : String) :
    String × String :=
  match matchStorefront url.toList with
  | none => ("", "")
  | some (storefront, r) =>
    match matchKind kind tail r with
    | none => ("", "")
    | some id => (String.mk storefront, String.mk id)

/-- `checkUrl`: album URLs. -/
def checkUrl (url : String) : String × String := checkUrlWith "album" matchNumericId url

/-- `checkUrlMv`: music-video URLs. -/
def checkUrlMv (url : String) : String × String :=
  checkUrlWith "music-video" matchNumericId url

/-- `checkUrlSong`: song URLs. -/
def checkUrlSong (url : String) : String × String := checkUrlWith "song" matchNumericId url

/-- `checkUrlPlaylist`: playlist URLs. -/
def checkUrlPlaylist (url : String) : String × String :=
  checkUrlWith "playlist" matchPlaylistId url

/-- `checkUrlArtist`: artist URLs. -/
def checkUrlArtist (url : String) : String × String :=
  checkUrlWith "artist" matchNumericId url

/-- What the claims say of a result of the numeric `checkUrl` functions: two empty
strings, or a two-character storefront and a non-empty id of decimal digits that occurs
in the URL. -/
def NumericResult (url : String) (r : String × String) : Prop :=
  r = ("", "") ∨
  (r.1.length = 2 ∧ r.2 ≠ "" ∧ (∀ c ∈ r.2.toList, c.isDigit = true) ∧
    r.1.toList <:+: url.toList ∧ r.2.toList <:+: url.toList)

/-- What the claims say of a result of `checkUrlPlaylist`: two empty strings, or a
two-character storefront and an id that begins with `pl.` and occurs in the URL. -/
def PlaylistResult (url : String) (r : String × String) : Prop :=
  r = ("", "") ∨
  (r.1.length = 2 ∧ r.2 ≠ "" ∧ "pl.".toList <+: r.2.toList ∧
    r.1.toList <:+: url.toList ∧ r.2.toList <:+: url.toList)

/-! ## `extractVideo` -/

/-- `fmt.Sscanf(text, "%d", &n)` on a run of decimal digits: the number, or `none` for
the error returned when it does not fit a 64-bit `int`. -/
def sscanDigits (digits : List Char) : Option Int :=
  match parseDigits digits 0 with
  | some n => if (n : Int) ≤ 2 ^ 63 - 1 then some (n : Int) else none
  | none => none

/-- The pattern `(\d+)x(\d+)` at the start of `s` (greedy digit runs): the two groups. -/
def resolutionAt (s : List Char) : Option (List Char × List Char) :=
  match s.takeWhile Char.isDigit, s.dropWhile Char.isDigit with
  | w :: ws, 'x' :: r =>
    match r.takeWhile Char.isDigit with
    | h :: hs => some (w :: ws, h :: hs)
    | [] => none
  | _, _ => none

/-- `regexp.MustCompile("_(\\d+)x(\\d+)").FindStringSubmatch(s)`: the two groups of the
leftmost match. -/
def findResolution : List Char → Option (List Char × List Char)
  | [] => none
  | c :: cs =>
    if c = '_' then
      match resolutionAt cs with
      | some p => some p
      | none => findResolution cs
    else findResolution cs

/-- The height `extractVideo` reads from the URI of a variant, when the pattern matches
and the number scans. -/
def videoHeight? (v : Variant) : Option Int :=
  (findResolution v.URI.toList).bind (fun p => sscanDigits p.2)

/-- The errors `extractVideo` returns. -/
inductive VideoError where
  /-- the manifest could not be fetched or is not a master playlist -/
  | manifest (msg : String)
  /-- the error of resolving a variant URI against the manifest URL -/
  | urlParse (uri : String)
  /-- `errors.New("no suitable video stream found")` -/
  | noSuitableVideo
deriving DecidableEq, Repr

/-- How the loop of `extractVideo` ends. -/
inductive VideoScan where
  /-- `break` with `streamUrl` set from `variant` -/
  | chosen (variant : Variant) (streamUrl : String)
  /-- `return "", err` inside the loop -/
  | failed (e : VideoError)
  /-- the loop ran to the end, `streamUrl` is still nil -/
  | exhausted
deriving DecidableEq, Repr

/-- The loop of `extractVideo` over the already sorted variants. -/
def scanVideo (parseRef : String → Option String) (cfg : ConfigSet) : List Variant → VideoScan
  | [] => .exhausted
  | variant :: rest =>
    match findResolution variant.URI.toList with
    | some groups =>
      match sscanDigits groups.2 with
      | none => scanVideo parseRef cfg rest
      | some h =>
        if h ≤ cfg.MVMax then
          match parseRef variant.URI with
          | none => .failed (.urlParse variant.URI)
          | some streamUrl => .chosen variant streamUrl
        else scanVideo parseRef cfg rest
    | none => scanVideo parseRef cfg rest

/-- What a call of `extractVideo` ends in. -/
inductive VideoOutcome where
  /-- `return streamUrl.String(), nil` -/
  | ok (url : String)
  /-- `return "", err` -/
  | error (e : VideoError)
deriving DecidableEq, Repr

/-- `extractVideo(c)` from the point where the manifest at `c` has been fetched and
decoded. -/
def extractVideo (sortSlice : List Variant → List Variant) (parseRef : String → Option String)
    (cfg : ConfigSet) (video : Except VideoError (List Variant)) : VideoOutcome :=
  match video with
  | .error e => .error e
  | .ok variants =>
    match scanVideo parseRef cfg (sortSlice variants) with
    | .chosen _ streamUrl => .ok streamUrl
    | .failed e => .error e
    | .exhausted => .error .noSuitableVideo

/-- The variant `extractVideo` selects, when it selects one. -/
def selectedVideo (sortSlice : List Variant → List Variant) (parseRef : String → Option String)
    (cfg : ConfigSet) (variants : List Variant) : Option Variant :=
  match scanVideo parseRef cfg (sortSlice variants) with
  | .chosen v _ => some v
  | _ => none

/-- The variant qualifies for `extractVideo`: its encoded height is at most `Config.MVMax`. -/
def videoQualifies (cfg : ConfigSet) (v : Variant) : Prop :=
  withinCeiling (videoHeight? v) cfg.MVMax

instance (cfg : ConfigSet) (v : Variant) : Decidable (videoQualifies cfg v) := by
  unfold videoQualifies; infer_instance

/-- A music-video manifest with 2160, 1080 and 720 line variants. -/
def videoManifest : List Variant :=
  [{ URI := "v_3840x2160_a.m3u8", Bandwidth := 20000000, AverageBandwidth := 20000000 },
   { URI := "v_1920x1080_a.m3u8", Bandwidth := 8000000, AverageBandwidth := 8000000 },
   { URI := "v_1280x720_a.m3u8", Bandwidth := 4000000, AverageBandwidth := 4000000 }]

/-! ## `extractMvAudio` -/

/-- One entry of `audioStreams` in `extractMvAudio`. -/
structure AudioStream where
  URL : String := ""
  Rank : Int := 0
  GroupID : String := ""
deriving DecidableEq, Repr

/-- `regexp.MustCompile("_gr(\\d+)_").FindStringSubmatch(s)`: the group of the leftmost
match. -/
def findRank : List Char → Option (List Char)
  | [] => none
  | c :: cs =>
    if c = '_' then
      match afterLit "gr".toList cs with
      | some r =>
        match r.takeWhile Char.isDigit, (r.dropWhile Char.isDigit).head? with
        | d :: ds, some '_' => some (d :: ds)
        | _, _ => findRank cs
      | none => findRank cs
    else findRank cs

/-- `audioPriority` of `extractMvAudio`. -/
def audioPriority (cfg : ConfigSet) : List String :=
  if cfg.MVAudioType = "ac3" then ["audio-ac3", "audio-stereo-256"]
  else if cfg.MVAudioType = "aac" then ["audio-stereo-256"]
  else ["audio-atmos", "audio-ac3", "audio-stereo-256"]

/-- The loop `for _, priority := range audioPriority` for one alternative: the streams
appended to `audioStreams`, or `none` for the nil dereference of `streamUrl.String()`
when the URI does not resolve. `rank` stays 0 when the number does not scan. -/
def streamsOfAlternative (parseRef : String → Option String) (audiov : Alternative) :
    List String → Option (List AudioStream)
  | [] => some []
  | priority :: rest =>
    if audiov.GroupId = priority then
      match findRank audiov.URI.toList with
      | some digits =>
        match parseRef audiov.URI with
        | none => none
        | some streamUrl =>
          match streamsOfAlternative parseRef audiov rest with
          | none => none
          | some more =>
            some ({ URL := streamUrl, Rank := (sscanDigits digits).getD 0,
                    GroupID := audiov.GroupId } :: more)
      | none => streamsOfAlternative parseRef audiov rest
    else streamsOfAlternative parseRef audiov rest

/-- The two outer loops of `extractMvAudio` over the alternatives of all variants, in
order. -/
def collectStreams (parseRef : String → Option String) (priority : List String) :
    List Alternative → Option (List AudioStream)
  | [] => some []
  | audiov :: rest =>
    if audiov.URI ≠ "" then
      match streamsOfAlternative parseRef audiov priority with
      | none => none
      | some here =>
        match collectStreams parseRef priority rest with
        | none => none
        | some more => some (here ++ more)
    else collectStreams parseRef priority rest

/-- What a call of `extractMvAudio` ends in. -/
inductive AudioOutcome where
  /-- `return audioStreams[0].URL, nil` with the stream returned -/
  | ok (stream : AudioStream)
  /-- the manifest could not be fetched or is not a master playlist -/
  | manifestError (msg : String)
  /-- `errors.New("no suitable audio stream found")` -/
  | noSuitableAudio
  /-- a run-time panic -/
  | panic
deriving DecidableEq, Repr

/-- The documented contract of `sort.Slice(audioStreams, less)` with
`less(i, j) = audioStreams[i].Rank > audioStreams[j].Rank`. -/
structure SortStreamsSpec (sortStreams : List AudioStream → List AudioStream) : Prop where
  perm : ∀ l, List.Perm (sortStreams l) l
  sorted : ∀ l, List.Pairwise (fun a b => b.Rank ≤ a.Rank) (sortStreams l)

/-- `extractMvAudio(c)` from the point where the manifest at `c` has been fetched and
decoded. -/
def extractMvAudio (sortStreams : List AudioStream → List AudioStream)
    (parseRef : String → Option String) (cfg : ConfigSet)
    (audio : Except String (List Variant)) : AudioOutcome :=
  match audio with
  | .error msg => .manifestError msg
  | .ok variants =>
    match collectStreams parseRef (audioPriority cfg)
        (variants.flatMap (fun variant => variant.Alternatives)) with
    | none => .panic
    | some audioStreams =>
      if audioStreams.length = 0 then .noSuitableAudio
      else
        match sortStreams audioStreams with
        | first :: _ => .ok first
        | [] => .panic

/-- The streams `extractMvAudio` collects as candidates. -/
def candidateStreams (parseRef : String → Option String) (cfg : ConfigSet)
    (variants : List Variant) : List AudioStream :=
  (collectStreams parseRef (audioPriority cfg)
    (variants.flatMap (fun variant => variant.Alternatives))).getD []

/-- The order of `less` for streams read as "not after": descending rank. -/
def rankGe (a b : AudioStream) : Prop := b.Rank ≤ a.Rank

instance : DecidableRel rankGe := fun a b => Int.decLe b.Rank a.Rank

/-- A stable sort meeting `SortStreamsSpec`. -/
def stableSortStreams (l : List AudioStream) : List AudioStream := List.insertionSort rankGe l

/-- A music-video manifest whose Atmos rendition has a lower rank number than its stereo
rendition. -/
def mvAudioManifest : List Variant :=
  [{ URI := "v_1920x1080_a.m3u8",
     Alternatives :=
       [{ GroupId := "audio-atmos", URI := "a_gr128_atmos.m3u8" },
        { GroupId := "audio-stereo-256", URI := "a_gr256_stereo.m3u8" }] }]

/-! ## Catalog metadata and `writeMP4Tags` -/

/-- `meta.Data[0].Attributes`, with the fields read by the embedded code. -/
structure MetaAttributes where
  Name : String := ""
  ArtistName : String := ""
  ReleaseDate : String := "2020-01-01"
  Upc : String := ""
  RecordLabel : String := ""
  Copyright : String := ""
  ContentRating : String := ""
  IsAppleDigitalMaster : Bool := false
  IsMasteredForItunes : Bool := false
deriving DecidableEq, Repr

/-- `meta.Data[0].Relationships`: the lists `Artists.Data` and `Tracks.Data`. -/
structure MetaRelationships where
  Artists : List ArtistRef := []
  Tracks : List TrackData := []
deriving DecidableEq, Repr

/-- An element of `meta.Data` (`Type_` is the Go field `Type`). -/
structure MetaData where
  ID : String := ""
  Type_ : String := "albums"
  Attributes : MetaAttributes := {}
  Relationships : MetaRelationships := {}
deriving DecidableEq, Repr

/-- `structs.AutoGenerated`, the metadata of an album or playlist. -/
structure AutoGenerated where
  Data : List MetaData := []
deriving DecidableEq, Repr

/-- Go slice indexing `l[i]` with an `int` index, any element type: `none` is the
index-out-of-range panic. -/
def elemAt? {α : Type} (l : List α) (i : Int) : Option α :=
  if i < 0 then none else l.get? i.toNat

/-- The Go conversion `int16(x)`: the value of `x` modulo `2^16` in `[-2^15, 2^15)`. -/
def int16 (x : Int) : Int := (x + 2 ^ 15) % 2 ^ 16 - 2 ^ 15

/-- The Go conversion `int32(x)`: the value of `x` modulo `2^32` in `[-2^31, 2^31)`. -/
def int32 (x : Int) : Int := (x + 2 ^ 31) % 2 ^ 32 - 2 ^ 31

/-- Go `strconv.ParseUint(s, 10, 32)`: at least one decimal digit, no sign, a value
below `2^32`; `none` stands for the returned error. -/
def ParseUint32 (s : String) : Option Nat :=
  if s.toList.isEmpty then none
  else
    match parseDigits s.toList 0 with
    | some n => if n < 2 ^ 32 then some n else none
    | none => none

/-- The fields of `mp4tag.MP4Tags` that `writeMP4Tags` fills from the entity, the track
and the ordinal. -/
structure MP4Tags where
  Title : String := ""
  Artist : String := ""
  CustomGenre : String := ""
  Lyrics : String := ""
  ItunesAlbumID : Int := 0
  ItunesArtistID : Int := 0
  DiscNumber : Int := 0
  DiscTotal : Int := 0
  TrackNumber : Int := 0
  TrackTotal : Int := 0
  Album : String := ""
  AlbumSort : String := ""
  AlbumArtist : String := ""
  AlbumArtistSort : String := ""
deriving DecidableEq, Repr

/-- What a call of `writeMP4Tags` ends in. -/
inductive TagOutcome where
  /-- `return nil` after the record `t` has been written -/
  | written (t : MP4Tags)
  /-- `return err`: an ID that `ParseUint` rejects, or a failure of `mp4tag` -/
  | error
  /-- a run-time panic (index out of range) -/
  | panic
deriving DecidableEq, Repr

/-- The three-way branch of `writeMP4Tags` that sets disc, track and album fields of
`t`; `none` is an index-out-of-range panic. -/
def albumFields (cfg : ConfigSet) (album : MetaData) (track : TrackData)
    (trackNum trackTotal : Int) (t : MP4Tags) : Option MP4Tags :=
  if Contains album.ID "pl." = true ∧ cfg.UseSongInfoForPlaylist = false then
    some { t with
      DiscNumber := 1, DiscTotal := 1,
      TrackNumber := int16 trackNum, TrackTotal := int16 trackTotal,
      Album := album.Attributes.Name, AlbumSort := album.Attributes.Name,
      AlbumArtist := album.Attributes.ArtistName,
      AlbumArtistSort := album.Attributes.ArtistName }
  else if Contains album.ID "pl." = true ∧ cfg.UseSongInfoForPlaylist = true then
    match elemAt? album.Relationships.Tracks (trackTotal - 1) with
    | none => none
    | some last =>
      match elemAt? track.Relationships.Albums 0 with
      | none => none
      | some ownAlbum =>
        some { t with
          DiscNumber := int16 track.Attributes.DiscNumber,
          DiscTotal := int16 last.Attributes.DiscNumber,
          TrackNumber := int16 track.Attributes.TrackNumber,
          TrackTotal := int16 trackTotal,
          Album := track.Attributes.AlbumName, AlbumSort := track.Attributes.AlbumName,
          AlbumArtist := ownAlbum.ArtistName, AlbumArtistSort := ownAlbum.ArtistName }
  else
    match elemAt? album.Relationships.Tracks (trackTotal - 1) with
    | none => none
    | some last =>
      some { t with
        DiscNumber := int16 track.Attributes.DiscNumber,
        DiscTotal := int16 last.Attributes.DiscNumber,
        TrackNumber := int16 track.Attributes.TrackNumber,
        TrackTotal := int16 trackTotal,
        Album := track.Attributes.AlbumName, AlbumSort := track.Attributes.AlbumName,
        AlbumArtist := album.Attributes.ArtistName,
        AlbumArtistSort := album.Attributes.ArtistName }

/-- The `ItunesAlbumID` step of `writeMP4Tags`: `none` is `return err`. -/
def albumIDField (album : MetaData) (t : MP4Tags) : Option MP4Tags :=
  if Contains album.ID "pl." = true then some t
  else
    match ParseUint32 album.ID with
    | none => none
    | some albumID => some { t with ItunesAlbumID := int32 albumID }

/-- The `ItunesArtistID` step of `writeMP4Tags`: `none` is `return err`. -/
def artistIDField (album : MetaData) (track : TrackData) (t : MP4Tags) : Option MP4Tags :=
  if 0 < album.Relationships.Artists.length then
    match track.Relationships.Artists with
    | [] => some t
    | artist :: _ =>
      match ParseUint32 artist.ID with
      | none => none
      | some artistID => some { t with ItunesArtistID := int32 artistID }
  else some t

/-- `writeMP4Tags(trackPath, lrc, meta, trackNum, trackTotal)`: the record it builds and
writes. `ioErr` tells whether `mp4tag.Open` or `mp4.Write` fails. The fields that are
plain copies of track or entity attributes without influence on the control flow
(sort names, composer, dates, custom tags, advisory) are left out of the record. -/
def writeMP4Tags (cfg : ConfigSet) (lrc : String) (metadata : AutoGenerated)
    (trackNum trackTotal : Int) (ioErr : Bool) : TagOutcome :=
  match metadata.Data with
  | [] => .panic
  | album :: _ =>
    match elemAt? album.Relationships.Tracks (trackNum - 1) with
    | none => .panic
    | some track =>
      match track.Attributes.GenreNames with
      | [] => .panic
      | genre :: _ =>
        match albumIDField album
            { Title := track.Attributes.Name, Artist := track.Attributes.ArtistName,
              CustomGenre := genre, Lyrics := lrc } with
        | none => .error
        | some t1 =>
          match artistIDField album track t1 with
          | none => .error
          | some t2 =>
            match albumFields cfg album track trackNum trackTotal t2 with
            | none => .panic
            | some t => if ioErr = true then .error else .written t

/-- A playlist of two tracks from different albums. -/
def samplePlaylistData : MetaData :=
  { ID := "pl.f4d106fed2bd41149aaacabb233eb5eb", Type_ := "playlists",
    Attributes := { Name := "Rock Classics", ArtistName := "Apple Music" },
    Relationships :=
      { Tracks :=
          [{ ID := "1440857800",
             Attributes := { Name := "Bohemian Rhapsody", ArtistName := "Queen",
                             DiscNumber := 1, TrackNumber := 11,
                             AlbumName := "A Night at the Opera" },
             Relationships := { Albums := [{ ArtistName := "Queen" }] } },
           { ID := "1440650711",
             Attributes := { Name := "Comfortably Numb", ArtistName := "Pink Floyd",
                             DiscNumber := 2, TrackNumber := 6,
                             AlbumName := "The Wall" },
             Relationships := { Albums := [{ ArtistName := "Pink Floyd" }] } }] } }

/-- The metadata of `samplePlaylistData` as `getMeta` returns it. -/
def samplePlaylist : AutoGenerated := { Data := [samplePlaylistData] }

/-- The record written for the second track of `samplePlaylist` with per-song metadata
inheritance enabled. -/
def sampleInheritedTags : MP4Tags :=
  { Title := "Comfortably Numb", Artist := "Pink Floyd", CustomGenre := "Music",
    DiscNumber := 2, DiscTotal := 2, TrackNumber := 6, TrackTotal := 2,
    Album := "The Wall", AlbumSort := "The Wall",
    AlbumArtist := "Pink Floyd", AlbumArtistSort := "Pink Floyd" }

/-! ## `mvDownloader` -/

/-- What the outside world answers during one call of `mvDownloader`. -/
structure MvEnv where
  /-- `getMVInfoFromAdam` returns an error -/
  infoErr : Bool := false
  /-- an index or slice on the fetched data is out of range, or `extractMvAudio` panics -/
  panics : Bool := false
  /-- the output file is already there -/
  alreadyExists : Bool := false
  /-- the URL returned by `runv3.GetWebplayback`, empty on failure -/
  webplaybackUrl : String := "https://h/mv.m3u8"
  /-- the `MP4Box` remux fails -/
  muxErr : Bool := false
  /-- `mp4tag.Open` or `mp4.Write` fails -/
  tagErr : Bool := false
deriving DecidableEq, Repr

/-- How a call of `mvDownloader` ends. -/
inductive MvResult where
  /-- `return nil` -/
  | done
  /-- `return err` with a non-nil error -/
  | failed
  /-- a run-time panic -/
  | panicked
deriving DecidableEq, Repr

/-- `mvDownloader`: how the call ends, and whether it reached its first network request
(`getMVInfoFromAdam`). The function touches neither `counter` nor `okDict`. -/
def mvDownloader (fl : Flags) (env : MvEnv) : MvResult × Bool :=
  if fl.lyrics_only = true then (.done, false)
  else if fl.skip_mv = true then (.done, false)
  else if fl.cover_art_only = true then (.done, false)
  else if env.infoErr = true then (.done, true)
  else if env.panics = true then (.panicked, true)
  else if env.alreadyExists = true then (.done, true)
  else if env.webplaybackUrl = "" then (.failed, true)
  else if env.muxErr = true then (.failed, true)
  else if env.tagErr = true then (.failed, true)
  else (.done, true)

/-! ## `downloadTrack` -/

/-- Go `strings.HasSuffix`. -/
def HasSuffix (s suffix : String) : Bool := suffix.toList.isSuffixOf s.toList

/-- What the outside world answers during one call of `downloadTrack`. -/
structure TrackEnv where
  /-- `exec.LookPath("mp4decrypt")` succeeds -/
  mp4decryptFound : Bool := true
  /-- the answers to the call of `mvDownloader` for a music-video track -/
  mv : MvEnv := {}
  /-- `getInfoFromAdam`: `none` for an error, else `ExtendedAssetUrls.EnhancedHls` -/
  EnhancedHls : Option String := some "https://h/master.m3u8"
  /-- the manifest fetched and decoded by the call `extractMedia(..., true)` that reads
  the quality label, at the web URL or at the device URL put in its place -/
  qualityMaster : Except ExtractError (List Variant) := .ok []
  /-- the manifest fetched and decoded by the call `extractMedia(..., false)` that
  resolves the stream URL -/
  streamMaster : Except ExtractError (List Variant) := .ok []
  /-- the lyrics embedded, empty when none -/
  lrc : String := ""
  /-- `fileExists(trackPath)` -/
  trackExists : Bool := false
  /-- `runv3.Run` returns an error -/
  runv3Err : Bool := false
  /-- `runv2.Run` returns an error -/
  runv2Err : Bool := false
  /-- the path returned by `writeCover` for a playlist track cover -/
  trackCovPath : String := ""
  /-- the `MP4Box -itags` command fails -/
  mp4boxErr : Bool := false
  /-- `os.Remove(trackCovPath)` fails -/
  removeErr : Bool := false
  /-- `mp4tag.Open` or `mp4.Write` fails inside `writeMP4Tags` -/
  tagIoErr : Bool := false

/-- The library functions the embedded code calls with results that the code does not
fix: `sort.Slice` on the variants, `(*url.URL).Parse`, and `url.Parse` followed by
`Query().Get("i")` (`none` when `url.Parse` fails). -/
structure GoLib where
  sortSlice : List Variant → List Variant
  parseRef : String → Option String
  queryI : String → Option String

/-- How a call of `downloadTrack` ends: every `return` of the function follows exactly
one counter increment, and three of them also append to `okDict`. -/
inductive TrackEnd where
  /-- `counter.Success++; return` -/
  | success
  /-- `counter.Success++; okDict[albumId] = append(okDict[albumId], trackNum); return` -/
  | successLedger
  /-- `counter.Error++; return` -/
  | error
  /-- `counter.Unavailable++; return` -/
  | unavailable
  /-- `counter.NotSong++; return` -/
  | notSong
  /-- a run-time panic, no further increment -/
  | panic
deriving DecidableEq, Repr

/-- `counter.Total++`. -/
def incTotal (st : RunState) : RunState :=
  { st with counter := { st.counter with Total := st.counter.Total + 1 } }

/-- `counter.Success++`. -/
def incSuccess (st : RunState) : RunState :=
  { st with counter := { st.counter with Success := st.counter.Success + 1 } }

/-- `counter.Error++`. -/
def incError (st : RunState) : RunState :=
  { st with counter := { st.counter with Error := st.counter.Error + 1 } }

/-- `counter.Unavailable++`. -/
def incUnavailable (st : RunState) : RunState :=
  { st with counter := { st.counter with Unavailable := st.counter.Unavailable + 1 } }

/-- `counter.NotSong++`. -/
def incNotSong (st : RunState) : RunState :=
  { st with counter := { st.counter with NotSong := st.counter.NotSong + 1 } }

/-- `okDict[albumId] = append(okDict[albumId], trackNum)`: the new binding shadows the
old one in the association list. -/
def ledgerAdd (albumId : String) (trackNum : Int) (st : RunState) : RunState :=
  { st with okDict := (albumId, okDictGet st.okDict albumId ++ [trackNum]) :: st.okDict }

/-- The steps of `downloadTrack` after a successful acquisition (from `tags := ...` on):
cover embedding with `MP4Box`, removal of a playlist track cover, `writeMP4Tags`. -/
def postProcess (cfg : ConfigSet) (env : TrackEnv) (metadata : AutoGenerated)
    (albumId : String) (trackNum trackTotal : Int) : TrackEnd :=
  match metadata.Data with
  | [] => .panic
  | _ :: _ =>
    if env.mp4boxErr = true then .error
    else if Contains albumId "pl." = true ∧ cfg.DlAlbumcoverForPlaylist = true ∧
        cfg.EmbedCover = true ∧ env.trackCovPath ≠ "" ∧ env.removeErr = true then .error
    else
      match writeMP4Tags cfg env.lrc metadata trackNum trackTotal env.tagIoErr with
      | .error => .unavailable
      | .panic => .panic
      | .written _ => .successLedger

/-- The steps of `downloadTrack` from `exists, err := fileExists(trackPath)` on: the
already-there check, the acquisition by `runv3.Run` (lossy fallback) or by
`extractMedia` and `runv2.Run`, then `postProcess`. The second component tells whether
the fetch capability (`runv3.Run` or `runv2.Run`) was called. -/
def acquire (lib : GoLib) (cfg : ConfigSet) (fl : Flags) (env : TrackEnv)
    (metadata : AutoGenerated) (albumId mediaUserToken : String) (trackNum trackTotal : Int)
    (needDlAacLc : Bool) : TrackEnd × Bool :=
  if env.trackExists = true then (.successLedger, false)
  else if needDlAacLc = true then
    if mediaUserToken.utf8ByteSize ≤ 50 then (.error, false)
    else if env.runv3Err = true then (.error, true)
    else (postProcess cfg env metadata albumId trackNum trackTotal, true)
  else
    match extractMedia lib.sortSlice lib.parseRef cfg fl env.streamMaster false with
    | .error _ => (.unavailable, false)
    | .panic => (.panic, false)
    | .ok _ _ =>
      if env.runv2Err = true then (.error, true)
      else (postProcess cfg env metadata albumId trackNum trackTotal, true)

/-- The `Quality` step of `downloadTrack` (the block guarded by
`strings.Contains(Config.SongFileFormat, "Quality")`): the label, or how the call ends. -/
def qualityStep (lib : GoLib) (cfg : ConfigSet) (fl : Flags) (env : TrackEnv)
    (needDlAacLc : Bool) : Except TrackEnd String :=
  if Contains cfg.SongFileFormat "Quality" = true then
    if fl.dl_atmos = true then .ok (toString (cfg.AtmosMax - 2000) ++ "kbps")
    else if needDlAacLc = true then .ok "256kbps"
    else
      match extractMedia lib.sortSlice lib.parseRef cfg fl env.qualityMaster true with
      | .ok _ Quality => .ok Quality
      | .error _ => .error .error
      | .panic => .error .panic
  else .ok ""

/-- The body of `downloadTrack` after `counter.Total++`: how the call ends and whether
the fetch capability was called. -/
def downloadTrackEnd (lib : GoLib) (cfg : ConfigSet) (fl : Flags) (env : TrackEnv)
    (trackNum trackTotal : Int) (metadata : AutoGenerated) (track : TrackData)
    (albumId mediaUserToken Codec : String) : TrackEnd × Bool :=
  if fl.cover_art_only = true then (.success, false)
  else if track.Type_ = "music-videos" then
    if fl.lyrics_only = true then (.success, false)
    else if mediaUserToken.utf8ByteSize ≤ 50 then (.success, false)
    else if env.mp4decryptFound = false then (.success, false)
    else if fl.skip_mv = true then (.success, false)
    else
      match (mvDownloader fl env.mv).1 with
      | .failed => (.error, false)
      | .panicked => (.panic, false)
      | .done => (.success, false)
  else
    match env.EnhancedHls with
    | none => (.notSong, false)
    | some hls =>
      if hls = "" ∧ fl.dl_atmos = true then (.unavailable, false)
      else
        let needDlAacLc : Bool :=
          decide ((fl.dl_aac = true ∧ cfg.AacType = "aac-lc") ∨ hls = "")
        match qualityStep lib cfg fl env needDlAacLc with
        | .error e => (e, false)
        | .ok Quality =>
          match filename cfg track trackNum Quality Codec with
          | none => (.panic, false)
          | some _ =>
            if fl.lyrics_only = true then (.successLedger, false)
            else
              acquire lib cfg fl env metadata albumId mediaUserToken trackNum trackTotal
                needDlAacLc

/-- The counter increment, and ledger entry, that goes with an end of `downloadTrack`. -/
def applyEnd (albumId : String) (trackNum : Int) (e : TrackEnd) (st : RunState) : RunState :=
  match e with
  | .success => incSuccess st
  | .successLedger => ledgerAdd albumId trackNum (incSuccess st)
  | .error => incError st
  | .unavailable => incUnavailable st
  | .notSong => incNotSong st
  | .panic => st

/-- `downloadTrack`: its effect on `counter` and `okDict`. After a panic the state is the
one at the moment of the panic. -/
def downloadTrack (lib : GoLib) (cfg : ConfigSet) (fl : Flags) (env : TrackEnv)
    (trackNum trackTotal : Int) (metadata : AutoGenerated) (track : TrackData)
    (albumId mediaUserToken Codec : String) (st : RunState) : RunState :=
  applyEnd albumId trackNum
    (downloadTrackEnd lib cfg fl env trackNum trackTotal metadata track albumId
      mediaUserToken Codec).1
    (incTotal st)

/-- The text after the first `?i=` up to the next `&`. -/
def afterQueryI : List Char → List Char
  | [] => []
  | c :: cs =>
    if ("?i=".toList).isPrefixOf (c :: cs) then (cs.drop 2).takeWhile (fun d => d ≠ '&')
    else afterQueryI cs

/-- A query reader for examples: every URL parses, `i` is its first query parameter. -/
def sampleQueryI (url : String) : Option String := some (String.mk (afterQueryI url.toList))

/-- The library functions used in examples. -/
def sampleLib : GoLib :=
  { sortSlice := stableSortSlice, parseRef := sampleParseRef, queryI := sampleQueryI }

/-- A media-user-token of 60 characters. -/
def longToken : String := "0123456789012345678901234567890123456789012345678901234567890"

/-! ## `checkAlbumHasAtmos` and `rip` -/

/-- The loop of `checkTrackHasAtmos` over the variants of a decoded master playlist. -/
def trackHasAtmos (variants : List Variant) : Bool :=
  variants.any (fun v => decide (v.Codecs = "ec-3") && Contains v.Audio "atmos")

/-- The loop of `checkAlbumHasAtmos` over the tracks below `checkLimit`. `probe track` is
the variant list that `checkTrackHasAtmos` reads for the track, `none` when one of the
three `continue` exits is taken (`getInfoFromAdam` fails, `EnhancedHls` is empty, the
manifest cannot be fetched or decoded). The second component lists the tracks probed. -/
def checkAlbumLoop (probe : TrackData → Option (List Variant)) :
    List TrackData → Bool × List TrackData
  | [] => (false, [])
  | track :: rest =>
    match probe track with
    | none => ((checkAlbumLoop probe rest).1, track :: (checkAlbumLoop probe rest).2)
    | some variants =>
      if trackHasAtmos variants = true then (true, [track])
      else ((checkAlbumLoop probe rest).1, track :: (checkAlbumLoop probe rest).2)

/-- `checkAlbumHasAtmos`: the answer and the tracks probed. -/
def checkAlbumHasAtmos (probe : TrackData → Option (List Variant)) (metadata : AutoGenerated) :
    Bool × List TrackData :=
  match metadata.Data with
  | [] => (false, [])
  | album :: _ =>
    if album.Type_ = "playlists" then (false, [])
    else
      let checkLimit : Nat :=
        if album.Relationships.Tracks.length < 3 then album.Relationships.Tracks.length else 3
      checkAlbumLoop probe (album.Relationships.Tracks.take checkLimit)

/-- What the outside world answers during one call of `rip`. -/
structure RipEnv where
  /-- `getMeta`: `none` for an error -/
  getMeta : Option AutoGenerated := none
  /-- `os.MkdirAll` fails in the cover-art-only branch -/
  mkdirErr : Bool := false
  /-- `writeCover` fails in the cover-art-only branch -/
  coverErr : Bool := false
  /-- the manifests read by the Atmos pre-scan, see `checkAlbumLoop` -/
  probe : TrackData → Option (List Variant) := fun _ => none
  /-- `getInfoFromAdam` for the first track in the `Quality` block of `rip`: `none` for an
  error, else `EnhancedHls` -/
  firstTrackHls : Option String := some "https://h/master.m3u8"
  /-- the line read from standard input by the selection prompt -/
  input : String := ""
  /-- the answers to the call of `downloadTrack` for the track with a given ordinal -/
  track : Int → TrackEnv := fun _ => {}

/-- Whether the folder names of `rip` end in a run-time panic: `LimitString` on the artist
and album names, and the slice `ReleaseDate[:4]` of an album. -/
def folderPanics (cfg : ConfigSet) (albumId : String) (album : MetaData) : Bool :=
  if Contains albumId "pl." = true then
    decide (LimitString cfg album.Attributes.Name = none)
  else
    decide ((cfg.ArtistFolderFormat ≠ "" ∧ LimitString cfg album.Attributes.ArtistName = none) ∨
      album.Attributes.ReleaseDate.utf8ByteSize < 4 ∨
      LimitString cfg album.Attributes.ArtistName = none ∨
      LimitString cfg album.Attributes.Name = none)

/-- The steps of `rip` from `var Codec string` up to the track loop, reduced to what the
track loop uses: the codec label passed to `downloadTrack`, or `none` when a step panics
(`meta.Data[0]`, `Tracks.Data[0]` in the `Quality` block, `folderPanics`). Covers and
animated artwork change neither `counter` nor `okDict` and cannot panic. -/
def ripSetup (cfg : ConfigSet) (fl : Flags) (firstTrackHls : Option String) (albumId : String)
    (metadata : AutoGenerated) : Option String :=
  match metadata.Data with
  | [] => none
  | album :: _ =>
    let Codec : String := if fl.dl_atmos = true then "ATMOS"
      else if fl.dl_aac = true then "AAC" else "ALAC"
    let probesFirst : Bool := Contains cfg.AlbumFolderFormat "Quality" && !fl.dl_atmos &&
      !(fl.dl_aac && decide (cfg.AacType = "aac-lc"))
    if probesFirst = true ∧ album.Relationships.Tracks = [] then none
    else if folderPanics cfg albumId album = true then none
    else if probesFirst = true ∧ firstTrackHls = some "" then some "AAC"
    else some Codec

/-- The `debug_mode` branch of `rip`: whether the listing ends in a panic. For each track
`extractMedia(m3u8Url, true)` is called unless `getInfoFromAdam` fails. -/
def ripDebugPanics (lib : GoLib) (cfg : ConfigSet) (fl : Flags) (env : Int → TrackEnv) :
    Int → List TrackData → Bool
  | _, [] => false
  | trackNum, _ :: rest =>
    match (env trackNum).EnhancedHls with
    | none => ripDebugPanics lib cfg fl env (trackNum + 1) rest
    | some _ =>
      match extractMedia lib.sortSlice lib.parseRef cfg fl (env trackNum).qualityMaster true with
      | .panic => true
      | _ => ripDebugPanics lib cfg fl env (trackNum + 1) rest

/-- The result of a call of `rip`. -/
structure RipResult where
  /-- `counter` and `okDict` after the call -/
  st : RunState
  /-- the mode flags after the call (`rip` may set `dl_atmos`) -/
  fl : Flags
  /-- the ordinals for which `downloadTrack` was invoked, in order -/
  calls : List Int := []
  /-- the returned error is non-nil -/
  err : Bool := false
  /-- the call ended in a run-time panic; `st` and `calls` then say nothing -/
  panicked : Bool := false

/-- `rip`. -/
def rip (lib : GoLib) (cfg : ConfigSet) (fl : Flags) (env : RipEnv)
    (albumId mediaUserToken urlArg_i : String) (st : RunState) : RipResult :=
  match env.getMeta with
  | none => { st := st, fl := fl, err := true }
  | some metadata =>
    if fl.cover_art_only = true then
      match metadata.Data with
      | [] => { st := st, fl := fl, panicked := true }
      | album :: _ =>
        if folderPanics cfg albumId album = true then { st := st, fl := fl, panicked := true }
        else if env.mkdirErr = true then { st := st, fl := fl, err := true }
        else if env.coverErr = true then { st := st, fl := fl, err := true }
        else { st := incSuccess st, fl := fl }
    else
      let fl1 : Flags := if fl.atmos_only = true then { fl with dl_atmos := true } else fl
      if fl.atmos_only = true ∧ (checkAlbumHasAtmos env.probe metadata).1 = false then
        { st := incUnavailable st, fl := fl1 }
      else
        match metadata.Data with
        | [] => { st := st, fl := fl1, panicked := true }
        | album :: _ =>
          if fl1.debug_mode = true then
            { st := st, fl := fl1,
              panicked := ripDebugPanics lib cfg fl1 env.track 1 album.Relationships.Tracks }
          else
            match ripSetup cfg fl1 env.firstTrackHls albumId metadata with
            | none => { st := st, fl := fl1, panicked := true }
            | some Codec =>
              let tracks := album.Relationships.Tracks
              let run := ripTracks
                (fun trackNum track s =>
                  downloadTrack lib cfg fl1 (env.track trackNum) trackNum tracks.length metadata
                    track albumId mediaUserToken Codec s)
                fl1 albumId urlArg_i env.input tracks st
              { st := run.1, fl := fl1, calls := run.2,
                panicked := run.2.any (fun trackNum =>
                  match elemAt? tracks (trackNum - 1) with
                  | none => false
                  | some track =>
                    decide ((downloadTrackEnd lib cfg fl1 (env.track trackNum) trackNum
                      tracks.length metadata track albumId mediaUserToken Codec).1 = .panic)) }

/-- An album of four tracks: only the fourth has an Atmos variant. -/
def lateAtmosAlbum : AutoGenerated :=
  { Data := [{ ID := "1440857781", Type_ := "albums",
               Relationships := { Tracks := [{ sampleTrack with ID := "t1" },
                 { sampleTrack with ID := "t2" }, { sampleTrack with ID := "t3" },
                 { sampleTrack with ID := "t4" }] } }] }

/-- The manifests of `lateAtmosAlbum`: lossless only for the first three tracks. -/
def lateAtmosProbe (track : TrackData) : Option (List Variant) :=
  if track.ID = "t4" then some [{ Codecs := "ec-3", Audio := "audio-atmos-2768" }]
  else some [{ Codecs := "alac", Audio := "audio-alac-stereo-44100-16" }]

/-! ## The batch loop of `main` -/

/-- What the outside world answers during one batch pass. -/
structure MainEnv where
  /-- `exec.LookPath("mp4decrypt")` succeeds -/
  mp4decryptFound : Bool := true
  /-- `getInfoFromAdam(songId, token, storefront)` inside `getUrlSong`: `none` for an
  error, else the IDs in `Relationships.Albums.Data` -/
  songInfo : String → String → Option (List String) := fun _ _ => none
  /-- the answers to `mvDownloader` for a given `adamID` -/
  mv : String → MvEnv := fun _ => {}
  /-- the answers to `rip` for a given `albumId` -/
  rip : String → RipEnv := fun _ => {}

/-- The network-calling operations that the batch loop invokes, with their arguments. -/
inductive NetCall where
  | getInfoFromAdam (adamId storefront : String)
  | mvDownloader (adamID storefront : String)
  | rip (albumId storefront urlArg_i : String)
deriving DecidableEq, Repr

/-- The state of the batch loop: the globals `counter`, `okDict` and the mode flags, the
operations invoked so far, and whether the process has ended abnormally (a run-time panic
or `log.Fatalf`). -/
structure MainState where
  st : RunState := {}
  fl : Flags := {}
  log : List NetCall := []
  crashed : Bool := false
deriving DecidableEq, Repr

/-- `getUrlSong`: the returned URL (empty with an error), and the state after it. -/
def getUrlSong (env : MainEnv) (songUrl : String) (m : MainState) : String × MainState :=
  match env.songInfo (checkUrlSong songUrl).2 (checkUrlSong songUrl).1 with
  | none =>
    ("", { m with st := incNotSong m.st,
                  log := m.log ++
                    [.getInfoFromAdam (checkUrlSong songUrl).2 (checkUrlSong songUrl).1] })
  | some [] =>
    ("", { m with log := m.log ++
                    [.getInfoFromAdam (checkUrlSong songUrl).2 (checkUrlSong songUrl).1],
                  crashed := true })
  | some (albumId :: _) =>
    ("https://music.apple.com/" ++ (checkUrlSong songUrl).1 ++ "/album/1/" ++ albumId ++ "?i=" ++
        (checkUrlSong songUrl).2,
      { m with log := m.log ++
          [.getInfoFromAdam (checkUrlSong songUrl).2 (checkUrlSong songUrl).1] })

/-- The music-video branch of the loop body of `main`, after the test
`strings.Contains(urlRaw, "/music-video/")`. -/
def processMv (cfg : ConfigSet) (env : MainEnv) (urlRaw : String) (m : MainState) : MainState :=
  if m.fl.debug_mode = true then m
  else if m.fl.skip_mv = true then { m with st := incSuccess (incTotal m.st) }
  else if cfg.MediaUserToken.utf8ByteSize ≤ 50 then { m with st := incSuccess (incTotal m.st) }
  else if env.mp4decryptFound = false then { m with st := incSuccess (incTotal m.st) }
  else
    match (mvDownloader m.fl (env.mv (checkUrlMv urlRaw).2)).1 with
    | .failed =>
      { m with st := incError (incTotal m.st),
               log := m.log ++ [.mvDownloader (checkUrlMv urlRaw).2 (checkUrlMv urlRaw).1] }
    | .panicked =>
      { m with st := incTotal m.st,
               log := m.log ++ [.mvDownloader (checkUrlMv urlRaw).2 (checkUrlMv urlRaw).1],
               crashed := true }
    | .done =>
      { m with st := incSuccess (incTotal m.st),
               log := m.log ++ [.mvDownloader (checkUrlMv urlRaw).2 (checkUrlMv urlRaw).1] }

/-- The storefront and id read from an album or playlist URL in the loop body of `main`. -/
def targetIds (urlRaw : String) : String × String :=
  if Contains urlRaw "/playlist/" = true then checkUrlPlaylist urlRaw else checkUrl urlRaw

/-- The end of the loop body of `main`, from the test
`strings.Contains(urlRaw, "/playlist/")` on: the id check, `url.Parse`, `rip`. -/
def processAlbum (lib : GoLib) (cfg : ConfigSet) (env : MainEnv) (urlRaw : String)
    (m : MainState) : MainState :=
  if (targetIds urlRaw).2 = "" then m
  else
    match lib.queryI urlRaw with
    | none => { m with crashed := true }
    | some urlArg_i =>
      { st := (rip lib cfg m.fl (env.rip (targetIds urlRaw).2) (targetIds urlRaw).2
          cfg.MediaUserToken urlArg_i m.st).st,
        fl := (rip lib cfg m.fl (env.rip (targetIds urlRaw).2) (targetIds urlRaw).2
          cfg.MediaUserToken urlArg_i m.st).fl,
        log := m.log ++ [.rip (targetIds urlRaw).2 (targetIds urlRaw).1 urlArg_i],
        crashed := (rip lib cfg m.fl (env.rip (targetIds urlRaw).2) (targetIds urlRaw).2
          cfg.MediaUserToken urlArg_i m.st).panicked }

/-- The song branch of the loop body of `main`: `urlRaw, err = getUrlSong(urlRaw, token)`
and `dl_song = true`. -/
def processSong (env : MainEnv) (urlRaw : String) (m : MainState) : String × MainState :=
  ((getUrlSong env urlRaw m).1,
    { (getUrlSong env urlRaw m).2 with
      fl := { (getUrlSong env urlRaw m).2.fl with dl_song := true } })

/-- One iteration of the loop `for albumNum, urlRaw := range os.Args` of `main`. -/
def processTarget (lib : GoLib) (cfg : ConfigSet) (env : MainEnv) (urlRaw : String)
    (m : MainState) : MainState :=
  if Contains urlRaw "/music-video/" = true then processMv cfg env urlRaw m
  else if Contains urlRaw "/song/" = true then
    if (processSong env urlRaw m).2.crashed = true then (processSong env urlRaw m).2
    else processAlbum lib cfg env (processSong env urlRaw m).1 (processSong env urlRaw m).2
  else processAlbum lib cfg env urlRaw m

/-- One batch pass: the loop over `os.Args`, which ends early when the process ends. -/
def runPass (lib : GoLib) (cfg : ConfigSet) (env : MainEnv) :
    List String → MainState → MainState
  | [], m => m
  | urlRaw :: rest, m =>
    if (processTarget lib cfg env urlRaw m).crashed = true then processTarget lib cfg env urlRaw m
    else runPass lib cfg env rest (processTarget lib cfg env urlRaw m)

/-- The end of a batch pass: `none` for `break`, else the state after
`counter = structs.Counter{}`. -/
def endOfPass (st : RunState) : Option RunState :=
  if st.counter.Error = 0 then none else some { st with counter := {} }

/-- The outer `for` loop of `main`, at most `fuel` passes, starting with pass number
`pass`; `envs k` holds the answers of the outside world during pass `k`. The result is
`none` when the passes allowed are used up with an error count that is still not zero. -/
def batchLoop (lib : GoLib) (cfg : ConfigSet) (envs : Nat → MainEnv) (targets : List String) :
    Nat → Nat → MainState → Option MainState
  | 0, _, _ => none
  | fuel + 1, pass, m =>
    if (runPass lib cfg (envs pass) targets m).crashed = true then
      some (runPass lib cfg (envs pass) targets m)
    else
      match endOfPass (runPass lib cfg (envs pass) targets m).st with
      | none => some (runPass lib cfg (envs pass) targets m)
      | some st =>
        batchLoop lib cfg envs targets fuel (pass + 1)
          { runPass lib cfg (envs pass) targets m with st := st }

/-- The ledger `d2` holds every (entity id, ordinal) pair that `d1` holds. -/
def ledgerLe (d1 d2 : List (String × List Int)) : Prop :=
  ∀ (albumId : String) (trackNum : Int),
    isInArray (okDictGet d1 albumId) trackNum = true →
    isInArray (okDictGet d2 albumId) trackNum = true

/-- A target that matches none of the five URL shapes. -/
def matchesNoShape (url : String) : Prop :=
  checkUrl url = ("", "") ∧ checkUrlMv url = ("", "") ∧ checkUrlSong url = ("", "") ∧
  checkUrlPlaylist url = ("", "") ∧ checkUrlArtist url = ("", "")

instance (url : String) : Decidable (matchesNoShape url) := by
  unfold matchesNoShape; infer_instance

/-- A configuration with a media-user-token of more than 50 characters. -/
def tokenConfig : ConfigSet := { MediaUserToken := longToken }

/-- A configuration whose file-name template has the `Quality` placeholder. -/
def qualityConfig : ConfigSet := { SongFileFormat := "\x7bSongName\x7d [\x7bQuality\x7d]" }

/-- Answers for a track whose manifest offers lossy variants only. -/
def lossyOnlyEnv : TrackEnv := { qualityMaster := .ok aacManifest, streamMaster := .ok aacManifest }

/-- Answers for a track that is acquired but whose tags cannot be written. -/
def tagFailEnv : TrackEnv := { streamMaster := .ok scenarioManifestRateFirst, tagIoErr := true }

/-- Answers for a track that is acquired but whose `MP4Box` embed fails. -/
def embedFailEnv : TrackEnv := { streamMaster := .ok scenarioManifestRateFirst, mp4boxErr := true }

/-- An album with the one track `sampleTrack`. -/
def sampleAlbum : AutoGenerated :=
  { Data := [{ ID := "1440857781", Type_ := "albums",
               Relationships := { Tracks := [sampleTrack] } }] }

/-- A state at the end of a pass with one error and one ledger entry. -/
def errorState : RunState :=
  { counter := { Total := 2, Success := 1, Error := 1 }, okDict := [("a1", [1])] }

/-- A target list with one music-video URL. -/
def mvTargets : List String := ["https://music.apple.com/us/music-video/clip/1553279848"]

/-- The remux of the music video fails during pass 0 and succeeds afterwards. -/
def retryEnvs (pass : Nat) : MainEnv :=
  { mv := fun _ => { muxErr := decide (pass = 0) } }

/-- A manifest whose only variant is lossless and carries no `AUDIO` label. -/
def unlabelledAlacManifest : List Variant :=
  [{ URI := "a.m3u8", Codecs := "alac", Audio := "", Bandwidth := 900000,
     AverageBandwidth := 900000 }]

/-- A manifest whose only variant is lossy with a label of two fields that equals the
configured `aac-lc`. -/
def shortAacManifest : List Variant :=
  [{ URI := "a.m3u8", Codecs := "mp4a.40.2", Audio := "aac-lc", Bandwidth := 270000,
     AverageBandwidth := 270000 }]

/-- An album whose catalogue id is a decimal numeral between `2^31` and `2^32`. -/
def highIdAlbum : AutoGenerated :=
  { Data := [{ ID := "3000000000", Type_ := "albums",
               Attributes := { Name := "A Night at the Opera", ArtistName := "Queen" },
               Relationships := { Tracks := [sampleTrack] } }] }

/-- Manifests for a pre-scan in which every track has an Atmos variant. -/
def allAtmosProbe (_track : TrackData) : Option (List Variant) :=
  some [{ Codecs := "ec-3", Audio := "audio-atmos-2768" }]

/-- A target list with one album URL. -/
def albumTargets : List String :=
  ["https://music.apple.com/us/album/a-night-at-the-opera/1440857781"]

/-- Answers of the outside world in which the metadata of every entity is `sampleAlbum`
and nothing fails. -/
def albumEnv : MainEnv := { rip := fun _ => { getMeta := some sampleAlbum } }

/-- A target list with one song URL. -/
def songTargets : List String :=
  ["https://music.apple.com/us/song/bohemian-rhapsody/1440857795"]

/-! ## Folder names in `rip` -/

/-- Go `strings.ReplaceAll(s, ".", "")`. -/
def removeDots (s : String) : String := String.mk (s.toList.filter (fun c => c ≠ '.'))

/-- The dot-stripping step of `rip` with the `strings.TrimSpace` that follows it:
`if strings.HasSuffix(s, ".") { s = strings.ReplaceAll(s, ".", "") }` and then
`s = strings.TrimSpace(s)`. -/
def stripDots (s : String) : String :=
  TrimSpace (if HasSuffix s "." = true then removeDots s else s)

/-- The artist-folder template of `rip`, rendered: `Config.ArtistFolderFormat` with the
three replacements of the playlist, the artist-with-id and the artist-without-id case;
`none` when `LimitString` panics. -/
def singerTemplate (cfg : ConfigSet) (albumId : String) (album : MetaData) : Option String :=
  if Contains albumId "pl." = true then
    some (Replace
      [("\x7bArtistName\x7d", "Apple Music"), ("\x7bArtistId\x7d", ""),
       ("\x7bUrlArtistName\x7d", "Apple Music")]
      cfg.ArtistFolderFormat)
  else
    match LimitString cfg album.Attributes.ArtistName with
    | none => none
    | some artist =>
      match album.Relationships.Artists with
      | first :: _ =>
        some (Replace
          [("\x7bUrlArtistName\x7d", artist), ("\x7bArtistName\x7d", artist),
           ("\x7bArtistId\x7d", first.ID)]
          cfg.ArtistFolderFormat)
      | [] =>
        some (Replace
          [("\x7bUrlArtistName\x7d", artist), ("\x7bArtistName\x7d", artist),
           ("\x7bArtistId\x7d", "")]
          cfg.ArtistFolderFormat)

/-- `singerFoldername` of `rip` (the same code in the cover-art-only branch and in the
regular path): the rendered template after the dot-stripping step, replaced by the artist
id or `UnknownArtist` when longer than `maxNameLength` bytes; empty when
`Config.ArtistFolderFormat` is empty. -/
def singerFoldername (cfg : ConfigSet) (albumId : String) (album : MetaData) : Option String :=
  if cfg.ArtistFolderFormat = "" then some ""
  else
    match singerTemplate cfg albumId album with
    | none => none
    | some rendered =>
      if (stripDots rendered).utf8ByteSize > maxNameLength then
        match album.Relationships.Artists with
        | first :: _ => if Contains albumId "pl." = true then some "UnknownArtist" else some first.ID
        | [] => some "UnknownArtist"
      else some (stripDots rendered)

/-- `Tag_string` of `rip`: the configured marks of the entity, joined by one space. -/
def albumTag (cfg : ConfigSet) (album : MetaData) : String :=
  " ".intercalate
    ((if (album.Attributes.IsAppleDigitalMaster = true ∨
          album.Attributes.IsMasteredForItunes = true) ∧ cfg.AppleMasterChoice ≠ ""
        then [cfg.AppleMasterChoice] else []) ++
     (if album.Attributes.ContentRating = "explicit" ∧ cfg.ExplicitChoice ≠ ""
        then [cfg.ExplicitChoice] else []) ++
     (if album.Attributes.ContentRating = "clean" ∧ cfg.CleanChoice ≠ ""
        then [cfg.CleanChoice] else []))

/-- The slice `ReleaseDate[:4]`: `none` is the slice-bounds panic for a date shorter than
four bytes. Catalogue dates are ASCII; for a date whose fourth byte falls inside a
character the model keeps the whole characters of the first four. -/
def releaseYear (date : String) : Option String :=
  if date.utf8ByteSize < 4 then none else some (String.mk (date.toList.take 4))

/-- The album-folder template of `rip`, rendered with the given values for the `Quality`,
`Codec` and `Tag` placeholders: `Config.PlaylistFolderFormat` for a playlist, else
`Config.AlbumFolderFormat`; `none` when a slice or `LimitString` panics. -/
def albumTemplate (cfg : ConfigSet) (albumId : String) (album : MetaData)
    (Quality Codec Tag : String) : Option String :=
  match LimitString cfg album.Attributes.Name with
  | none => none
  | some name =>
    if Contains albumId "pl." = true then
      some (Replace
        [("\x7bArtistName\x7d", "Apple Music"), ("\x7bPlaylistName\x7d", name),
         ("\x7bPlaylistId\x7d", albumId), ("\x7bQuality\x7d", Quality),
         ("\x7bCodec\x7d", Codec), ("\x7bTag\x7d", Tag)]
        cfg.PlaylistFolderFormat)
    else
      match releaseYear album.Attributes.ReleaseDate with
      | none => none
      | some year =>
        match LimitString cfg album.Attributes.ArtistName with
        | none => none
        | some artist =>
          some (Replace
            [("\x7bReleaseDate\x7d", album.Attributes.ReleaseDate),
             ("\x7bReleaseYear\x7d", year), ("\x7bArtistName\x7d", artist),
             ("\x7bAlbumName\x7d", name), ("\x7bUPC\x7d", album.Attributes.Upc),
             ("\x7bRecordLabel\x7d", album.Attributes.RecordLabel),
             ("\x7bCopyright\x7d", album.Attributes.Copyright), ("\x7bAlbumId\x7d", albumId),
             ("\x7bQuality\x7d", Quality), ("\x7bCodec\x7d", Codec), ("\x7bTag\x7d", Tag)]
            cfg.AlbumFolderFormat)

/-- `sanAlbumFolder` of the regular path of `rip` (lines 1113-1238): the artist folder
under `Config.AlacSaveFolder`, or under `Config.AtmosSaveFolder` with `dl_atmos`, joined
with the album folder name, which is the rendered template after the dot-stripping step,
replaced by `albumId` when longer than `maxNameLength` bytes. `join` is `filepath.Join`;
`Quality` and `Codec` are the values the earlier steps of `rip` computed. -/
def sanAlbumFolder (join : String → String → String) (cfg : ConfigSet) (fl : Flags)
    (albumId : String) (album : MetaData) (Quality Codec : String) : Option String :=
  match singerFoldername cfg albumId album with
  | none => none
  | some singer =>
    match albumTemplate cfg albumId album Quality Codec (albumTag cfg album) with
    | none => none
    | some rendered =>
      some (join
        (join (if fl.dl_atmos = true then cfg.AtmosSaveFolder else cfg.AlacSaveFolder)
          (forbiddenNamesReplaceAll singer))
        (forbiddenNamesReplaceAll
          (if (stripDots rendered).utf8ByteSize > maxNameLength then albumId
           else stripDots rendered)))

/-- `sanAlbumFolder` of the cover-art-only branch of `rip` (lines 955-1019): the artist
folder under `Config.AlacSaveFolder` joined with the album folder name, which is the
template rendered with an empty `Quality`, the codec `ALAC` and an empty `Tag`, after
`strings.TrimSpace` only. -/
def coverSanAlbumFolder (join : String → String → String) (cfg : ConfigSet)
    (albumId : String) (album : MetaData) : Option String :=
  match singerFoldername cfg albumId album with
  | none => none
  | some singer =>
    match albumTemplate cfg albumId album "" "ALAC" "" with
    | none => none
    | some rendered =>
      some (join (join cfg.AlacSaveFolder (forbiddenNamesReplaceAll singer))
        (forbiddenNamesReplaceAll (TrimSpace rendered)))

/-- A path join for examples: the elements separated by one slash, an empty second
element left out. -/
def sampleJoin (a b : String) : String := if b = "" then a else a ++ "/" ++ b

/-- An album whose name ends with a dot and has dots inside. -/
def dottedAlbum : MetaData :=
  { ID := "426285273", Type_ := "albums",
    Attributes := { Name := "F.A.M.E.", ArtistName := "Chris Brown",
                    ReleaseDate := "2011-03-18" },
    Relationships := { Artists := [{ ID := "95705522" }] } }

/-- An album by an artist whose name ends with a dot and has dots inside. -/
def dottedArtistAlbum : MetaData :=
  { ID := "1440850062", Type_ := "albums",
    Attributes := { Name := "Automatic for the People", ArtistName := "R.E.M.",
                    ReleaseDate := "1992-10-05" },
    Relationships := { Artists := [{ ID := "358714030" }] } }

/-! ## Enumerate mode of `extractMedia` -/

/-- The digits of `strconv.Atoi` after the optional sign when the error is discarded:
0 for a syntax error, the nearest bound of a 64-bit `int` for a range error. -/
def atoiClamp (neg : Bool) (r : List Char) : Int :=
  if r.isEmpty then 0
  else
    match parseDigits r 0 with
    | none => 0
    | some n =>
      if (if neg then -(n : Int) else (n : Int)) < -(2 ^ 63 : Int) then -(2 ^ 63 : Int)
      else if (2 ^ 63 - 1 : Int) < (if neg then -(n : Int) else (n : Int)) then 2 ^ 63 - 1
      else (if neg then -(n : Int) else (n : Int))

/-- The value `n` of `n, _ := strconv.Atoi(s)`. -/
def atoiValue (s : String) : Int :=
  match s.toList with
  | '-' :: r => atoiClamp true r
  | '+' :: r => atoiClamp false r
  | r => atoiClamp false r

/-- Go `strings.Split` for a non-empty separator of any length, on characters: `cur` is
the field being read, reversed; the counter is the number of characters of the current
separator still to be dropped. -/
def splitOnChars (sep : List Char) : Nat → List Char → List Char → List (List Char)
  | _, [], cur => [cur.reverse]
  | k + 1, _ :: cs, cur => splitOnChars sep k cs cur
  | 0, c :: cs, cur =>
    if sep.isPrefixOf (c :: cs) then cur.reverse :: splitOnChars sep (sep.length - 1) cs []
    else splitOnChars sep 0 cs (c :: cur)

/-- Go `strings.Split(s, sep)` for a non-empty separator. -/
def SplitOn (s sep : String) : List String :=
  (splitOnChars sep.toList 0 s.toList []).map String.mk

/-- The bitrate read back from a stored quality text:
`strconv.Atoi(strings.Split(strings.Split(q, " | ")[2], " ")[0])`; `none` is an
index-out-of-range panic. -/
def currentBitrate (q : String) : Option Int :=
  if q = "" then some 0
  else
    match index? (SplitOn q " | ") 2 with
    | none => none
    | some current =>
      match index? (SplitOn current " ") 0 with
      | none => none
      | some digits => some (atoiValue digits)

/-- The variables `hasAAC`, ..., `dolbyAudioQuality` of the enumerate block. -/
structure Availability where
  hasAAC : Bool := false
  hasLossless : Bool := false
  hasHiRes : Bool := false
  hasAtmos : Bool := false
  hasDolbyAudio : Bool := false
  aacQuality : String := ""
  losslessQuality : String := ""
  hiResQuality : String := ""
  atmosQuality : String := ""
  dolbyAudioQuality : String := ""
deriving DecidableEq, Repr

/-- The Atmos bitrate text of the enumerate block: the last field of the label, without
its first byte when it has four bytes and starts with `2`. -/
def atmosBitrateStr (last : String) : String :=
  if last.utf8ByteSize = 4 ∧ last.toList.head? = some '2' then String.mk (last.toList.drop 1)
  else last

/-- One iteration of the loop `// Check for all formats` of the enumerate block; `none`
is a run-time panic. -/
def enumerateStep (a : Availability) (variant : Variant) : Option Availability :=
  if variant.Codecs = "mp4a.40.2" then
    if 3 ≤ (Split variant.Audio '-').length then
      match index? (Split variant.Audio '-') 2 with
      | none => none
      | some field =>
        match currentBitrate a.aacQuality with
        | none => none
        | some current =>
          if atoiValue field > current then
            some { a with hasAAC := true,
                          aacQuality := "AAC | 2 Channel | " ++ toString (atoiValue field) ++
                            " kbps" }
          else some { a with hasAAC := true }
    else some { a with hasAAC := true }
  else if variant.Codecs = "ec-3" ∧ Contains variant.Audio "atmos" = true then
    match index? (Split variant.Audio '-') (((Split variant.Audio '-').length : Int) - 1) with
    | none => none
    | some last =>
      match currentBitrate a.atmosQuality with
      | none => none
      | some current =>
        if atoiValue (atmosBitrateStr last) > current then
          some { a with hasAtmos := true,
                        atmosQuality := "E-AC-3 | 16 Channel | " ++
                          toString (atoiValue (atmosBitrateStr last)) ++ " kbps" }
        else some { a with hasAtmos := true }
  else if variant.Codecs = "alac" then
    if 3 ≤ (Split variant.Audio '-').length then
      match index? (Split variant.Audio '-') (((Split variant.Audio '-').length : Int) - 1),
          index? (Split variant.Audio '-') (((Split variant.Audio '-').length : Int) - 2) with
      | some bitDepth, some sampleRate =>
        if atoiValue sampleRate > 48000 then
          some { a with hasHiRes := true,
                        hiResQuality := "ALAC | 2 Channel | " ++ bitDepth ++ "-bit/" ++
                          toString (Int.tdiv (atoiValue sampleRate) 1000) ++ " kHz" }
        else
          some { a with hasLossless := true,
                        losslessQuality := "ALAC | 2 Channel | " ++ bitDepth ++ "-bit/" ++
                          toString (Int.tdiv (atoiValue sampleRate) 1000) ++ " kHz" }
      | _, _ => none
    else some a
  else if variant.Codecs = "ac-3" then
    match index? (Split variant.Audio '-') (((Split variant.Audio '-').length : Int) - 1) with
    | none => none
    | some last =>
      some { a with hasDolbyAudio := true,
                    dolbyAudioQuality := "AC-3 |  16 Channel | " ++ toString (atoiValue last) ++
                      " kbps" }
  else some a

/-- The loop `// Check for all formats` over the sorted variants. -/
def enumerateLoop : List Variant → Availability → Option Availability
  | [], a => some a
  | variant :: rest, a =>
    match enumerateStep a variant with
    | none => none
    | some a1 => enumerateLoop rest a1

/-- `formatAvailability`. -/
def formatAvailability (available : Bool) (quality : String) : String :=
  if available = false then "Not Available" else quality

/-- The five values printed by the enumerate block, in the order AAC, Lossless, Hi-Res
Lossless, Dolby Atmos, Dolby Audio; `none` is a run-time panic. -/
def availabilityReport (sortSlice : List Variant → List Variant) (variants : List Variant) :
    Option (List String) :=
  match enumerateLoop (sortSlice variants) {} with
  | none => none
  | some a =>
    some [formatAvailability a.hasAAC a.aacQuality,
          formatAvailability a.hasLossless a.losslessQuality,
          formatAvailability a.hasHiRes a.hiResQuality,
          formatAvailability a.hasAtmos a.atmosQuality,
          formatAvailability a.hasDolbyAudio a.dolbyAudioQuality]

/-- A manifest with two Hi-Res lossless variants, two lossy variants and two Dolby Audio
variants. -/
def hiResManifest : List Variant :=
  [{ URI := "h192.m3u8", Codecs := "alac", Audio := "audio-alac-stereo-192000-24",
     Bandwidth := 9000000, AverageBandwidth := 9000000 },
   { URI := "h96.m3u8", Codecs := "alac", Audio := "audio-alac-stereo-96000-24",
     Bandwidth := 5000000, AverageBandwidth := 5000000 },
   { URI := "d640.m3u8", Codecs := "ac-3", Audio := "audio-ac3-640",
     Bandwidth := 640000, AverageBandwidth := 640000 },
   { URI := "d448.m3u8", Codecs := "ac-3", Audio := "audio-ac3-448",
     Bandwidth := 448000, AverageBandwidth := 448000 },
   { URI := "a256.m3u8", Codecs := "mp4a.40.2", Audio := "audio-stereo-256",
     Bandwidth := 270000, AverageBandwidth := 270000 },
   { URI := "a128.m3u8", Codecs := "mp4a.40.2", Audio := "audio-stereo-128",
     Bandwidth := 130000, AverageBandwidth := 130000 }]

/-- An alternative that `extractMvAudio` takes as a candidate under the given list of
allowed groups: its URI is not empty, its group is in the list, and its URI matches
`_gr(\d+)_`. -/
def isCandidate (priority : List String) (audiov : Alternative) : Prop :=
  audiov.URI ≠ "" ∧ audiov.GroupId ∈ priority ∧ findRank audiov.URI.toList ≠ none

instance decIsCandidate (allowed : List String) (audiov : Alternative) :
    Decidable (isCandidate allowed audiov) := by
  unfold isCandidate; infer_instance

/-- The rank `extractMvAudio` scans from the URI of an alternative: the number after
`_gr`, 0 when it does not scan. -/
def rankOf (audiov : Alternative) : Int :=
  match findRank audiov.URI.toList with
  | some digits => (sscanDigits digits).getD 0
  | none => 0

/-! ## The algorithm of `sort.Slice`

`extractMedia` sorts with `sort.Slice` of the Go standard library, which is not part of
the repository. From Go 1.19 on `sort.Slice(x, less)` runs
`pdqsort_func(lessSwap{less, swap}, 0, length, bits.Len(uint(length)))`, a
pattern-defeating quicksort over index-based `Less` and `Swap`
(`sort/zsortfunc.go`). The functions below follow that file, function by function;
loops carry a bound on their number of iterations as first numeric argument. -/

/-- `data.Less(i, j)` for `less` given on elements. -/
def lessAt {α : Type} [Inhabited α] (less : α → α → Bool) (data : List α) (i j : Nat) : Bool :=
  less (data.getD i default) (data.getD j default)

/-- `data.Swap(i, j)`. -/
def swapAt {α : Type} [Inhabited α] (data : List α) (i j : Nat) : List α :=
  (data.set i (data.getD j default)).set j (data.getD i default)

/-- The inner loop of `insertionSortLessFunc`:
`for j := i; j > a && data.Less(j, j-1); j-- { data.Swap(j, j-1) }`. -/
def insertionInner {α : Type} [Inhabited α] (less : α → α → Bool) (a : Nat) :
    Nat → List α → List α
  | 0, data => data
  | j + 1, data =>
    if a < j + 1 ∧ lessAt less data (j + 1) j = true then
      insertionInner less a j (swapAt data (j + 1) j)
    else data

/-- The outer loop of `insertionSortLessFunc`: `for i := a + 1; i < b; i++`. -/
def insertionOuter {α : Type} [Inhabited α] (less : α → α → Bool) (a b : Nat) :
    Nat → Nat → List α → List α
  | 0, _, data => data
  | fuel + 1, i, data =>
    if i < b then insertionOuter less a b fuel (i + 1) (insertionInner less a i data)
    else data

/-- `insertionSortLessFunc(data, a, b)`. -/
def insertionSortLessFunc {α : Type} [Inhabited α] (less : α → α → Bool) (data : List α)
    (a b : Nat) : List α :=
  insertionOuter less a b (b - a) (a + 1) data

/-- `siftDownLessFunc(data, lo, hi, first)`, `root` starting at `lo`. -/
def siftDownLessFunc {α : Type} [Inhabited α] (less : α → α → Bool) (hi first : Nat) :
    Nat → Nat → List α → List α
  | 0, _, data => data
  | fuel + 1, root, data =>
    if hi ≤ 2 * root + 1 then data
    else if 2 * root + 2 < hi ∧
        lessAt less data (first + (2 * root + 1)) (first + (2 * root + 2)) = true then
      if lessAt less data (first + root) (first + (2 * root + 2)) = false then data
      else
        siftDownLessFunc less hi first fuel (2 * root + 2)
          (swapAt data (first + root) (first + (2 * root + 2)))
    else
      if lessAt less data (first + root) (first + (2 * root + 1)) = false then data
      else
        siftDownLessFunc less hi first fuel (2 * root + 1)
          (swapAt data (first + root) (first + (2 * root + 1)))

/-- The first loop of `heapSortLessFunc`: `for i := (hi - 1) / 2; i >= 0; i--`; the
numeric argument is `i + 1`. -/
def heapBuild {α : Type} [Inhabited α] (less : α → α → Bool) (hi first : Nat) :
    Nat → List α → List α
  | 0, data => data
  | i + 1, data => heapBuild less hi first i (siftDownLessFunc less hi first hi i data)

/-- The second loop of `heapSortLessFunc`: `for i := hi - 1; i >= 0; i--`; the numeric
argument is `i + 1`. -/
def heapPop {α : Type} [Inhabited α] (less : α → α → Bool) (first : Nat) :
    Nat → List α → List α
  | 0, data => data
  | i + 1, data =>
    heapPop less first i (siftDownLessFunc less i first i 0 (swapAt data first (first + i)))

/-- `heapSortLessFunc(data, a, b)`. -/
def heapSortLessFunc {α : Type} [Inhabited α] (less : α → α → Bool) (data : List α)
    (a b : Nat) : List α :=
  heapPop less a (b - a) (heapBuild less (b - a) a ((b - a - 1) / 2 + 1) data)

/-- `order2LessFunc(data, a, b, swaps)`: the two indices in order and the new count. -/
def order2LessFunc {α : Type} [Inhabited α] (less : α → α → Bool) (data : List α)
    (a b swaps : Nat) : (Nat × Nat) × Nat :=
  if lessAt less data b a = true then ((b, a), swaps + 1) else ((a, b), swaps)

/-- `medianLessFunc(data, a, b, c, swaps)`: the index of the median and the new count. -/
def medianLessFunc {α : Type} [Inhabited α] (less : α → α → Bool) (data : List α)
    (a b c swaps : Nat) : Nat × Nat :=
  let r1 := order2LessFunc less data a b swaps
  let r2 := order2LessFunc less data r1.1.2 c r1.2
  let r3 := order2LessFunc less data r1.1.1 r2.1.1 r2.2
  (r3.1.2, r3.2)

/-- `medianAdjacentLessFunc(data, a, swaps)`. -/
def medianAdjacentLessFunc {α : Type} [Inhabited α] (less : α → α → Bool) (data : List α)
    (a swaps : Nat) : Nat × Nat :=
  medianLessFunc less data (a - 1) a (a + 1) swaps

/-- The type `sortedHint`. -/
inductive SortedHint where
  | unknownHint
  | increasingHint
  | decreasingHint
deriving DecidableEq, Repr

/-- `choosePivotLessFunc(data, a, b)` with `shortestNinther = 50` and `maxSwaps = 12`: the
pivot index and the hint. -/
def choosePivotLessFunc {α : Type} [Inhabited α] (less : α → α → Bool) (data : List α)
    (a b : Nat) : Nat × SortedHint :=
  let l := b - a
  let i := a + l / 4 * 1
  let j := a + l / 4 * 2
  let k := a + l / 4 * 3
  let r : Nat × Nat :=
    if 8 ≤ l then
      if 50 ≤ l then
        let ri := medianAdjacentLessFunc less data i 0
        let rj := medianAdjacentLessFunc less data j ri.2
        let rk := medianAdjacentLessFunc less data k rj.2
        medianLessFunc less data ri.1 rj.1 rk.1 rk.2
      else medianLessFunc less data i j k 0
    else (j, 0)
  (r.1, if r.2 = 0 then .increasingHint else if r.2 = 12 then .decreasingHint
        else .unknownHint)

/-- The loop of `reverseRangeLessFunc`: `for i < j { data.Swap(i, j); i++; j-- }`. -/
def reverseLoop {α : Type} [Inhabited α] : Nat → Nat → Nat → List α → List α
  | 0, _, _, data => data
  | fuel + 1, i, j, data =>
    if i < j then reverseLoop fuel (i + 1) (j - 1) (swapAt data i j) else data

/-- `reverseRangeLessFunc(data, a, b)`. -/
def reverseRangeLessFunc {α : Type} [Inhabited α] (data : List α) (a b : Nat) : List α :=
  reverseLoop (b - a) a (b - 1) data

/-- An index scan upwards: `for i <= j && p(i) { i++ }`. -/
def scanUp (p : Nat → Bool) (j : Nat) : Nat → Nat → Nat
  | 0, i => i
  | fuel + 1, i => if i ≤ j ∧ p i = true then scanUp p j fuel (i + 1) else i

/-- An index scan downwards: `for i <= j && p(j) { j-- }`. -/
def scanDown (p : Nat → Bool) (i : Nat) : Nat → Nat → Nat
  | 0, j => j
  | fuel + 1, j => if i ≤ j ∧ p j = true then scanDown p i fuel (j - 1) else j

/-- The loop `for j := i - 1; j >= 1; j--` of `partialInsertionSortLessFunc`, which shifts
the smaller element to the left; the numeric argument is `j`. -/
def shiftSmaller {α : Type} [Inhabited α] (less : α → α → Bool) : Nat → List α → List α
  | 0, data => data
  | j + 1, data =>
    if lessAt less data (j + 1) j = false then data
    else shiftSmaller less j (swapAt data (j + 1) j)

/-- The loop `for j := i + 1; j < b; j++` of `partialInsertionSortLessFunc`, which shifts
the greater element to the right. -/
def shiftGreater {α : Type} [Inhabited α] (less : α → α → Bool) (b : Nat) :
    Nat → Nat → List α → List α
  | 0, _, data => data
  | fuel + 1, j, data =>
    if j < b then
      if lessAt less data j (j - 1) = false then data
      else shiftGreater less b fuel (j + 1) (swapAt data j (j - 1))
    else data

/-- The loop `for j := 0; j < maxSteps; j++` of `partialInsertionSortLessFunc`, with
`shortestShifting = 50`: the data and the returned flag. -/
def partialInsertionLoop {α : Type} [Inhabited α] (less : α → α → Bool) (a b : Nat) :
    Nat → Nat → List α → List α × Bool
  | 0, _, data => (data, false)
  | steps + 1, i, data =>
    let i1 := scanUp (fun k => !lessAt less data k (k - 1)) (b - 1) b i
    if i1 = b then (data, true)
    else if b - a < 50 then (data, false)
    else
      let d1 := swapAt data i1 (i1 - 1)
      let d2 := if 2 ≤ i1 - a then shiftSmaller less (i1 - 1) d1 else d1
      let d3 := if 2 ≤ b - i1 then shiftGreater less b b (i1 + 1) d2 else d2
      partialInsertionLoop less a b steps i1 d3

/-- `partialInsertionSortLessFunc(data, a, b)` with `maxSteps = 5`. -/
def partialInsertionSortLessFunc {α : Type} [Inhabited α] (less : α → α → Bool)
    (data : List α) (a b : Nat) : List α × Bool :=
  partialInsertionLoop less a b 5 (a + 1) data

/-- The loop of `partitionEqualLessFunc` after `data.Swap(a, pivot)`: the data and the
returned index `i`. -/
def partitionEqualLoop {α : Type} [Inhabited α] (less : α → α → Bool) (a : Nat) :
    Nat → Nat → Nat → List α → List α × Nat
  | 0, i, _, data => (data, i)
  | fuel + 1, i, j, data =>
    let i1 := scanUp (fun k => !lessAt less data a k) j (j + 1) i
    let j1 := scanDown (fun k => lessAt less data a k) i1 (j + 1) j
    if j1 < i1 then (data, i1)
    else partitionEqualLoop less a fuel (i1 + 1) (j1 - 1) (swapAt data i1 j1)

/-- `partitionEqualLessFunc(data, a, b, pivot)`. -/
def partitionEqualLessFunc {α : Type} [Inhabited α] (less : α → α → Bool) (data : List α)
    (a b pivot : Nat) : List α × Nat :=
  partitionEqualLoop less a (b - a) (a + 1) (b - 1) (swapAt data a pivot)

/-- The second loop of `partitionLessFunc`: the data and the final `j`. -/
def partitionLoop {α : Type} [Inhabited α] (less : α → α → Bool) (a : Nat) :
    Nat → Nat → Nat → List α → List α × Nat
  | 0, _, j, data => (data, j)
  | fuel + 1, i, j, data =>
    let i1 := scanUp (fun k => lessAt less data k a) j (j + 1) i
    let j1 := scanDown (fun k => !lessAt less data k a) i1 (j + 1) j
    if j1 < i1 then (data, j1)
    else partitionLoop less a fuel (i1 + 1) (j1 - 1) (swapAt data i1 j1)

/-- `partitionLessFunc(data, a, b, pivot)`: the data, the new pivot index and
`alreadyPartitioned`. -/
def partitionLessFunc {α : Type} [Inhabited α] (less : α → α → Bool) (data : List α)
    (a b pivot : Nat) : List α × Nat × Bool :=
  let d0 := swapAt data a pivot
  let i1 := scanUp (fun k => lessAt less d0 k a) (b - 1) b (a + 1)
  let j1 := scanDown (fun k => !lessAt less d0 k a) i1 b (b - 1)
  if j1 < i1 then (swapAt d0 j1 a, j1, true)
  else
    let r := partitionLoop less a (b - a) (i1 + 1) (j1 - 1) (swapAt d0 i1 j1)
    (swapAt r.1 r.2 a, r.2, false)

/-- `(*xorshift).Next` on a 64-bit state: `r ^= r << 13; r ^= r >> 7; r ^= r << 17`.
It is consulted by `breakPatternsLessFunc` only, that is after an unbalanced partition. -/
def xorshiftNext (r : Nat) : Nat :=
  let r1 := r ^^^ (r <<< 13 % 2 ^ 64)
  let r2 := r1 ^^^ (r1 >>> 7)
  r2 ^^^ (r2 <<< 17 % 2 ^ 64)

/-- The index `other` of `breakPatternsLessFunc` for a drawn number:
`random & (nextPowerOfTwo(length) - 1)`, less `length` when not below it. -/
def breakIndex (length random : Nat) : Nat :=
  let other := random % 2 ^ bitLen length
  if length ≤ other then other - length else other

/-- `breakPatternsLessFunc(data, a, b)`: three swaps around the middle with indices drawn
from `xorshift(length)`. -/
def breakPatternsLessFunc {α : Type} [Inhabited α] (data : List α) (a b : Nat) : List α :=
  let length := b - a
  if 8 ≤ length then
    let idx := a + length / 4 * 2 - 1
    let n1 := xorshiftNext length
    let n2 := xorshiftNext n1
    let n3 := xorshiftNext n2
    let d1 := swapAt data (idx - 1 + 0) (a + breakIndex length n1)
    let d2 := swapAt d1 (idx - 1 + 1) (a + breakIndex length n2)
    swapAt d2 (idx - 1 + 2) (a + breakIndex length n3)
  else data

/-- `pdqsortLessFunc(data, a, b, limit)` with `maxInsertion = 12`; the two flags are the
local variables `wasBalanced` and `wasPartitioned`, and each turn of the loop or
recursive call uses one unit of the first argument. -/
def pdqsortLessFunc {α : Type} [Inhabited α] (less : α → α → Bool) :
    Nat → List α → Nat → Nat → Nat → Bool → Bool → List α
  | 0, data, _, _, _, _, _ => data
  | fuel + 1, data, a, b, limit, wasBalanced, wasPartitioned =>
    if b - a ≤ 12 then insertionSortLessFunc less data a b
    else if limit = 0 then heapSortLessFunc less data a b
    else
      let d1 := if wasBalanced = false then breakPatternsLessFunc data a b else data
      let limit1 := if wasBalanced = false then limit - 1 else limit
      let ph := choosePivotLessFunc less d1 a b
      let d2 := if ph.2 = .decreasingHint then reverseRangeLessFunc d1 a b else d1
      let pivot := if ph.2 = .decreasingHint then (b - 1) - (ph.1 - a) else ph.1
      let hint := if ph.2 = .decreasingHint then SortedHint.increasingHint else ph.2
      let pis : List α × Bool :=
        if wasBalanced = true ∧ wasPartitioned = true ∧ hint = .increasingHint then
          partialInsertionSortLessFunc less d2 a b
        else (d2, false)
      if pis.2 = true then pis.1
      else if 0 < a ∧ lessAt less pis.1 (a - 1) pivot = false then
        let pe := partitionEqualLessFunc less pis.1 a b pivot
        pdqsortLessFunc less fuel pe.1 pe.2 b limit1 wasBalanced wasPartitioned
      else
        let pr := partitionLessFunc less pis.1 a b pivot
        let mid := pr.2.1
        if mid - a < b - mid then
          pdqsortLessFunc less fuel (pdqsortLessFunc less fuel pr.1 a mid limit1 true true)
            (mid + 1) b limit1 (decide ((b - a) / 8 ≤ mid - a)) pr.2.2
        else
          pdqsortLessFunc less fuel (pdqsortLessFunc less fuel pr.1 (mid + 1) b limit1 true true)
            a mid limit1 (decide ((b - a) / 8 ≤ b - mid)) pr.2.2

/-- `sort.Slice(x, less)` of Go 1.19 and later:
`pdqsort_func(lessSwap{less, swap}, 0, length, bits.Len(uint(length)))`. -/
def goSortSliceWith {α : Type} [Inhabited α] (less : α → α → Bool) (x : List α) : List α :=
  pdqsortLessFunc less (x.length + 1) x 0 x.length (bitLen x.length) true true

instance : Inhabited Variant := ⟨{}⟩

/-- The call `sort.Slice(master.Variants, less)` of `extractMedia`, with
`less(i, j) = Variants[i].AverageBandwidth > Variants[j].AverageBandwidth`. -/
def goSortSlice (variants : List Variant) : List Variant :=
  goSortSliceWith (fun v w => decide (w.AverageBandwidth < v.AverageBandwidth)) variants

/-- A manifest of thirteen variants in ascending order of bandwidth: eleven lossy variants
of distinct smaller bandwidths, followed by the two ALAC variants of `tieManifest`, which
share the greatest average bandwidth. -/
def longTieManifest : List Variant :=
  [{ URI := "f01.m3u8", Codecs := "mp4a.40.2", Audio := "audio-stereo-256",
     Bandwidth := 64000, AverageBandwidth := 64000 },
   { URI := "f02.m3u8", Codecs := "mp4a.40.2", Audio := "audio-stereo-256",
     Bandwidth := 128000, AverageBandwidth := 128000 },
   { URI := "f03.m3u8", Codecs := "mp4a.40.2", Audio := "audio-stereo-256",
     Bandwidth := 192000, AverageBandwidth := 192000 },
   { URI := "f04.m3u8", Codecs := "mp4a.40.2", Audio := "audio-stereo-256",
     Bandwidth := 256000, AverageBandwidth := 256000 },
   { URI := "f05.m3u8", Codecs := "mp4a.40.2", Audio := "audio-stereo-256",
     Bandwidth := 320000, AverageBandwidth := 320000 },
   { URI := "f06.m3u8", Codecs := "mp4a.40.2", Audio := "audio-stereo-256",
     Bandwidth := 384000, AverageBandwidth := 384000 },
   { URI := "f07.m3u8", Codecs := "mp4a.40.2", Audio := "audio-stereo-256",
     Bandwidth := 448000, AverageBandwidth := 448000 },
   { URI := "f08.m3u8", Codecs := "mp4a.40.2", Audio := "audio-stereo-256",
     Bandwidth := 512000, AverageBandwidth := 512000 },
   { URI := "f09.m3u8", Codecs := "mp4a.40.2", Audio := "audio-stereo-256",
     Bandwidth := 576000, AverageBandwidth := 576000 },
   { URI := "f10.m3u8", Codecs := "mp4a.40.2", Audio := "audio-stereo-256",
     Bandwidth := 640000, AverageBandwidth := 640000 },
   { URI := "f11.m3u8", Codecs := "mp4a.40.2", Audio := "audio-stereo-256",
     Bandwidth := 704000, AverageBandwidth := 704000 }] ++ tieManifest

/-! # Theorems -/

/-! ## Lists, indexing and the sort contract -/

theorem withinCeiling_iff (x : Option Int) (c : Int) :
    withinCeiling x c ↔ ∃ n, x = some n ∧ n ≤ c := by
  cases x <;> simp [withinCeiling]

theorem splitChars_ne_nil (sep : Char) (cs : List Char) : splitChars sep cs ≠ [] := by
  induction cs with
  | nil => simp [splitChars]
  | cons c cs ih =>
    unfold splitChars
    split
    · simp
    · split <;> simp

theorem Split_length_pos (s : String) (sep : Char) : 0 < (Split s sep).length := by
  unfold Split
  rw [List.length_map]
  exact List.length_pos.mpr (splitChars_ne_nil sep s.toList)

/-- The last field of a split label always exists: `split[len(split)-1]` cannot panic. -/
theorem index?_last_Split (s : String) (sep : Char) :
    ∃ d, index? (Split s sep) (((Split s sep).length : Int) - 1) = some d := by
  have hp := Split_length_pos s sep
  unfold index?
  have h3 : ¬ (((Split s sep).length : Int) - 1 < 0) := by omega
  rw [if_neg h3]
  have h4 : (((Split s sep).length : Int) - 1).toNat < (Split s sep).length := by omega
  exact ⟨(Split s sep)[(((Split s sep).length : Int) - 1).toNat],
    List.get?_eq_some.mpr ⟨h4, rfl⟩⟩

/-! ## The selection loop, one variant at a time -/

/-- The loop over `v :: rest` is the loop over `[v]`, continued on `rest` when `[v]` is passed. -/
theorem scanVariants_cons (parseRef : String → Option String) (cfg : ConfigSet) (fl : Flags)
    (v : Variant) (rest : List Variant) :
    scanVariants parseRef cfg fl (v :: rest) =
      match scanVariants parseRef cfg fl [v] with
      | .exhausted => scanVariants parseRef cfg fl rest
      | r => r := by
  simp only [scanVariants]
  repeat' split
  all_goals first | rfl | simp_all

/-- One variant: a `chosen` result is that variant, accepted by the active mode. -/
theorem scan_single_chosen {parseRef : String → Option String} {cfg : ConfigSet} {fl : Flags}
    {v w : Variant} {u q : String}
    (h : scanVariants parseRef cfg fl [v] = .chosen w u q) :
    w = v ∧ accepts cfg fl v ∧ parseRef v.URI = some u := by
  unfold accepts atmosQualifies aacMatches alacQualifies trailingNumber? sampleRate?
  simp only [scanVariants] at h
  repeat' split at h
  all_goals try cases h
  all_goals simp_all [withinCeiling]

/-- One variant: the loop goes on only past a variant the active mode does not accept. -/
theorem scan_single_exhausted {parseRef : String → Option String} {cfg : ConfigSet} {fl : Flags}
    {v : Variant} (h : scanVariants parseRef cfg fl [v] = .exhausted) :
    ¬ accepts cfg fl v := by
  unfold accepts atmosQualifies aacMatches alacQualifies trailingNumber? sampleRate?
  simp only [scanVariants] at h
  repeat' split at h
  all_goals try cases h
  all_goals simp_all [withinCeiling]

/-- One variant: not accepted and readable label, the loop goes on. -/
theorem scan_single_of_not_accepts {parseRef : String → Option String} {cfg : ConfigSet}
    {fl : Flags} {v : Variant} (hn : ¬ accepts cfg fl v) (hr : labelReadable cfg fl v) :
    scanVariants parseRef cfg fl [v] = .exhausted := by
  unfold accepts atmosQualifies aacMatches alacQualifies trailingNumber? sampleRate? at hn
  unfold labelReadable trailingNumber? sampleRate? aacMatches at hr
  simp only [scanVariants]
  repeat' split
  all_goals simp_all [withinCeiling]

/-- One variant: accepted, readable label and resolvable URI, the loop stops with it chosen. -/
theorem scan_single_of_accepts {parseRef : String → Option String} {cfg : ConfigSet}
    {fl : Flags} {v : Variant} {u : String} (ha : accepts cfg fl v)
    (hr : labelReadable cfg fl v) (hu : parseRef v.URI = some u) :
    ∃ q, scanVariants parseRef cfg fl [v] = .chosen v u q := by
  unfold accepts atmosQualifies aacMatches alacQualifies trailingNumber? sampleRate? at ha
  unfold labelReadable trailingNumber? sampleRate? aacMatches at hr
  obtain ⟨d, hd⟩ := index?_last_Split v.Audio '-'
  simp only [scanVariants]
  repeat' split
  all_goals simp_all [withinCeiling]
  all_goals omega

/-! ## The selection loop over the sorted list -/

/-- A loop that stops does so at some variant, having passed every variant before it. -/
theorem scan_stop_split {parseRef : String → Option String} {cfg : ConfigSet} {fl : Flags}
    {l : List Variant} {r : Scan} (h : scanVariants parseRef cfg fl l = r)
    (hr : r ≠ .exhausted) :
    ∃ pre v post, l = pre ++ v :: post ∧
      (∀ w ∈ pre, scanVariants parseRef cfg fl [w] = .exhausted) ∧
      scanVariants parseRef cfg fl [v] = r := by
  induction l with
  | nil => exact absurd (by simpa [scanVariants] using h.symm) hr
  | cons a l ih =>
    rw [scanVariants_cons] at h
    cases hs : scanVariants parseRef cfg fl [a] with
    | exhausted =>
      rw [hs] at h
      obtain ⟨pre, v, post, hl, hpre, hv⟩ := ih h
      refine ⟨a :: pre, v, post, by simp [hl], ?_, hv⟩
      intro w hw
      rcases List.mem_cons.mp hw with rfl | hw
      · exact hs
      · exact hpre w hw
    | chosen w u q =>
      rw [hs] at h
      exact ⟨[], a, l, rfl, by simp, by rw [hs]; exact h⟩
    | failed e =>
      rw [hs] at h
      exact ⟨[], a, l, rfl, by simp, by rw [hs]; exact h⟩
    | panicked =>
      rw [hs] at h
      exact ⟨[], a, l, rfl, by simp, by rw [hs]; exact h⟩

/-- The loop runs to the end exactly when it passes every variant. -/
theorem scan_exhausted_iff {parseRef : String → Option String} {cfg : ConfigSet} {fl : Flags}
    {l : List Variant} :
    scanVariants parseRef cfg fl l = .exhausted ↔
      ∀ w ∈ l, scanVariants parseRef cfg fl [w] = .exhausted := by
  induction l with
  | nil => simp [scanVariants]
  | cons a l ih =>
    rw [scanVariants_cons]
    cases hs : scanVariants parseRef cfg fl [a] <;> simp [hs, ih]

/-- A chosen variant is the first accepted one of the scanned list. -/
theorem scan_chosen_first {parseRef : String → Option String} {cfg : ConfigSet} {fl : Flags}
    {l : List Variant} {v : Variant} {u q : String}
    (h : scanVariants parseRef cfg fl l = .chosen v u q) :
    ∃ pre post, l = pre ++ v :: post ∧ (∀ w ∈ pre, ¬ accepts cfg fl w) ∧
      accepts cfg fl v ∧ parseRef v.URI = some u ∧
      scanVariants parseRef cfg fl [v] = .chosen v u q := by
  obtain ⟨pre, a, post, hl, hpre, ha⟩ := scan_stop_split h (by simp)
  obtain ⟨hva, hacc, hu⟩ := scan_single_chosen ha
  subst hva
  exact ⟨pre, post, hl, fun w hw => scan_single_exhausted (hpre w hw), hacc, hu, ha⟩

/-- In a list sorted by descending average bandwidth, every accepted variant has at most
the bandwidth of the first accepted one. -/
theorem bandwidth_le_of_first {cfg : ConfigSet} {fl : Flags} {l pre post : List Variant}
    {v : Variant} (hs : List.Pairwise (fun a b => b.AverageBandwidth ≤ a.AverageBandwidth) l)
    (hl : l = pre ++ v :: post) (hpre : ∀ w ∈ pre, ¬ accepts cfg fl w)
    {w : Variant} (hw : w ∈ l) (ha : accepts cfg fl w) :
    w.AverageBandwidth ≤ v.AverageBandwidth := by
  subst hl
  rcases List.mem_append.mp hw with h1 | h1
  · exact absurd ha (hpre w h1)
  · rcases List.mem_cons.mp h1 with rfl | h2
    · exact le_rfl
    · have h3 := (List.pairwise_append.mp hs).2.1
      exact List.rel_of_pairwise_cons h3 h2

/-- Selection mode: the outcome of `extractMedia` in terms of the loop. -/
theorem extractMedia_ok_iff {sortSlice : List Variant → List Variant}
    {parseRef : String → Option String} {cfg : ConfigSet} {fl : Flags}
    {master : List Variant} {more_mode : Bool} {u q : String}
    (henum : ¬ (fl.debug_mode = true ∧ more_mode = true)) :
    extractMedia sortSlice parseRef cfg fl (.ok master) more_mode = .ok u q ↔
      ∃ v, scanVariants parseRef cfg fl (sortSlice master) = .chosen v u q := by
  unfold extractMedia
  simp only [henum, if_false]
  cases hs : scanVariants parseRef cfg fl (sortSlice master) <;> simp

/-! ## The sort contract -/

/-- Insertion sort by descending average bandwidth, after any rearrangement of the
input, meets the contract of `sort.Slice`. -/
theorem insertionSort_bwGe_spec (pre : List Variant → List Variant)
    (hpre : ∀ l, List.Perm (pre l) l) :
    SortSliceSpec (fun l => List.insertionSort bwGe (pre l)) := by
  haveI : IsTotal Variant bwGe := ⟨fun a b => Nat.le_total b.AverageBandwidth a.AverageBandwidth⟩
  haveI : IsTrans Variant bwGe := ⟨fun a b c hab hbc => Nat.le_trans hbc hab⟩
  constructor
  · intro l
    exact (List.perm_insertionSort bwGe (pre l)).trans (hpre l)
  · intro l
    exact List.sorted_insertionSort bwGe (pre l)

theorem stableSortSlice_spec : SortSliceSpec stableSortSlice :=
  insertionSort_bwGe_spec id (fun l => List.Perm.refl l)

theorem reversingSortSlice_spec : SortSliceSpec reversingSortSlice :=
  insertionSort_bwGe_spec List.reverse (fun l => List.reverse_perm l)

/-- When no two variants share an average bandwidth, the contract of `sort.Slice`
fixes the sorted order. -/
theorem sortSlice_unique {s1 s2 : List Variant → List Variant} (h1 : SortSliceSpec s1)
    (h2 : SortSliceSpec s2) {l : List Variant}
    (hnd : (l.map Variant.AverageBandwidth).Nodup) : s1 l = s2 l := by
  haveI : IsAntisymm Variant (fun a b => b.AverageBandwidth < a.AverageBandwidth) :=
    ⟨fun a b hab hba => absurd hab (Nat.lt_asymm hba)⟩
  have strict : ∀ s : List Variant → List Variant, SortSliceSpec s →
      List.Pairwise (fun a b => b.AverageBandwidth < a.AverageBandwidth) (s l) := by
    intro s hs
    have hn : ((s l).map Variant.AverageBandwidth).Nodup :=
      ((hs.perm l).map Variant.AverageBandwidth).nodup_iff.mpr hnd
    have hn2 : List.Pairwise
        (fun a b : Variant => a.AverageBandwidth ≠ b.AverageBandwidth) (s l) := by
      simpa [List.Nodup, List.pairwise_map] using hn
    exact ((hs.sorted l).and hn2).imp (fun {a b} h => Nat.lt_of_le_of_ne h.1 (Ne.symm h.2))
  exact List.eq_of_perm_of_sorted ((h1.perm l).trans (h2.perm l).symm)
    (strict s1 h1) (strict s2 h2)

/-- The selected variant, read off a successful `extractMedia`. -/
theorem selectedVariant_of_ok {sortSlice : List Variant → List Variant}
    {parseRef : String → Option String} {cfg : ConfigSet} {fl : Flags}
    {master : List Variant} {more_mode : Bool} {u q : String}
    (hsort : SortSliceSpec sortSlice)
    (henum : ¬ (fl.debug_mode = true ∧ more_mode = true))
    (h : extractMedia sortSlice parseRef cfg fl (.ok master) more_mode = .ok u q) :
    ∃ v pre post, v ∈ master ∧ selectedVariant sortSlice parseRef cfg fl master = some v ∧
      sortSlice master = pre ++ v :: post ∧ (∀ w ∈ pre, ¬ accepts cfg fl w) ∧
      accepts cfg fl v ∧ parseRef v.URI = some u ∧
      scanVariants parseRef cfg fl [v] = .chosen v u q := by
  obtain ⟨v, hv⟩ := (extractMedia_ok_iff henum).mp h
  obtain ⟨pre, post, hl, hpre, hacc, hu, hone⟩ := scan_chosen_first hv
  refine ⟨v, pre, post, ?_, ?_, hl, hpre, hacc, hu, hone⟩
  · exact (hsort.perm master).subset (by rw [hl]; simp)
  · simp [selectedVariant, hv]

/-- ALAC mode, one variant: the quality label of a chosen variant. -/
theorem scan_single_alac_quality {parseRef : String → Option String} {cfg : ConfigSet}
    {fl : Flags} (ha : fl.dl_atmos = false) (hc : fl.dl_aac = false) {v w : Variant}
    {u q : String} (h : scanVariants parseRef cfg fl [v] = .chosen w u q) :
    ∃ depth rate, bitDepth? v = some depth ∧ sampleRate? v = some rate ∧
      q = depth ++ "B-" ++ fmtKHz rate ++ "kHz" := by
  unfold bitDepth? sampleRate?
  simp only [scanVariants, ha, hc, Bool.false_eq_true, if_false] at h
  repeat' split at h
  all_goals try cases h
  all_goals simp_all

/-! ## Claims -/

/-- C1: for every master manifest and every ceiling `Config.AlacMax`, when `extractMedia`
runs in ALAC mode (neither `dl_atmos` nor `dl_aac`, not enumerate mode) and returns a
URL, the selected variant is a variant of the manifest with codec `alac`, the URL is its
resolved URI, and the sample rate parsed from its audio-group label is at most the
ceiling. -/
theorem extractMedia_alac_within_ceiling (sortSlice : List Variant → List Variant)
    (parseRef : String → Option String) (cfg : ConfigSet) (fl : Flags)
    (master : List Variant) (more_mode : Bool) (url quality : String)
    (hsort : SortSliceSpec sortSlice)
    (hatmos : fl.dl_atmos = false) (haac : fl.dl_aac = false)
    (henum : ¬ (fl.debug_mode = true ∧ more_mode = true))
    (h : extractMedia sortSlice parseRef cfg fl (.ok master) more_mode = .ok url quality) :
    ∃ v ∈ master, selectedVariant sortSlice parseRef cfg fl master = some v ∧
      parseRef v.URI = some url ∧ v.Codecs = "alac" ∧
      ∃ rate, sampleRate? v = some rate ∧ rate ≤ cfg.AlacMax := by
  obtain ⟨v, pre, post, hmem, hsel, -, -, hacc, hu, -⟩ := selectedVariant_of_ok hsort henum h
  have hq : alacQualifies cfg v := by simpa [accepts, hatmos, haac] using hacc
  exact ⟨v, hmem, hsel, hu, hq.1, (withinCeiling_iff _ _).mp hq.2⟩

/-- Witness for C1: the rate-first scenario manifest under ceiling 48000. -/
theorem extractMedia_alac_within_ceiling_witness :
    SortSliceSpec stableSortSlice ∧
    extractMedia stableSortSlice sampleParseRef scenarioConfig alacFlags
      (.ok scenarioManifestRateFirst) false = .ok "https://h/a.m3u8" "24B-48.0kHz" ∧
    ∃ v ∈ scenarioManifestRateFirst,
      selectedVariant stableSortSlice sampleParseRef scenarioConfig alacFlags
        scenarioManifestRateFirst = some v ∧
      sampleParseRef v.URI = some "https://h/a.m3u8" ∧ v.Codecs = "alac" ∧
      ∃ rate, sampleRate? v = some rate ∧ rate ≤ scenarioConfig.AlacMax :=
  ⟨stableSortSlice_spec, by decide,
    extractMedia_alac_within_ceiling stableSortSlice sampleParseRef scenarioConfig alacFlags
      scenarioManifestRateFirst false "https://h/a.m3u8" "24B-48.0kHz" stableSortSlice_spec
      rfl rfl (by decide) (by decide)⟩

/-- On a manifest without two equal average bandwidths, `extractMedia` does not depend on
which sort meeting the contract is used. -/
theorem extractMedia_sort_irrelevant {s1 s2 : List Variant → List Variant}
    (h1 : SortSliceSpec s1) (h2 : SortSliceSpec s2) (parseRef : String → Option String)
    (cfg : ConfigSet) (fl : Flags) {master : List Variant} (more_mode : Bool)
    (hnd : (master.map Variant.AverageBandwidth).Nodup) :
    extractMedia s1 parseRef cfg fl (.ok master) more_mode =
      extractMedia s2 parseRef cfg fl (.ok master) more_mode ∧
    selectedVariant s1 parseRef cfg fl master = selectedVariant s2 parseRef cfg fl master := by
  have e := sortSlice_unique h1 h2 hnd
  constructor
  · simp only [extractMedia, e]
  · simp only [selectedVariant, e]

/-- C2 as stated fails: on the scenario manifest with the labels as the claim writes them
(`audio-alac-stereo-24-48000`), `extractMedia` selects the first variant but returns the
label `48000B-0.0kHz`, not `24B-48.0kHz`: the code reads the second-to-last field as the
sample rate and the last field as the bit depth. -/
theorem extractMedia_scenario_label_counterexample :
    extractMedia stableSortSlice sampleParseRef scenarioConfig alacFlags
        (.ok scenarioManifest) false = .ok "https://h/a.m3u8" "48000B-0.0kHz" ∧
    extractMedia stableSortSlice sampleParseRef scenarioConfig alacFlags
        (.ok scenarioManifest) false ≠ .ok "https://h/a.m3u8" "24B-48.0kHz" ∧
    selectedVariant stableSortSlice sampleParseRef scenarioConfig alacFlags scenarioManifest =
      scenarioManifest.head? := by
  decide

/-- C2 (amended): for every ALAC selection the returned quality label is
`<d>B-<r/1000 with one decimal>kHz`, where `r` is the number parsed from the
second-to-last `-`-separated field of the selected variant's label (its sample rate) and
`d` is the last field (its bit depth); in particular, for the manifest
[(alac, `audio-alac-stereo-48000-24`, 1000000), (alac, `audio-alac-stereo-44100-16`, 800000)]
with ceiling 48000, `extractMedia` selects the first variant and returns `24B-48.0kHz`. -/
theorem extractMedia_alac_quality_label (sortSlice : List Variant → List Variant)
    (hsort : SortSliceSpec sortSlice) :
    (∀ (parseRef : String → Option String) (cfg : ConfigSet) (fl : Flags)
        (master : List Variant) (more_mode : Bool) (url quality : String),
        fl.dl_atmos = false → fl.dl_aac = false →
        ¬ (fl.debug_mode = true ∧ more_mode = true) →
        extractMedia sortSlice parseRef cfg fl (.ok master) more_mode = .ok url quality →
        ∃ v ∈ master, selectedVariant sortSlice parseRef cfg fl master = some v ∧
          ∃ depth rate, bitDepth? v = some depth ∧ sampleRate? v = some rate ∧
            quality = depth ++ "B-" ++ fmtKHz rate ++ "kHz") ∧
    extractMedia sortSlice sampleParseRef scenarioConfig alacFlags
        (.ok scenarioManifestRateFirst) false = .ok "https://h/a.m3u8" "24B-48.0kHz" ∧
    selectedVariant sortSlice sampleParseRef scenarioConfig alacFlags
        scenarioManifestRateFirst = scenarioManifestRateFirst.head? := by
  refine ⟨?_, ?_, ?_⟩
  · intro parseRef cfg fl master more_mode url quality hatmos haac henum h
    obtain ⟨v, pre, post, hmem, hsel, -, -, -, -, hone⟩ := selectedVariant_of_ok hsort henum h
    exact ⟨v, hmem, hsel, scan_single_alac_quality hatmos haac hone⟩
  · rw [(extractMedia_sort_irrelevant hsort stableSortSlice_spec sampleParseRef scenarioConfig
      alacFlags false (by decide)).1]
    decide
  · rw [(extractMedia_sort_irrelevant hsort stableSortSlice_spec sampleParseRef scenarioConfig
      alacFlags false (by decide)).2]
    decide

/-- Witness for C2 (amended), with the insertion sort as `sort.Slice`: the general part
applied to the rate-first scenario, and the scenario itself. -/
theorem extractMedia_alac_quality_label_witness :
    SortSliceSpec stableSortSlice ∧
    extractMedia stableSortSlice sampleParseRef scenarioConfig alacFlags
        (.ok scenarioManifestRateFirst) false = .ok "https://h/a.m3u8" "24B-48.0kHz" ∧
    ∃ v ∈ scenarioManifestRateFirst,
      selectedVariant stableSortSlice sampleParseRef scenarioConfig alacFlags
        scenarioManifestRateFirst = some v ∧
      ∃ depth rate, bitDepth? v = some depth ∧ sampleRate? v = some rate ∧
        "24B-48.0kHz" = depth ++ "B-" ++ fmtKHz rate ++ "kHz" :=
  ⟨stableSortSlice_spec,
    (extractMedia_alac_quality_label stableSortSlice stableSortSlice_spec).2.1,
    (extractMedia_alac_quality_label stableSortSlice stableSortSlice_spec).1 sampleParseRef
      scenarioConfig alacFlags scenarioManifestRateFirst false "https://h/a.m3u8" "24B-48.0kHz"
      rfl rfl (by decide) (by decide)⟩

/-- The selected variant is the first accepted variant of the sorted list and no accepted
variant of the manifest has a greater average bandwidth. -/
theorem selectedVariant_first {sortSlice : List Variant → List Variant}
    {parseRef : String → Option String} {cfg : ConfigSet} {fl : Flags}
    {master : List Variant} {v : Variant} (hsort : SortSliceSpec sortSlice)
    (h : selectedVariant sortSlice parseRef cfg fl master = some v) :
    v ∈ master ∧ accepts cfg fl v ∧
      (∃ pre post, sortSlice master = pre ++ v :: post ∧ ∀ w ∈ pre, ¬ accepts cfg fl w) ∧
      ∀ w ∈ master, accepts cfg fl w → w.AverageBandwidth ≤ v.AverageBandwidth := by
  unfold selectedVariant at h
  cases hs : scanVariants parseRef cfg fl (sortSlice master) with
  | chosen v2 u q =>
    rw [hs] at h
    simp only [Option.some.injEq] at h
    subst h
    obtain ⟨pre, post, hl, hpre, hacc, -, -⟩ := scan_chosen_first hs
    refine ⟨(hsort.perm master).subset (by rw [hl]; simp), hacc, ⟨pre, post, hl, hpre⟩, ?_⟩
    intro w hw ha
    exact bandwidth_le_of_first (hsort.sorted master) hl hpre
      ((hsort.perm master).symm.subset hw) ha
  | failed e => rw [hs] at h; cases h
  | panicked => rw [hs] at h; cases h
  | exhausted => rw [hs] at h; cases h

set_option maxRecDepth 100000 in
/-- C3 as stated fails: `sort.Slice` is not the stable sort of the library. On a manifest
of thirteen variants in ascending order of bandwidth, whose last two variants are accepted
ALAC variants of equal average bandwidth, `sort.Slice` (Go 1.19 and later: the slice is
longer than the twelve elements sorted by insertion, so it is partitioned around the
median of the elements at 3, 6 and 9, and the partition exchanges index 1 with index 12
before index 2 with index 11) leaves the last variant of the manifest first. `extractMedia`
selects it, the later of the two, and returns its URL and label, where a stable sort gives
those of the earlier one. On the two tied variants alone the sort is an insertion sort and
the earlier one is selected. -/
theorem extractMedia_tie_counterexample :
    longTieManifest.length = 13 ∧
    longTieManifest.get? 11 = tieManifest.get? 0 ∧
    longTieManifest.get? 12 = tieManifest.get? 1 ∧
    (∀ v ∈ tieManifest, alacQualifies scenarioConfig v ∧ v.AverageBandwidth = 800000) ∧
    (goSortSlice longTieManifest).map Variant.URI =
      ["b.m3u8", "a.m3u8", "f11.m3u8", "f10.m3u8", "f09.m3u8", "f08.m3u8", "f07.m3u8",
       "f06.m3u8", "f05.m3u8", "f04.m3u8", "f03.m3u8", "f02.m3u8", "f01.m3u8"] ∧
    selectedVariant goSortSlice sampleParseRef scenarioConfig alacFlags longTieManifest =
      longTieManifest.get? 12 ∧
    extractMedia goSortSlice sampleParseRef scenarioConfig alacFlags
      (.ok longTieManifest) false = .ok "https://h/b.m3u8" "24B-48.0kHz" ∧
    extractMedia stableSortSlice sampleParseRef scenarioConfig alacFlags
      (.ok longTieManifest) false = .ok "https://h/a.m3u8" "16B-44.1kHz" ∧
    goSortSlice tieManifest = tieManifest ∧
    extractMedia goSortSlice sampleParseRef scenarioConfig alacFlags
      (.ok tieManifest) false = .ok "https://h/a.m3u8" "16B-44.1kHz" := by
  decide

/-- C3 (amended): variant selection is a function of (manifest, policy) and of the order
`sort.Slice` leaves the variants in. The sort is by descending average bandwidth and only
its contract is known (it is not the stable variant): the selected variant is the first
accepted variant of the sorted list, so no accepted variant of the manifest has a greater
average bandwidth; and when no two variants of the manifest share an average bandwidth,
every sort meeting the contract yields the same outcome and the same selected variant. -/
theorem extractMedia_selection_determined (sortSlice : List Variant → List Variant)
    (hsort : SortSliceSpec sortSlice) (parseRef : String → Option String) (cfg : ConfigSet)
    (fl : Flags) (master : List Variant) (more_mode : Bool) :
    (∀ v, selectedVariant sortSlice parseRef cfg fl master = some v →
      v ∈ master ∧ accepts cfg fl v ∧
      (∃ pre post, sortSlice master = pre ++ v :: post ∧ ∀ w ∈ pre, ¬ accepts cfg fl w) ∧
      ∀ w ∈ master, accepts cfg fl w → w.AverageBandwidth ≤ v.AverageBandwidth) ∧
    ((master.map Variant.AverageBandwidth).Nodup →
      ∀ s2, SortSliceSpec s2 →
        extractMedia s2 parseRef cfg fl (.ok master) more_mode =
          extractMedia sortSlice parseRef cfg fl (.ok master) more_mode ∧
        selectedVariant s2 parseRef cfg fl master =
          selectedVariant sortSlice parseRef cfg fl master) :=
  ⟨fun _ h => selectedVariant_first hsort h,
    fun hnd _ h2 => extractMedia_sort_irrelevant h2 hsort parseRef cfg fl more_mode hnd⟩

/-- Witness for C3 (amended): the scenario manifest has no two equal bandwidths, so the
reversing sort and the stable sort agree on it. -/
theorem extractMedia_selection_determined_witness :
    SortSliceSpec stableSortSlice ∧
    (scenarioManifestRateFirst.map Variant.AverageBandwidth).Nodup ∧
    extractMedia reversingSortSlice sampleParseRef scenarioConfig alacFlags
        (.ok scenarioManifestRateFirst) false =
      extractMedia stableSortSlice sampleParseRef scenarioConfig alacFlags
        (.ok scenarioManifestRateFirst) false :=
  ⟨stableSortSlice_spec, by decide,
    ((extractMedia_selection_determined stableSortSlice stableSortSlice_spec sampleParseRef
      scenarioConfig alacFlags scenarioManifestRateFirst false).2 (by decide)
      reversingSortSlice reversingSortSlice_spec).1⟩

/-- C4 as stated fails: in ATMOS mode an `ac-3` variant is selected although an `ec-3`
variant with an `atmos` label within the ceiling is in the manifest, because the `ac-3`
variant comes first in descending-bandwidth order. -/
theorem extractMedia_atmos_fallback_counterexample :
    selectedVariant stableSortSlice sampleParseRef { AtmosMax := 2768 } atmosFlags
        dolbyManifest = some dolbyAudioVariant ∧
    dolbyAudioVariant.Codecs = "ac-3" ∧
    atmosVariant ∈ dolbyManifest ∧ atmosQualifies { AtmosMax := 2768 } atmosVariant ∧
    extractMedia stableSortSlice sampleParseRef { AtmosMax := 2768 } atmosFlags
        (.ok dolbyManifest) false = .ok "https://h/ac3.m3u8" "896 kbps" := by
  decide

/-- C4 (amended): in ATMOS mode, if `extractMedia` returns a URL, the selected variant is
either an `ec-3` variant whose label contains `atmos` and whose trailing number is at most
`Config.AtmosMax`, or an `ac-3` variant; it is the first such variant in the sorted order,
so an `ac-3` variant is selected only when no qualifying `ec-3`+`atmos` variant comes
before it there: no qualifying `ec-3`+`atmos` variant has a greater average bandwidth. -/
theorem extractMedia_atmos_selection (sortSlice : List Variant → List Variant)
    (parseRef : String → Option String) (cfg : ConfigSet) (fl : Flags)
    (master : List Variant) (more_mode : Bool) (url quality : String)
    (hsort : SortSliceSpec sortSlice) (hatmos : fl.dl_atmos = true)
    (henum : ¬ (fl.debug_mode = true ∧ more_mode = true))
    (h : extractMedia sortSlice parseRef cfg fl (.ok master) more_mode = .ok url quality) :
    ∃ v ∈ master, selectedVariant sortSlice parseRef cfg fl master = some v ∧
      parseRef v.URI = some url ∧
      (atmosQualifies cfg v ∨ v.Codecs = "ac-3") ∧
      (∃ pre post, sortSlice master = pre ++ v :: post ∧
        ∀ w ∈ pre, ¬ atmosQualifies cfg w ∧ w.Codecs ≠ "ac-3") ∧
      ∀ w ∈ master, atmosQualifies cfg w → w.AverageBandwidth ≤ v.AverageBandwidth := by
  obtain ⟨v, pre, post, hmem, hsel, hl, hpre, hacc, hu, -⟩ := selectedVariant_of_ok hsort henum h
  have hacc2 : ∀ w, accepts cfg fl w ↔ (atmosQualifies cfg w ∨ w.Codecs = "ac-3") := by
    intro w; simp [accepts, hatmos]
  refine ⟨v, hmem, hsel, hu, (hacc2 v).mp hacc, ⟨pre, post, hl, ?_⟩, ?_⟩
  · intro w hw
    have := hpre w hw
    rw [hacc2] at this
    exact not_or.mp this
  · intro w hw hq
    exact (selectedVariant_first hsort hsel).2.2.2 w hw ((hacc2 w).mpr (Or.inl hq))

/-- Witness for C4 (amended): the manifest offering Atmos and `ac-3`. -/
theorem extractMedia_atmos_selection_witness :
    SortSliceSpec stableSortSlice ∧
    extractMedia stableSortSlice sampleParseRef { AtmosMax := 2768 } atmosFlags
        (.ok dolbyManifest) false = .ok "https://h/ac3.m3u8" "896 kbps" ∧
    ∃ v ∈ dolbyManifest,
      selectedVariant stableSortSlice sampleParseRef { AtmosMax := 2768 } atmosFlags
        dolbyManifest = some v ∧
      sampleParseRef v.URI = some "https://h/ac3.m3u8" ∧
      (atmosQualifies { AtmosMax := 2768 } v ∨ v.Codecs = "ac-3") ∧
      (∃ pre post, stableSortSlice dolbyManifest = pre ++ v :: post ∧
        ∀ w ∈ pre, ¬ atmosQualifies { AtmosMax := 2768 } w ∧ w.Codecs ≠ "ac-3") ∧
      ∀ w ∈ dolbyManifest, atmosQualifies { AtmosMax := 2768 } w →
        w.AverageBandwidth ≤ v.AverageBandwidth :=
  ⟨stableSortSlice_spec, by decide,
    extractMedia_atmos_selection stableSortSlice sampleParseRef { AtmosMax := 2768 } atmosFlags
      dolbyManifest false "https://h/ac3.m3u8" "896 kbps" stableSortSlice_spec rfl
      (by decide) (by decide)⟩

/-! ## Totality of the loop on readable manifests -/

/-- Variants the loop passes in front of a list do not change its result. -/
theorem scan_append_of_exhausted {parseRef : String → Option String} {cfg : ConfigSet}
    {fl : Flags} {pre : List Variant} (l : List Variant)
    (hpre : ∀ w ∈ pre, scanVariants parseRef cfg fl [w] = .exhausted) :
    scanVariants parseRef cfg fl (pre ++ l) = scanVariants parseRef cfg fl l := by
  induction pre with
  | nil => rfl
  | cons a pre ih =>
    rw [List.cons_append, scanVariants_cons, hpre a (by simp)]
    exact ih (fun w hw => hpre w (by simp [hw]))

/-- No accepted variant and readable labels: the loop runs to the end. -/
theorem scan_exhausted_of_none {parseRef : String → Option String} {cfg : ConfigSet}
    {fl : Flags} {l : List Variant} (hr : ∀ w ∈ l, labelReadable cfg fl w)
    (hn : ∀ w ∈ l, ¬ accepts cfg fl w) :
    scanVariants parseRef cfg fl l = .exhausted :=
  scan_exhausted_iff.mpr (fun w hw => scan_single_of_not_accepts (hn w hw) (hr w hw))

/-- Some accepted variant, readable labels and resolvable URIs: the loop chooses a variant. -/
theorem scan_chosen_of_some {parseRef : String → Option String} {cfg : ConfigSet}
    {fl : Flags} {l : List Variant} (hr : ∀ w ∈ l, labelReadable cfg fl w)
    (hu : ∀ w ∈ l, accepts cfg fl w → parseRef w.URI ≠ none)
    (he : ∃ w ∈ l, accepts cfg fl w) :
    ∃ v u q, scanVariants parseRef cfg fl l = .chosen v u q := by
  induction l with
  | nil => obtain ⟨w, hw, -⟩ := he; simp at hw
  | cons a l ih =>
    rw [scanVariants_cons]
    by_cases ha : accepts cfg fl a
    · obtain ⟨u, hau⟩ := Option.ne_none_iff_exists'.mp (hu a (by simp) ha)
      obtain ⟨q, hq⟩ := scan_single_of_accepts ha (hr a (by simp)) hau
      exact ⟨a, u, q, by rw [hq]⟩
    · rw [scan_single_of_not_accepts ha (hr a (by simp))]
      apply ih (fun w hw => hr w (by simp [hw])) (fun w hw => hu w (by simp [hw]))
      obtain ⟨w, hw, hacc⟩ := he
      rcases List.mem_cons.mp hw with rfl | hw
      · exact absurd hacc ha
      · exact ⟨w, hw, hacc⟩

/-- Selection mode: `no codec found` is returned exactly when the loop runs to the end. -/
theorem noCodecFound_iff_exhausted {sortSlice : List Variant → List Variant}
    {parseRef : String → Option String} {cfg : ConfigSet} {fl : Flags}
    {master : List Variant} {more_mode : Bool}
    (henum : ¬ (fl.debug_mode = true ∧ more_mode = true)) :
    extractMedia sortSlice parseRef cfg fl (.ok master) more_mode = .error .noCodecFound ↔
      scanVariants parseRef cfg fl (sortSlice master) = .exhausted := by
  unfold extractMedia
  simp only [henum, if_false]
  constructor
  · intro h
    cases hs : scanVariants parseRef cfg fl (sortSlice master) with
    | exhausted => rfl
    | chosen v u q => rw [hs] at h; cases h
    | panicked => rw [hs] at h; cases h
    | failed e =>
      rw [hs] at h
      simp only [Outcome.error.injEq] at h
      subst h
      obtain ⟨pre, v, post, -, -, hv⟩ := scan_stop_split hs (by simp)
      simp only [scanVariants] at hv
      repeat' split at hv
      all_goals cases hv
  · intro h
    rw [h]

/-- C5: in ALAC mode, for every master manifest in which at least one `alac` variant has a
sample rate within the ceiling, `extractMedia` does not end in `no codec found`, it selects
a variant when the `alac` labels are readable and the URIs resolve, and the variant it
selects is the first qualifying one in descending-bandwidth order: a qualifying `alac`
variant of the manifest, with no qualifying variant before it in the sorted list and none
of strictly greater average bandwidth (the key of the sort). -/
theorem extractMedia_alac_first_qualifying (sortSlice : List Variant → List Variant)
    (parseRef : String → Option String) (cfg : ConfigSet) (fl : Flags)
    (master : List Variant) (more_mode : Bool)
    (hsort : SortSliceSpec sortSlice)
    (hatmos : fl.dl_atmos = false) (haac : fl.dl_aac = false)
    (henum : ¬ (fl.debug_mode = true ∧ more_mode = true))
    (hex : ∃ w ∈ master, alacQualifies cfg w) :
    extractMedia sortSlice parseRef cfg fl (.ok master) more_mode ≠ .error .noCodecFound ∧
    ((∀ w ∈ master, w.Codecs = "alac" → sampleRate? w ≠ none ∧ parseRef w.URI ≠ none) →
      ∃ v, selectedVariant sortSlice parseRef cfg fl master = some v) ∧
    ∀ v, selectedVariant sortSlice parseRef cfg fl master = some v →
      v ∈ master ∧ alacQualifies cfg v ∧
      (∃ pre post, sortSlice master = pre ++ v :: post ∧ ∀ w ∈ pre, ¬ alacQualifies cfg w) ∧
      ∀ w ∈ master, alacQualifies cfg w → ¬ (v.AverageBandwidth < w.AverageBandwidth) := by
  have hacc : ∀ w, accepts cfg fl w ↔ alacQualifies cfg w := by
    intro w; simp [accepts, hatmos, haac]
  obtain ⟨w0, hw0, hq0⟩ := hex
  have hw0s : w0 ∈ sortSlice master := (hsort.perm master).symm.subset hw0
  refine ⟨?_, ?_, ?_⟩
  · intro h
    have hx := scan_exhausted_iff.mp ((noCodecFound_iff_exhausted henum).mp h) w0 hw0s
    exact scan_single_exhausted hx ((hacc w0).mpr hq0)
  · intro hwf
    have hr : ∀ w ∈ sortSlice master, labelReadable cfg fl w := by
      intro w hw
      have := hwf w ((hsort.perm master).subset hw)
      simp only [labelReadable, hatmos, haac, Bool.false_eq_true, if_false]
      exact fun hc => (this hc).1
    have hu : ∀ w ∈ sortSlice master, accepts cfg fl w → parseRef w.URI ≠ none := by
      intro w hw ha
      exact (hwf w ((hsort.perm master).subset hw) ((hacc w).mp ha).1).2
    obtain ⟨v, u, q, hv⟩ := scan_chosen_of_some hr hu ⟨w0, hw0s, (hacc w0).mpr hq0⟩
    exact ⟨v, by simp [selectedVariant, hv]⟩
  · intro v hv
    obtain ⟨hmem, ha, ⟨pre, post, hl, hpre⟩, hmax⟩ := selectedVariant_first hsort hv
    refine ⟨hmem, (hacc v).mp ha, ⟨pre, post, hl, fun w hw => ?_⟩, fun w hw hq => ?_⟩
    · rw [← hacc]; exact hpre w hw
    · exact Nat.not_lt.mpr (hmax w hw ((hacc w).mpr hq))

/-- Witness for C5: the rate-first scenario manifest has a qualifying variant, its first
variant is selected and no qualifying variant has a greater average bandwidth. -/
theorem extractMedia_alac_first_qualifying_witness :
    SortSliceSpec stableSortSlice ∧
    (∃ w ∈ scenarioManifestRateFirst, alacQualifies scenarioConfig w) ∧
    extractMedia stableSortSlice sampleParseRef scenarioConfig alacFlags
      (.ok scenarioManifestRateFirst) false ≠ .error .noCodecFound ∧
    ∀ v, selectedVariant stableSortSlice sampleParseRef scenarioConfig alacFlags
        scenarioManifestRateFirst = some v →
      v ∈ scenarioManifestRateFirst ∧ alacQualifies scenarioConfig v ∧
      (∃ pre post, stableSortSlice scenarioManifestRateFirst = pre ++ v :: post ∧
        ∀ w ∈ pre, ¬ alacQualifies scenarioConfig w) ∧
      ∀ w ∈ scenarioManifestRateFirst, alacQualifies scenarioConfig w →
        ¬ (v.AverageBandwidth < w.AverageBandwidth) :=
  ⟨stableSortSlice_spec, by decide,
    (extractMedia_alac_first_qualifying stableSortSlice sampleParseRef scenarioConfig alacFlags
      scenarioManifestRateFirst false stableSortSlice_spec rfl rfl (by decide) (by decide)).1,
    (extractMedia_alac_first_qualifying stableSortSlice sampleParseRef scenarioConfig alacFlags
      scenarioManifestRateFirst false stableSortSlice_spec rfl rfl (by decide) (by decide)).2.2⟩

/-- AAC mode, one matching variant with a third label field and a resolvable URI. -/
theorem scan_single_aac {parseRef : String → Option String} {cfg : ConfigSet}
    {fl : Flags} (hatmos : fl.dl_atmos = false) (haac : fl.dl_aac = true) {v : Variant}
    {u bitrate : String} (hm : aacMatches cfg v) (hu : parseRef v.URI = some u)
    (hb : index? (Split v.Audio '-') 2 = some bitrate) :
    scanVariants parseRef cfg fl [v] = .chosen v u (bitrate ++ " kbps") := by
  simp [scanVariants, hatmos, haac, hm.1, hm.2, hu, hb]

/-- C6: in AAC mode (`dl_aac`, not `dl_atmos`), for every master manifest, the variant
`extractMedia` selects is the first variant in sorted order whose codec is `mp4a.40.2` and
whose label, with each `audio-stereo-<digits>` part replaced by `aac`, equals
`Config.AacType`; no variant with another codec or another normalised label is ever
selected; the first such variant is selected (with the URL of its URI and its third label
field as bitrate) and without such a variant the result is `no codec found`;
`audio-stereo-256` normalises to `aac` and `audio-stereo-256-binaural` to `aac-binaural`. -/
theorem extractMedia_aac_selection (sortSlice : List Variant → List Variant)
    (parseRef : String → Option String) (cfg : ConfigSet) (fl : Flags)
    (master : List Variant) (more_mode : Bool)
    (hsort : SortSliceSpec sortSlice)
    (hatmos : fl.dl_atmos = false) (haac : fl.dl_aac = true)
    (henum : ¬ (fl.debug_mode = true ∧ more_mode = true)) :
    (∀ v, selectedVariant sortSlice parseRef cfg fl master = some v →
      v ∈ master ∧ v.Codecs = "mp4a.40.2" ∧ aacregexReplaceAll v.Audio = cfg.AacType ∧
      ∃ pre post, sortSlice master = pre ++ v :: post ∧ ∀ w ∈ pre, ¬ aacMatches cfg w) ∧
    (∀ pre v post u bitrate, sortSlice master = pre ++ v :: post →
      (∀ w ∈ pre, ¬ aacMatches cfg w) → aacMatches cfg v →
      parseRef v.URI = some u → index? (Split v.Audio '-') 2 = some bitrate →
      selectedVariant sortSlice parseRef cfg fl master = some v ∧
      extractMedia sortSlice parseRef cfg fl (.ok master) more_mode =
        .ok u (bitrate ++ " kbps")) ∧
    ((∀ w ∈ master, ¬ aacMatches cfg w) →
      extractMedia sortSlice parseRef cfg fl (.ok master) more_mode = .error .noCodecFound) ∧
    aacregexReplaceAll "audio-stereo-256" = "aac" ∧
    aacregexReplaceAll "audio-stereo-256-binaural" = "aac-binaural" := by
  have hacc : ∀ w, accepts cfg fl w ↔ aacMatches cfg w := by
    intro w; simp [accepts, hatmos, haac]
  have hread : ∀ w, ¬ aacMatches cfg w → labelReadable cfg fl w := by
    intro w hw
    simp only [labelReadable, hatmos, haac, Bool.false_eq_true, if_false, if_true]
    exact fun h => absurd h hw
  refine ⟨?_, ?_, ?_, by decide, by decide⟩
  · intro v hv
    obtain ⟨hmem, ha, ⟨pre, post, hl, hpre⟩, -⟩ := selectedVariant_first hsort hv
    have hm := (hacc v).mp ha
    exact ⟨hmem, hm.1, hm.2, pre, post, hl, fun w hw => by rw [← hacc]; exact hpre w hw⟩
  · intro pre v post u bitrate hl hpre hm hu hb
    have hscan : scanVariants parseRef cfg fl (sortSlice master) =
        .chosen v u (bitrate ++ " kbps") := by
      rw [hl, scan_append_of_exhausted _ (fun w hw =>
        scan_single_of_not_accepts (by rw [hacc]; exact hpre w hw) (hread w (hpre w hw))),
        scanVariants_cons, scan_single_aac hatmos haac hm hu hb]
    constructor
    · simp [selectedVariant, hscan]
    · unfold extractMedia
      simp only [henum, if_false, hscan]
  · intro hn
    rw [noCodecFound_iff_exhausted henum]
    apply scan_exhausted_of_none
    · intro w hw
      exact hread w (hn w ((hsort.perm master).subset hw))
    · intro w hw
      rw [hacc]
      exact hn w ((hsort.perm master).subset hw)

/-- Witness for C6: subtype `aac` on a manifest with binaural, stereo and downmix variants
selects the plain stereo variant, the second in sorted order. -/
theorem extractMedia_aac_selection_witness :
    SortSliceSpec stableSortSlice ∧
    selectedVariant stableSortSlice sampleParseRef { AacType := "aac" } aacFlags aacManifest =
      aacManifest.get? 1 ∧
    extractMedia stableSortSlice sampleParseRef { AacType := "aac" } aacFlags
      (.ok aacManifest) false = .ok "https://h/st.m3u8" "256 kbps" ∧
    ∀ v, selectedVariant stableSortSlice sampleParseRef { AacType := "aac" } aacFlags
        aacManifest = some v →
      v ∈ aacManifest ∧ v.Codecs = "mp4a.40.2" ∧ aacregexReplaceAll v.Audio = "aac" ∧
      ∃ pre post, stableSortSlice aacManifest = pre ++ v :: post ∧
        ∀ w ∈ pre, ¬ aacMatches { AacType := "aac" } w :=
  ⟨stableSortSlice_spec, by decide, by decide,
    (extractMedia_aac_selection stableSortSlice sampleParseRef { AacType := "aac" } aacFlags
      aacManifest false stableSortSlice_spec rfl rfl (by decide)).1⟩

/-- C7 as stated fails: in ALAC mode a manifest has a variant that satisfies the
acceptance predicate, yet no URL is returned: the scan stops before it at a variant of
greater bandwidth whose sample-rate field is not a number and returns that parse error.
And on the manifest made of that unreadable variant alone, no variant satisfies the
predicate but the error is not `no codec found`. -/
theorem extractMedia_noCodec_counterexample :
    (∃ v ∈ unreadableManifest, accepts scenarioConfig alacFlags v) ∧
    extractMedia stableSortSlice sampleParseRef scenarioConfig alacFlags
      (.ok unreadableManifest) false = .error (.atoi "hires") ∧
    (∀ v ∈ unreadableManifest.take 1, ¬ accepts scenarioConfig alacFlags v) ∧
    extractMedia stableSortSlice sampleParseRef scenarioConfig alacFlags
      (.ok (unreadableManifest.take 1)) false = .error (.atoi "hires") := by
  decide

/-- C7 (amended): in selection mode `extractMedia` fails with `no codec found` only if no
variant of the manifest satisfies the active mode's acceptance predicate, and it returns
no URL when none satisfies it. When the label of every variant is readable by the branch
of the active mode (the number it parses is a number, the fields it indexes exist),
`no codec found` is returned if and only if no variant satisfies the predicate; and when,
in addition, some variant satisfies it and the URIs of the accepted variants resolve, a
URL is returned. -/
theorem extractMedia_noCodec (sortSlice : List Variant → List Variant)
    (parseRef : String → Option String) (cfg : ConfigSet) (fl : Flags)
    (master : List Variant) (more_mode : Bool)
    (hsort : SortSliceSpec sortSlice)
    (henum : ¬ (fl.debug_mode = true ∧ more_mode = true)) :
    (extractMedia sortSlice parseRef cfg fl (.ok master) more_mode = .error .noCodecFound →
      ∀ v ∈ master, ¬ accepts cfg fl v) ∧
    ((∀ v ∈ master, ¬ accepts cfg fl v) →
      ∀ u q, extractMedia sortSlice parseRef cfg fl (.ok master) more_mode ≠ .ok u q) ∧
    ((∀ v ∈ master, labelReadable cfg fl v) →
      (extractMedia sortSlice parseRef cfg fl (.ok master) more_mode = .error .noCodecFound ↔
        ∀ v ∈ master, ¬ accepts cfg fl v)) ∧
    ((∀ v ∈ master, labelReadable cfg fl v) →
      (∀ v ∈ master, accepts cfg fl v → parseRef v.URI ≠ none) →
      (∃ v ∈ master, accepts cfg fl v) →
      ∃ u q, extractMedia sortSlice parseRef cfg fl (.ok master) more_mode = .ok u q) := by
  have hsub : ∀ w, w ∈ sortSlice master ↔ w ∈ master := fun w => (hsort.perm master).mem_iff
  have h1 : extractMedia sortSlice parseRef cfg fl (.ok master) more_mode =
      .error .noCodecFound → ∀ v ∈ master, ¬ accepts cfg fl v := by
    intro h v hv
    exact scan_single_exhausted
      (scan_exhausted_iff.mp ((noCodecFound_iff_exhausted henum).mp h) v ((hsub v).mpr hv))
  refine ⟨h1, ?_, ?_, ?_⟩
  · intro hn u q h
    obtain ⟨v, _, _, hmem, -, -, -, hacc, -, -⟩ := selectedVariant_of_ok hsort henum h
    exact hn v hmem hacc
  · intro hr
    refine ⟨h1, fun hn => ?_⟩
    rw [noCodecFound_iff_exhausted henum]
    exact scan_exhausted_of_none (fun w hw => hr w ((hsub w).mp hw))
      (fun w hw => hn w ((hsub w).mp hw))
  · intro hr hu he
    obtain ⟨w, hw, hacc⟩ := he
    obtain ⟨v, u, q, hv⟩ := scan_chosen_of_some (fun w hw => hr w ((hsub w).mp hw))
      (fun w hw => hu w ((hsub w).mp hw)) ⟨w, (hsub w).mpr hw, hacc⟩
    exact ⟨u, q, (extractMedia_ok_iff henum).mpr ⟨v, hv⟩⟩

/-- Witness for C7 (amended): an ATMOS request on an ALAC-only manifest ends in
`no codec found`. -/
theorem extractMedia_noCodec_witness :
    SortSliceSpec stableSortSlice ∧
    extractMedia stableSortSlice sampleParseRef scenarioConfig atmosFlags
      (.ok scenarioManifestRateFirst) false = .error .noCodecFound ∧
    ∀ v ∈ scenarioManifestRateFirst, ¬ accepts scenarioConfig atmosFlags v :=
  ⟨stableSortSlice_spec, by decide,
    (extractMedia_noCodec stableSortSlice sampleParseRef scenarioConfig atmosFlags
      scenarioManifestRateFirst false stableSortSlice_spec (by decide)).1 (by decide)⟩

/-! ## Interactive selection: the code against the specification's rule -/

theorem parseDigits_all_digits {cs : List Char} {acc n : Nat}
    (h : parseDigits cs acc = some n) : ∀ c ∈ cs, c.isDigit = true := by
  induction cs generalizing acc with
  | nil => simp
  | cons c cs ih =>
    unfold parseDigits at h
    split at h
    · rename_i hc
      intro d hd
      rcases List.mem_cons.mp hd with rfl | hd
      · exact hc
      · exact ih h d hd
    · cases h

theorem atoiDigits_some {neg : Bool} {r : List Char} {k : Int}
    (h : atoiDigits neg r = some k) :
    (neg = true → k ≤ 0) ∧ ∀ c ∈ r, c.isDigit = true := by
  unfold atoiDigits at h
  by_cases hr : r.isEmpty = true
  · rw [if_pos hr] at h; cases h
  · rw [if_neg hr] at h
    cases hn : parseDigits r 0 with
    | none => rw [hn] at h; cases h
    | some n =>
      rw [hn] at h
      refine ⟨fun hneg => ?_, parseDigits_all_digits hn⟩
      subst hneg
      simp only [if_true] at h
      by_cases hrange : -(2 ^ 63 : Int) ≤ -(n : Int) ∧ -(n : Int) ≤ 2 ^ 63 - 1
      · rw [if_pos hrange] at h
        simp only [Option.some.injEq] at h
        omega
      · rw [if_neg hrange] at h; cases h

/-- `strconv.Atoi` accepts a `-` only as the leading sign: a parsed text that contains
`-` is not positive. -/
theorem Atoi_nonpos_of_dash {s : String} {k : Int} (h : Atoi s = some k)
    (hd : '-' ∈ s.toList) : k ≤ 0 := by
  unfold Atoi at h
  split at h
  · exact (atoiDigits_some h).1 rfl
  · rename_i r heq
    have h2 := (atoiDigits_some h).2
    rw [heq] at hd
    rcases List.mem_cons.mp hd with h3 | h3
    · exact absurd h3 (by decide)
    · exact absurd (h2 _ h3) (by decide)
  · have h3 := (atoiDigits_some h).2 _ hd
    exact absurd h3 (by decide)

theorem containsChars_dash (cs : List Char) :
    containsChars ['-'] cs = true ↔ '-' ∈ cs := by
  induction cs with
  | nil => simp [containsChars]
  | cons c cs ih =>
    simp only [containsChars, Bool.or_eq_true, ih, List.mem_cons]
    constructor
    · rintro (h | h)
      · left
        simp only [List.isPrefixOf, Bool.and_eq_true, beq_iff_eq] at h
        exact h.1
      · exact Or.inr h
    · rintro (h | h)
      · left
        subst h
        simp [List.isPrefixOf]
      · exact Or.inr h

theorem Contains_dash (s : String) : Contains s "-" = true ↔ '-' ∈ s.toList := by
  unfold Contains
  exact containsChars_dash s.toList

theorem dashCuts_nil_of_not_mem {cs : List Char} (h : '-' ∉ cs) : dashCuts cs = [] := by
  induction cs with
  | nil => rfl
  | cons c cs ih =>
    have hc : c ≠ '-' := fun e => h (by simp [e])
    have hcs : '-' ∉ cs := fun e => h (by simp [e])
    simp [dashCuts, hc, ih hcs]

theorem splitChars_length (cs : List Char) :
    (splitChars '-' cs).length = cs.count '-' + 1 := by
  induction cs with
  | nil => simp [splitChars]
  | cons c cs ih =>
    unfold splitChars
    by_cases hc : c = '-'
    · subst hc
      simp [ih]
    · rw [if_neg hc]
      have : (c == '-') = false := by simpa using hc
      rw [List.count_cons, this]
      cases hs : splitChars '-' cs with
      | nil => exact absurd hs (splitChars_ne_nil _ _)
      | cons h t => rw [hs] at ih; simpa using ih

theorem dashCuts_count {cs : List Char} :
    ∀ p ∈ dashCuts cs, p.1.count '-' + p.2.count '-' + 1 = cs.count '-' := by
  induction cs with
  | nil => simp [dashCuts]
  | cons c cs ih =>
    intro p hp
    unfold dashCuts at hp
    rcases List.mem_append.mp hp with h | h
    · by_cases hc : c = '-'
      · subst hc
        simp only [if_true, List.mem_singleton] at h
        subst h
        simp
      · simp [hc] at h
    · obtain ⟨q, hq, rfl⟩ := List.mem_map.mp h
      have := ih q hq
      simp only [List.count_cons]
      omega

theorem splitChars_single {cs a : List Char} (h : splitChars '-' cs = [a]) :
    a = cs ∧ '-' ∉ cs := by
  have hl := splitChars_length cs
  rw [h] at hl
  simp only [List.length_singleton] at hl
  have h0 : cs.count '-' = 0 := by omega
  have hn : '-' ∉ cs := List.count_eq_zero.mp h0
  refine ⟨?_, hn⟩
  clear hl h0
  induction cs generalizing a with
  | nil => simpa [splitChars] using h.symm
  | cons c cs ih =>
    have hc : c ≠ '-' := fun e => hn (by simp [e])
    have hcs : '-' ∉ cs := fun e => hn (by simp [e])
    unfold splitChars at h
    rw [if_neg hc] at h
    cases hs : splitChars '-' cs with
    | nil => exact absurd hs (splitChars_ne_nil _ _)
    | cons x t =>
      rw [hs] at h
      simp only [List.cons.injEq] at h
      obtain ⟨h1, h2⟩ := h
      subst h2
      rw [← h1, ih hs hcs]

/-- A text with exactly one `-` has exactly one cut, the two pieces of the split. -/
theorem dashCuts_of_split_pair {cs a b : List Char} (h : splitChars '-' cs = [a, b]) :
    dashCuts cs = [(a, b)] := by
  induction cs generalizing a with
  | nil => simp [splitChars] at h
  | cons c cs ih =>
    unfold splitChars at h
    by_cases hc : c = '-'
    · subst hc
      simp only [if_true, List.cons.injEq] at h
      obtain ⟨h1, h2⟩ := h
      obtain ⟨h3, h4⟩ := splitChars_single h2
      subst h1 h3
      simp [dashCuts, dashCuts_nil_of_not_mem h4]
    · rw [if_neg hc] at h
      cases hs : splitChars '-' cs with
      | nil => exact absurd hs (splitChars_ne_nil _ _)
      | cons x t =>
        rw [hs] at h
        simp only [List.cons.injEq] at h
        obtain ⟨h1, h2⟩ := h
        subst h2 h1
        simp [dashCuts, hc, ih hs]

theorem rangeOfCut_none_of_dash {n : Nat} {p : List Char × List Char}
    (h : '-' ∈ p.1 ∨ '-' ∈ p.2) : rangeOfCut n p = none := by
  unfold rangeOfCut
  cases ha : Atoi (String.mk p.1) with
  | none => rfl
  | some a =>
    cases hb : Atoi (String.mk p.2) with
    | none => rfl
    | some b =>
      simp only
      rw [if_neg]
      rintro ⟨h1, h2, -⟩
      rcases h with h | h
      · have := Atoi_nonpos_of_dash ha h
        omega
      · have := Atoi_nonpos_of_dash hb h
        omega

/-- The code's treatment of one token is the rule of the specification. -/
theorem tokenIndices_eq_spec (n : Nat) (token : String) :
    tokenIndices n token = tokenIndicesSpec n token := by
  unfold tokenIndices tokenIndicesSpec
  by_cases hd : '-' ∈ token.toList
  · rw [if_pos ((Contains_dash token).mpr hd)]
    have hsingle : singleIndex? n token = none := by
      unfold singleIndex?
      cases hA : Atoi token with
      | none => rfl
      | some k =>
        have := Atoi_nonpos_of_dash hA hd
        simp only
        rw [if_neg]
        omega
    rw [hsingle]
    simp only
    unfold Split
    have hlen := splitChars_length token.toList
    have hcount : 0 < token.toList.count '-' := List.count_pos_iff.mpr hd
    cases hs : splitChars '-' token.toList with
    | nil => exact absurd hs (splitChars_ne_nil _ _)
    | cons a t1 =>
      cases t1 with
      | nil => rw [hs] at hlen; simp only [List.length_singleton] at hlen; omega
      | cons b t2 =>
        cases t2 with
        | nil =>
          rw [dashCuts_of_split_pair hs]
          simp only [List.map, selectOption, List.findSome?, rangeOfCut]
          cases Atoi (String.mk a) with
          | none => rfl
          | some x =>
            cases Atoi (String.mk b) with
            | none => rfl
            | some y =>
              simp only
              by_cases hc : x < 1 ∨ y > (n : Int) ∨ x > y
              · rw [if_pos hc, if_neg (by omega)]
              · rw [if_neg hc, if_pos (by omega)]
                simp
        | cons c t3 =>
          have hnone : (dashCuts token.toList).findSome? (rangeOfCut n) = none := by
            rw [List.findSome?_eq_none_iff]
            intro p hp
            apply rangeOfCut_none_of_dash
            have h1 := dashCuts_count p hp
            rw [hs] at hlen
            simp only [List.length_cons] at hlen
            by_contra hcon
            rw [not_or] at hcon
            have h2 : p.1.count '-' = 0 := List.count_eq_zero.mpr hcon.1
            have h3 : p.2.count '-' = 0 := List.count_eq_zero.mpr hcon.2
            omega
          rw [hnone]
          simp [selectOption]
  · rw [if_neg (fun h => hd ((Contains_dash token).mp h))]
    rw [dashCuts_nil_of_not_mem hd]
    simp only [selectOption, singleIndex?, List.findSome?]
    cases Atoi token with
    | none => rfl
    | some k =>
      simp only
      by_cases hc : k > 0 ∧ k ≤ (n : Int)
      · rw [if_pos hc, if_pos (by omega)]
        simp
      · rw [if_neg hc, if_neg (by omega)]

theorem selectOption_append (n : Nat) (selected : List Int) (opt : List String) :
    selectOption n selected opt = selected ++ selectOption n [] opt := by
  unfold selectOption
  repeat' split
  all_goals simp_all

theorem foldl_selectOption (n : Nat) (opts : List (List String)) (selected : List Int) :
    opts.foldl (selectOption n) selected = selected ++ opts.flatMap (selectOption n []) := by
  induction opts generalizing selected with
  | nil => simp
  | cons o os ih =>
    rw [List.foldl_cons, ih, selectOption_append, List.flatMap_cons, List.append_assoc]

/-- Without the `all` shortcut, `selected` is the concatenation of the tokens' contributions. -/
theorem ripSelected_eq_flatMap (n : Nat) (input : String) (h : TrimSpace input ≠ "all") :
    ripSelected n input = (Split (TrimSpace input) ',').flatMap (tokenIndicesSpec n) := by
  unfold ripSelected
  simp only [h, if_false]
  rw [foldl_selectOption, List.nil_append]
  unfold selectedOptions
  rw [List.flatMap_map]
  congr 1
  funext part
  exact tokenIndices_eq_spec n part

/-- The cuts of a text are exactly its decompositions `a ++ "-" ++ b`. -/
theorem mem_dashCuts {cs : List Char} {p : List Char × List Char} :
    p ∈ dashCuts cs ↔ cs = p.1 ++ '-' :: p.2 := by
  induction cs generalizing p with
  | nil => simp [dashCuts]
  | cons c cs ih =>
    unfold dashCuts
    rw [List.mem_append, List.mem_map]
    constructor
    · rintro (h | ⟨q, hq, rfl⟩)
      · by_cases hc : c = '-'
        · subst hc
          simp only [if_true, List.mem_singleton] at h
          subst h
          rfl
        · simp [hc] at h
      · simp [ih.mp hq]
    · intro h
      obtain ⟨a, b⟩ := p
      cases a with
      | nil =>
        simp only [List.nil_append, List.cons.injEq] at h
        left
        simp [h.1, h.2]
      | cons x a =>
        simp only [List.cons_append, List.cons.injEq] at h
        right
        exact ⟨(a, b), ih.mpr h.2, by simp [h.1]⟩

/-- C8 as stated fails: the input `all` is one token that is neither an integer nor a
range `a-b`, so the stated rule yields nothing for it, but `rip` selects every track. -/
theorem ripSelected_all_counterexample :
    ripSelected 3 "all" = [1, 2, 3] ∧
    Atoi "all" = none ∧ dashCuts "all".toList = [] ∧
    (Split (TrimSpace "all") ',').flatMap (tokenIndicesSpec 3) = [] := by
  decide

/-- C8 (amended): for every list size `n` and every input line that is not `all` after
trimming, the interactive track selection in `rip` yields the concatenation, in token
order, over the comma-separated tokens, of `[k]` for a token that is an integer `k` with
`1 ≤ k ≤ n`, `[a..b]` for a token `a-b` with `1 ≤ a ≤ b ≤ n`, and nothing for any other
token, so a bad token never suppresses the tokens after it; the line `all` selects every
track `1..n`; in particular `2,4-6,9` over 10 items yields `[2,4,5,6,9]` and the tokens
`0` and `11` contribute nothing. -/
theorem ripSelected_tokens (n : Nat) (input : String) :
    (TrimSpace input ≠ "all" →
      ripSelected n input = (Split (TrimSpace input) ',').flatMap (tokenIndicesSpec n)) ∧
    (TrimSpace input = "all" → ripSelected n input = arr n) ∧
    ripSelected 10 "2,4-6,9" = [2, 4, 5, 6, 9] ∧
    ripSelected 10 "0,2,4-6,11,9" = [2, 4, 5, 6, 9] ∧
    tokenIndicesSpec 10 "0" = [] ∧ tokenIndicesSpec 10 "11" = [] := by
  refine ⟨ripSelected_eq_flatMap n input, ?_, by decide, by decide, by decide, by decide⟩
  intro h
  simp [ripSelected, h]

/-- Witness for C8 (amended): the line `2,x,4-6,9` with a bad token in the middle. -/
theorem ripSelected_tokens_witness :
    TrimSpace "2,x,4-6,9\n" ≠ "all" ∧
    ripSelected 10 "2,x,4-6,9\n" =
      (Split (TrimSpace "2,x,4-6,9\n") ',').flatMap (tokenIndicesSpec 10) ∧
    ripSelected 10 "2,x,4-6,9\n" = [2, 4, 5, 6, 9] :=
  ⟨by decide, (ripSelected_tokens 10 "2,x,4-6,9\n").1 (by decide), by decide⟩

/-! ## Track file names -/

set_option maxRecDepth 100000 in
/-- C9 as stated fails: with a template whose literal text is long, the rendered name
exceeds `maxNameLength`, it is replaced by the ID-based fallback, and the fallback itself
is 104 bytes long, over the ceiling of 100. -/
theorem filename_fallback_counterexample :
    filename longTemplateConfig sampleTrack 1 "" "ALAC" =
      some (fallbackFilename longTemplateConfig sampleTrack 1) ∧
    (fallbackFilename longTemplateConfig sampleTrack 1).utf8ByteSize = 104 ∧
    maxNameLength < (fallbackFilename longTemplateConfig sampleTrack 1).utf8ByteSize := by
  decide

/-- C9 (amended): for every track, file-name template and configuration, a rendered track
file name longer than `maxNameLength` (100 bytes, extension included) is replaced by the
ID-based fallback, the same template rendered with the track ID as song name and the
other descriptive fields blank; so the file name `downloadTrack` uses is within the
ceiling or is the fallback name, and it is within the ceiling whenever the fallback name
is. The fallback is not shortened. -/
theorem filename_within_ceiling_or_fallback (cfg : ConfigSet) (track : TrackData)
    (trackNum : Int) (Quality Codec name : String)
    (h : filename cfg track trackNum Quality Codec = some name) :
    (name.utf8ByteSize ≤ maxNameLength ∨ name = fallbackFilename cfg track trackNum) ∧
    (∀ rendered, songName cfg track trackNum Quality Codec = some rendered →
      maxNameLength < (forbiddenNamesReplaceAll rendered ++ ".m4a").utf8ByteSize →
      name = fallbackFilename cfg track trackNum) ∧
    (∀ rendered, songName cfg track trackNum Quality Codec = some rendered →
      (forbiddenNamesReplaceAll rendered ++ ".m4a").utf8ByteSize ≤ maxNameLength →
      name = forbiddenNamesReplaceAll rendered ++ ".m4a") ∧
    ((fallbackFilename cfg track trackNum).utf8ByteSize ≤ maxNameLength →
      name.utf8ByteSize ≤ maxNameLength) := by
  unfold filename at h
  cases hs : songName cfg track trackNum Quality Codec with
  | none => rw [hs] at h; cases h
  | some rendered =>
    rw [hs] at h
    simp only at h
    by_cases hlen : (forbiddenNamesReplaceAll rendered ++ ".m4a").utf8ByteSize > maxNameLength
    · rw [if_pos hlen] at h
      simp only [Option.some.injEq] at h
      subst h
      refine ⟨Or.inr rfl, fun _ _ _ => rfl, ?_, fun hf => hf⟩
      intro r hr hle
      simp only [Option.some.injEq] at hr
      subst hr
      omega
    · rw [if_neg hlen] at h
      simp only [Option.some.injEq] at h
      subst h
      refine ⟨Or.inl (by omega), ?_, ?_, fun _ => by omega⟩
      · intro r hr hgt
        simp only [Option.some.injEq] at hr
        subst hr
        omega
      · intro r hr _
        simp only [Option.some.injEq] at hr
        subst hr
        rfl

set_option maxRecDepth 100000 in
/-- Witness for C9 (amended): a long title under the default template is replaced by the
fallback `01. 1440857781.m4a`. -/
theorem filename_within_ceiling_or_fallback_witness :
    filename {} longNameTrack 1 "" "ALAC" = some "01. 1440857781.m4a" ∧
    ("01. 1440857781.m4a".utf8ByteSize ≤ maxNameLength ∨
      "01. 1440857781.m4a" = fallbackFilename {} longNameTrack 1) :=
  ⟨by decide,
    (filename_within_ceiling_or_fallback {} longNameTrack 1 "" "ALAC" "01. 1440857781.m4a"
      (by decide)).1⟩

/-! ## The completion ledger and the track loop of `rip` -/

theorem countLedgerHit_okDict (st : RunState) : (countLedgerHit st).okDict = st.okDict := rfl

/-- The all/interactive loop of `rip` never calls `downloadTrack` for an ordinal that the
ledger listed when the loop started, provided calls of `downloadTrack` keep the ledger
entries of the album. -/
theorem ripTrackLoop_skips_ledger (downloadTrack : Int → TrackData → RunState → RunState)
    (albumId : String) (selected ledger0 : List Int)
    (hmono : ∀ n t s k, isInArray (okDictGet s.okDict albumId) k = true →
      isInArray (okDictGet (downloadTrack n t s).okDict albumId) k = true)
    (tracks : List TrackData) (trackNum : Int) (st : RunState) (calls : List Int)
    (hled : ∀ k, isInArray ledger0 k = true → isInArray (okDictGet st.okDict albumId) k = true)
    (hcalls : ∀ k ∈ calls, isInArray ledger0 k = false) :
    ∀ k ∈ (ripTrackLoop downloadTrack albumId selected trackNum tracks (st, calls)).2,
      isInArray ledger0 k = false := by
  induction tracks generalizing trackNum st calls with
  | nil => simpa [ripTrackLoop] using hcalls
  | cons track rest ih =>
    unfold ripTrackLoop
    by_cases h1 : isInArray (okDictGet st.okDict albumId) trackNum = true
    · rw [if_pos h1]
      exact ih (trackNum + 1) (countLedgerHit st) calls hled hcalls
    · rw [if_neg h1]
      by_cases h2 : isInArray selected trackNum = true
      · rw [if_pos h2]
        apply ih (trackNum + 1) _ _ (fun k hk => hmono _ _ _ _ (hled k hk))
        intro k hk
        rcases List.mem_append.mp hk with hk | hk
        · exact hcalls k hk
        · simp only [List.mem_singleton] at hk
          subst hk
          cases hc : isInArray ledger0 k with
          | false => rfl
          | true => exact absurd (hled k hc) h1
      · rw [if_neg h2]
        exact ih (trackNum + 1) st calls hled hcalls

/-- C10, the failing case: in single-track mode (`dl_song`) `rip` calls `downloadTrack`
for the track whose ID equals the URL's `i` parameter although the ledger already lists
its ordinal for the album; the state is whatever `downloadTrack` leaves, not the
ledger-hit count of one Total and one Success. -/
theorem ripTracks_single_track_ignores_ledger
    (downloadTrack : Int → TrackData → RunState → RunState) :
    isInArray (okDictGet ledgerState.okDict "a1") 1 = true ∧
    ripTracks downloadTrack { dl_song := true } "a1" "1440857781" "" [sampleTrack] ledgerState =
      (downloadTrack 1 sampleTrack ledgerState, [1]) ∧
    ripTracks downloadTrack {} "a1" "" "" [sampleTrack] ledgerState =
      (countLedgerHit ledgerState, []) := by
  refine ⟨by decide, ?_, ?_⟩
  · have h : findTrack "1440857781" 1 [sampleTrack] = some (1, sampleTrack) := by decide
    have h2 : ("1440857781" : String) ≠ "" := by decide
    simp only [ripTracks, h, if_true, if_neg h2]
  · have h : isInArray (okDictGet ledgerState.okDict "a1") 1 = true := by decide
    simp [ripTracks, ripTrackLoop, h]

/-- The same ledger in all-tracks mode: ordinal 1 is counted without a call and only
ordinal 2 reaches `downloadTrack`. -/
theorem ripTracks_all_mode_example :
    ripTracks sampleDownloadTrack {} "a1" "" "" [sampleTrack, sampleTrack] ledgerState =
      ({ counter := { Success := 2, Total := 2 }, okDict := [("a1", [1, 2])] }, [2]) := by
  decide

/-! ## URL shapes -/

theorem afterLit_eq {lit s r : List Char} (h : afterLit lit s = some r) : s = lit ++ r := by
  induction lit generalizing s with
  | nil => simpa [afterLit] using h
  | cons a lit ih =>
    cases s with
    | nil => simp [afterLit] at h
    | cons c s =>
      unfold afterLit at h
      by_cases hac : a = c
      · rw [if_pos hac] at h
        rw [hac, ih h]
        rfl
      · rw [if_neg hac] at h
        cases h

theorem matchStorefront_some {s sf r : List Char} (h : matchStorefront s = some (sf, r)) :
    sf.length = 2 ∧ ∃ pre, s = pre ++ sf ++ r := by
  unfold matchStorefront at h
  cases h1 : afterLit "https://".toList s with
  | none => rw [h1] at h; cases h
  | some r1 =>
    rw [h1] at h
    simp only at h
    have e1 := afterLit_eq h1
    have key : ∀ r2, afterLit ".apple.com/".toList r2 = none ∨
        ∃ r3, afterLit ".apple.com/".toList r2 = some r3 ∧ r2 = ".apple.com/".toList ++ r3 := by
      intro r2
      cases h3 : afterLit ".apple.com/".toList r2 with
      | none => exact Or.inl rfl
      | some r3 => exact Or.inr ⟨r3, rfl, afterLit_eq h3⟩
    have fin : ∀ r2 (pre2 : List Char), s = pre2 ++ r2 →
        (match afterLit ".apple.com/".toList r2 with
          | some (a :: b :: r3) =>
            if isWordChar a = true ∧ isWordChar b = true then some ([a, b], r3) else none
          | _ => none) = some (sf, r) → sf.length = 2 ∧ ∃ pre, s = pre ++ sf ++ r := by
      intro r2 pre2 hs hm
      rcases key r2 with h3 | ⟨r3, h3, e3⟩
      · rw [h3] at hm; cases hm
      · rw [h3] at hm
        match r3, hm with
        | a :: b :: r4, hm =>
          simp only at hm
          split at hm
          · simp only [Option.some.injEq, Prod.mk.injEq] at hm
            obtain ⟨hsf, hr⟩ := hm
            subst hsf hr
            exact ⟨rfl, pre2 ++ ".apple.com/".toList, by rw [hs, e3]; simp⟩
          · cases hm
    cases h2 : afterLit "beta.music".toList r1 with
    | some r2 =>
      rw [h2] at h
      simp only at h
      exact fin r2 ("https://".toList ++ "beta.music".toList)
        (by rw [e1, afterLit_eq h2]; simp) h
    | none =>
      rw [h2] at h
      simp only at h
      cases h2b : afterLit "music".toList r1 with
      | none => rw [h2b] at h; cases h
      | some r2 =>
        rw [h2b] at h
        simp only at h
        exact fin r2 ("https://".toList ++ "music".toList)
          (by rw [e1, afterLit_eq h2b]; simp) h

theorem afterOptionalId_suffix (r : List Char) : afterOptionalId r <:+ r := by
  unfold afterOptionalId
  split
  · exact ⟨['i', 'd'], rfl⟩
  · exact List.suffix_refl _

theorem matchNumericId_some {s d : List Char} (h : matchNumericId s = some d) :
    2 ≤ d.length ∧ (∀ c ∈ d, c.isDigit = true) ∧ d <:+: s := by
  unfold matchNumericId at h
  split at h
  · rename_i r
    simp only at h
    split at h
    · rename_i hc
      simp only [Option.some.injEq] at h
      subst h
      refine ⟨hc.1, fun c hc => List.mem_takeWhile_imp hc, ?_⟩
      have h1 : (afterOptionalId r).takeWhile Char.isDigit <:+: afterOptionalId r :=
        (List.takeWhile_prefix _).isInfix
      have h2 : afterOptionalId r <:+: '/' :: r :=
        ((afterOptionalId_suffix r).trans (List.suffix_cons _ _)).isInfix
      exact h1.trans h2
    · cases h
  · cases h

theorem matchPlaylistId_some {s d : List Char} (h : matchPlaylistId s = some d) :
    "pl.".toList <+: d ∧ d <:+: s := by
  unfold matchPlaylistId at h
  split at h
  · rename_i r
    cases h3 : afterLit "pl.".toList (afterOptionalId r) with
    | none => rw [h3] at h; cases h
    | some r3 =>
      rw [h3] at h
      simp only at h
      split at h
      · simp only [Option.some.injEq] at h
        subst h
        refine ⟨List.prefix_append _ _, ?_⟩
        have e3 := afterLit_eq h3
        have h1 : "pl.".toList ++ r3.takeWhile (fun c => isWordChar c || c = '-') <+:
            afterOptionalId r := by
          rw [e3]
          exact (List.prefix_append_right_inj _).mpr (List.takeWhile_prefix _)
        exact h1.isInfix.trans
          ((afterOptionalId_suffix r).trans (List.suffix_cons _ _)).isInfix
      · cases h
  · cases h

theorem dotStar_some {α : Type} {tail : List Char → Option α} {s : List Char} {d : α}
    (h : dotStar tail s = some d) : ∃ t, t <:+ s ∧ tail t = some d := by
  induction s with
  | nil => exact ⟨[], List.suffix_refl _, by simpa [dotStar] using h⟩
  | cons c cs ih =>
    unfold dotStar at h
    split at h
    · exact ⟨c :: cs, List.suffix_refl _, h⟩
    · cases h2 : dotStar tail cs with
      | some r =>
        rw [h2] at h
        simp only [Option.some.injEq] at h
        subst h
        obtain ⟨t, ht, htail⟩ := ih h2
        exact ⟨t, ht.trans (List.suffix_cons _ _), htail⟩
      | none =>
        rw [h2] at h
        exact ⟨c :: cs, List.suffix_refl _, h⟩

theorem matchKind_some {kind : String} {tail : List Char → Option (List Char)}
    {s d : List Char} (h : matchKind kind tail s = some d) :
    ∃ t, t <:+ s ∧ tail t = some d := by
  unfold matchKind at h
  have alt2 : (match afterLit ("/" ++ kind ++ "/").toList s with
      | some r => dotPlus tail r
      | none => none) = some d → ∃ t, t <:+ s ∧ tail t = some d := by
    intro h2
    cases h3 : afterLit ("/" ++ kind ++ "/").toList s with
    | none => rw [h3] at h2; cases h2
    | some r =>
      rw [h3] at h2
      simp only at h2
      have e3 := afterLit_eq h3
      cases r with
      | nil => simp [dotPlus] at h2
      | cons c cs =>
        simp only [dotPlus] at h2
        by_cases hnl : c = '\n'
        · rw [if_pos hnl] at h2; cases h2
        · rw [if_neg hnl] at h2
          obtain ⟨t, ht, htail⟩ := dotStar_some h2
          refine ⟨t, ?_, htail⟩
          rw [e3]
          exact (ht.trans (List.suffix_cons _ _)).trans (List.suffix_append _ _)
  cases h1 : afterLit ("/" ++ kind).toList s with
  | none =>
    rw [h1] at h
    exact alt2 h
  | some r =>
    rw [h1] at h
    simp only at h
    cases h2 : tail r with
    | some id =>
      rw [h2] at h
      simp only [Option.some.injEq] at h
      subst h
      exact ⟨r, by rw [afterLit_eq h1]; exact List.suffix_append _ _, h2⟩
    | none =>
      rw [h2] at h
      exact alt2 h

/-- A result of `checkUrlWith` other than two empty strings: a two-character storefront
from the URL and an id that `tail` captured in the URL. -/
theorem checkUrlWith_cases (kind : String) (tail : List Char → Option (List Char))
    (url : String) :
    checkUrlWith kind tail url = ("", "") ∨
    ∃ sf id t, checkUrlWith kind tail url = (String.mk sf, String.mk id) ∧ sf.length = 2 ∧
      sf <:+: url.toList ∧ t <:+ url.toList ∧ tail t = some id := by
  unfold checkUrlWith
  cases h1 : matchStorefront url.toList with
  | none => exact Or.inl rfl
  | some p =>
    obtain ⟨sf, r⟩ := p
    simp only
    cases h2 : matchKind kind tail r with
    | none => exact Or.inl rfl
    | some id =>
      right
      obtain ⟨hlen, pre, hs⟩ := matchStorefront_some h1
      obtain ⟨t, ht, htail⟩ := matchKind_some h2
      refine ⟨sf, id, t, rfl, hlen, ⟨pre, r, hs.symm⟩, ?_, htail⟩
      rw [hs]
      exact ht.trans (List.suffix_append _ _)

theorem checkUrlWith_numeric (kind : String) (url : String) :
    NumericResult url (checkUrlWith kind matchNumericId url) := by
  rcases checkUrlWith_cases kind matchNumericId url with h | ⟨sf, id, t, h, hlen, hsf, ht, htail⟩
  · exact Or.inl h
  · right
    obtain ⟨h2, hdig, hin⟩ := matchNumericId_some htail
    rw [h]
    refine ⟨hlen, ?_, hdig, hsf, hin.trans ht.isInfix⟩
    intro hc
    have : id = [] := by simpa using congrArg String.toList hc
    rw [this] at h2
    simp at h2

theorem checkUrlWith_playlist (url : String) :
    PlaylistResult url (checkUrlWith "playlist" matchPlaylistId url) := by
  rcases checkUrlWith_cases "playlist" matchPlaylistId url with
    h | ⟨sf, id, t, h, hlen, hsf, ht, htail⟩
  · exact Or.inl h
  · right
    obtain ⟨hpl, hin⟩ := matchPlaylistId_some htail
    rw [h]
    refine ⟨hlen, ?_, hpl, hsf, hin.trans ht.isInfix⟩
    intro hc
    have : id = [] := by simpa using congrArg String.toList hc
    rw [this] at hpl
    simp at hpl

/-- C16: for every input string, each of `checkUrl`, `checkUrlSong`, `checkUrlMv`,
`checkUrlArtist` and `checkUrlPlaylist` returns either two empty strings or a storefront
of exactly two characters together with a non-empty entity id, both occurring in the
URL; the id consists only of decimal digits for album, song, music-video and artist URLs
and begins with `pl.` for playlist URLs. -/
theorem checkUrl_result_shape (url : String) :
    NumericResult url (checkUrl url) ∧ NumericResult url (checkUrlSong url) ∧
    NumericResult url (checkUrlMv url) ∧ NumericResult url (checkUrlArtist url) ∧
    PlaylistResult url (checkUrlPlaylist url) :=
  ⟨checkUrlWith_numeric "album" url, checkUrlWith_numeric "song" url,
    checkUrlWith_numeric "music-video" url, checkUrlWith_numeric "artist" url,
    checkUrlWith_playlist url⟩

/-! ## `extractVideo` -/

/-- One step of the loop of `extractVideo`: it stops at a qualifying variant. -/
theorem scanVideo_cons (parseRef : String → Option String) (cfg : ConfigSet) (v : Variant)
    (rest : List Variant) :
    scanVideo parseRef cfg (v :: rest) =
      if videoQualifies cfg v then
        (match parseRef v.URI with
         | none => .failed (.urlParse v.URI)
         | some streamUrl => .chosen v streamUrl)
      else scanVideo parseRef cfg rest := by
  rw [scanVideo]
  split
  · rename_i groups h1
    split
    · rename_i h2
      have hv : ¬ videoQualifies cfg v := by
        unfold videoQualifies videoHeight?
        rw [h1]
        simp [h2, withinCeiling]
      rw [if_neg hv]
    · rename_i h h2
      have hv : videoQualifies cfg v ↔ h ≤ cfg.MVMax := by
        unfold videoQualifies videoHeight?
        rw [h1]
        simp [h2, withinCeiling]
      by_cases hle : h ≤ cfg.MVMax
      · rw [if_pos hle, if_pos (hv.mpr hle)]
      · rw [if_neg hle, if_neg (fun c => hle (hv.mp c))]
  · rename_i h1
    have hv : ¬ videoQualifies cfg v := by
      unfold videoQualifies videoHeight?
      rw [h1]
      simp [withinCeiling]
    rw [if_neg hv]

theorem scanVideo_exhausted_iff {parseRef : String → Option String} {cfg : ConfigSet}
    {l : List Variant} :
    scanVideo parseRef cfg l = .exhausted ↔ ∀ w ∈ l, ¬ videoQualifies cfg w := by
  induction l with
  | nil => simp [scanVideo]
  | cons a l ih =>
    rw [scanVideo_cons]
    by_cases ha : videoQualifies cfg a
    · rw [if_pos ha]
      constructor
      · intro h
        cases hp : parseRef a.URI <;> rw [hp] at h <;> cases h
      · intro h
        exact absurd ha (h a (by simp))
    · rw [if_neg ha, ih]
      simp [ha]

theorem scanVideo_chosen_iff {parseRef : String → Option String} {cfg : ConfigSet}
    {l : List Variant} {v : Variant} {u : String} :
    scanVideo parseRef cfg l = .chosen v u ↔
      ∃ pre post, l = pre ++ v :: post ∧ (∀ w ∈ pre, ¬ videoQualifies cfg w) ∧
        videoQualifies cfg v ∧ parseRef v.URI = some u := by
  induction l with
  | nil => simp [scanVideo]
  | cons a l ih =>
    rw [scanVideo_cons]
    by_cases ha : videoQualifies cfg a
    · rw [if_pos ha]
      constructor
      · intro h
        cases hp : parseRef a.URI with
        | none => rw [hp] at h; cases h
        | some s =>
          rw [hp] at h
          simp only [VideoScan.chosen.injEq] at h
          obtain ⟨h1, h2⟩ := h
          subst h1 h2
          exact ⟨[], l, rfl, by simp, ha, hp⟩
      · rintro ⟨pre, post, hl, hpre, hv, hu⟩
        cases pre with
        | nil =>
          simp only [List.nil_append, List.cons.injEq] at hl
          obtain ⟨h1, -⟩ := hl
          subst h1
          rw [hu]
        | cons b pre =>
          simp only [List.cons_append, List.cons.injEq] at hl
          obtain ⟨h1, -⟩ := hl
          subst h1
          exact absurd ha (hpre a (by simp))
    · rw [if_neg ha, ih]
      constructor
      · rintro ⟨pre, post, hl, hpre, hv, hu⟩
        refine ⟨a :: pre, post, by simp [hl], ?_, hv, hu⟩
        intro w hw
        rcases List.mem_cons.mp hw with rfl | hw
        · exact ha
        · exact hpre w hw
      · rintro ⟨pre, post, hl, hpre, hv, hu⟩
        cases pre with
        | nil =>
          simp only [List.nil_append, List.cons.injEq] at hl
          obtain ⟨h1, -⟩ := hl
          subst h1
          exact absurd hv ha
        | cons b pre =>
          simp only [List.cons_append, List.cons.injEq] at hl
          obtain ⟨-, h2⟩ := hl
          exact ⟨pre, post, h2, fun w hw => hpre w (by simp [hw]), hv, hu⟩

/-- C18: for every master manifest and ceiling `Config.MVMax`, `extractVideo` returns the
first variant in descending-bandwidth order whose encoded resolution height is at most the
ceiling (its URL, when the URI resolves): the selected variant is a variant of the manifest
whose height does not exceed the ceiling, no earlier variant of the sorted list qualifies,
no qualifying variant has a greater average bandwidth, and the error
`no suitable video stream found` is returned exactly when no variant qualifies. -/
theorem extractVideo_first_within_ceiling (sortSlice : List Variant → List Variant)
    (parseRef : String → Option String) (cfg : ConfigSet) (master : List Variant)
    (hsort : SortSliceSpec sortSlice) :
    (∀ url, extractVideo sortSlice parseRef cfg (.ok master) = .ok url ↔
      ∃ v pre post, sortSlice master = pre ++ v :: post ∧
        (∀ w ∈ pre, ¬ videoQualifies cfg w) ∧ videoQualifies cfg v ∧
        parseRef v.URI = some url) ∧
    (∀ v, selectedVideo sortSlice parseRef cfg master = some v →
      v ∈ master ∧ (∃ h, videoHeight? v = some h ∧ h ≤ cfg.MVMax) ∧
      (∃ pre post, sortSlice master = pre ++ v :: post ∧
        ∀ w ∈ pre, ¬ videoQualifies cfg w) ∧
      ∀ w ∈ master, videoQualifies cfg w → w.AverageBandwidth ≤ v.AverageBandwidth) ∧
    (extractVideo sortSlice parseRef cfg (.ok master) = .error .noSuitableVideo ↔
      ∀ v ∈ master, ¬ videoQualifies cfg v) := by
  refine ⟨?_, ?_, ?_⟩
  · intro url
    unfold extractVideo
    simp only
    cases hs : scanVideo parseRef cfg (sortSlice master) with
    | chosen v u =>
      simp only [VideoOutcome.ok.injEq]
      constructor
      · intro h
        subst h
        obtain ⟨pre, post, h1, h2, h3, h4⟩ := scanVideo_chosen_iff.mp hs
        exact ⟨v, pre, post, h1, h2, h3, h4⟩
      · rintro ⟨w, pre, post, h1, h2, h3, h4⟩
        have := scanVideo_chosen_iff.mpr ⟨pre, post, h1, h2, h3, h4⟩
        rw [hs] at this
        simp only [VideoScan.chosen.injEq] at this
        exact this.2
    | failed e =>
      constructor
      · intro h; cases h
      · rintro ⟨w, pre, post, h1, h2, h3, h4⟩
        have := scanVideo_chosen_iff.mpr ⟨pre, post, h1, h2, h3, h4⟩
        rw [hs] at this
        cases this
    | exhausted =>
      constructor
      · intro h; cases h
      · rintro ⟨w, pre, post, h1, h2, h3, h4⟩
        have := scanVideo_chosen_iff.mpr ⟨pre, post, h1, h2, h3, h4⟩
        rw [hs] at this
        cases this
  · intro v hv
    unfold selectedVideo at hv
    cases hs : scanVideo parseRef cfg (sortSlice master) with
    | chosen v2 u =>
      rw [hs] at hv
      simp only [Option.some.injEq] at hv
      subst hv
      obtain ⟨pre, post, h1, h2, h3, h4⟩ := scanVideo_chosen_iff.mp hs
      refine ⟨(hsort.perm master).subset (by rw [h1]; simp),
        (withinCeiling_iff _ _).mp h3, ⟨pre, post, h1, h2⟩, ?_⟩
      intro w hw hq
      have hw2 : w ∈ pre ++ v2 :: post := by
        rw [← h1]; exact (hsort.perm master).symm.subset hw
      rcases List.mem_append.mp hw2 with h5 | h5
      · exact absurd hq (h2 w h5)
      · rcases List.mem_cons.mp h5 with rfl | h6
        · exact le_rfl
        · have hp := hsort.sorted master
          rw [h1] at hp
          exact List.rel_of_pairwise_cons (List.pairwise_append.mp hp).2.1 h6
    | failed e => rw [hs] at hv; cases hv
    | exhausted => rw [hs] at hv; cases hv
  · unfold extractVideo
    simp only
    have hmem : (∀ w ∈ sortSlice master, ¬ videoQualifies cfg w) ↔
        ∀ v ∈ master, ¬ videoQualifies cfg v :=
      ⟨fun h v hv => h v ((hsort.perm master).symm.subset hv),
        fun h w hw => h w ((hsort.perm master).subset hw)⟩
    rw [← hmem, ← scanVideo_exhausted_iff]
    cases hs : scanVideo parseRef cfg (sortSlice master) with
    | chosen v u => simp
    | exhausted => simp
    | failed e =>
      simp only [VideoOutcome.error.injEq]
      constructor
      · intro h
        subst h
        exfalso
        have hne : ∀ l : List Variant,
            scanVideo parseRef cfg l ≠ .failed .noSuitableVideo := by
          intro l
          induction l with
          | nil => simp [scanVideo]
          | cons a l ih =>
            rw [scanVideo_cons]
            split
            · cases parseRef a.URI <;> simp
            · exact ih
        exact hne _ hs
      · intro h
        cases h

/-- Witness for C18: with ceiling 1080 the 1080-line variant is selected, after the
2160-line variant has been passed. -/
theorem extractVideo_first_within_ceiling_witness :
    SortSliceSpec stableSortSlice ∧
    extractVideo stableSortSlice sampleParseRef { MVMax := 1080 } (.ok videoManifest) =
      .ok "https://h/v_1920x1080_a.m3u8" ∧
    (extractVideo stableSortSlice sampleParseRef { MVMax := 100 } (.ok videoManifest) =
        .error .noSuitableVideo ↔
      ∀ v ∈ videoManifest, ¬ videoQualifies { MVMax := 100 } v) ∧
    ∃ v pre post, stableSortSlice videoManifest = pre ++ v :: post ∧
      (∀ w ∈ pre, ¬ videoQualifies { MVMax := 1080 } w) ∧
      videoQualifies { MVMax := 1080 } v ∧
      sampleParseRef v.URI = some "https://h/v_1920x1080_a.m3u8" :=
  ⟨stableSortSlice_spec, by decide,
    (extractVideo_first_within_ceiling stableSortSlice sampleParseRef { MVMax := 100 }
      videoManifest stableSortSlice_spec).2.2,
    ((extractVideo_first_within_ceiling stableSortSlice sampleParseRef { MVMax := 1080 }
      videoManifest stableSortSlice_spec).1 "https://h/v_1920x1080_a.m3u8").mp (by decide)⟩

/-! ## `extractMvAudio` -/

theorem stableSortStreams_spec : SortStreamsSpec stableSortStreams := by
  haveI : IsTotal AudioStream rankGe := ⟨fun a b => Int.le_total b.Rank a.Rank⟩
  haveI : IsTrans AudioStream rankGe := ⟨fun a b c hab hbc => Int.le_trans hbc hab⟩
  constructor
  · intro l
    exact List.perm_insertionSort rankGe l
  · intro l
    exact List.sorted_insertionSort rankGe l

theorem streamsOfAlternative_some {parseRef : String → Option String} {audiov : Alternative}
    {priority : List String} {l : List AudioStream}
    (h : streamsOfAlternative parseRef audiov priority = some l) :
    ∀ s ∈ l, s.GroupID ∈ priority := by
  induction priority generalizing l with
  | nil =>
    simp only [streamsOfAlternative, Option.some.injEq] at h
    subst h
    simp
  | cons p rest ih =>
    unfold streamsOfAlternative at h
    by_cases hg : audiov.GroupId = p
    · rw [if_pos hg] at h
      cases hr : findRank audiov.URI.toList with
      | none =>
        rw [hr] at h
        intro s hs
        exact List.mem_cons_of_mem _ (ih h s hs)
      | some digits =>
        rw [hr] at h
        simp only at h
        cases hp : parseRef audiov.URI with
        | none => rw [hp] at h; cases h
        | some u =>
          rw [hp] at h
          simp only at h
          cases hm : streamsOfAlternative parseRef audiov rest with
          | none => rw [hm] at h; cases h
          | some more =>
            rw [hm] at h
            simp only [Option.some.injEq] at h
            subst h
            intro s hs
            rcases List.mem_cons.mp hs with rfl | hs
            · simp [hg]
            · exact List.mem_cons_of_mem _ (ih hm s hs)
    · rw [if_neg hg] at h
      intro s hs
      exact List.mem_cons_of_mem _ (ih h s hs)

theorem collectStreams_some {parseRef : String → Option String} {priority : List String}
    {alts : List Alternative} {l : List AudioStream}
    (h : collectStreams parseRef priority alts = some l) :
    ∀ s ∈ l, s.GroupID ∈ priority := by
  induction alts generalizing l with
  | nil =>
    simp only [collectStreams, Option.some.injEq] at h
    subst h
    simp
  | cons a alts ih =>
    unfold collectStreams at h
    by_cases hu : a.URI ≠ ""
    · rw [if_pos hu] at h
      cases h1 : streamsOfAlternative parseRef a priority with
      | none => rw [h1] at h; cases h
      | some here =>
        rw [h1] at h
        simp only at h
        cases h2 : collectStreams parseRef priority alts with
        | none => rw [h2] at h; cases h
        | some more =>
          rw [h2] at h
          simp only [Option.some.injEq] at h
          subst h
          intro s hs
          rcases List.mem_append.mp hs with hs | hs
          · exact streamsOfAlternative_some h1 s hs
          · exact ih h2 s hs
    · rw [if_neg hu] at h
      exact ih h

theorem rankOf_eq {audiov : Alternative} {digits : List Char}
    (h : findRank audiov.URI.toList = some digits) :
    rankOf audiov = (sscanDigits digits).getD 0 := by
  unfold rankOf
  rw [h]

theorem streamsOfAlternative_mem {parseRef : String → Option String} {audiov : Alternative}
    {priority : List String} {l : List AudioStream}
    (h : streamsOfAlternative parseRef audiov priority = some l) :
    ∀ s ∈ l, s.GroupID = audiov.GroupId ∧ findRank audiov.URI.toList ≠ none ∧
      parseRef audiov.URI = some s.URL ∧ s.Rank = rankOf audiov := by
  induction priority generalizing l with
  | nil =>
    simp only [streamsOfAlternative, Option.some.injEq] at h
    subst h
    simp
  | cons p rest ih =>
    unfold streamsOfAlternative at h
    by_cases hg : audiov.GroupId = p
    · rw [if_pos hg] at h
      rcases Option.eq_none_or_eq_some (findRank audiov.URI.toList) with hr | ⟨digits, hr⟩
      · rw [hr] at h
        exact ih h
      · rw [hr] at h
        simp only at h
        rcases Option.eq_none_or_eq_some (parseRef audiov.URI) with hp | ⟨u, hp⟩
        · rw [hp] at h; cases h
        · rw [hp] at h
          simp only at h
          rcases Option.eq_none_or_eq_some (streamsOfAlternative parseRef audiov rest)
            with hm | ⟨more, hm⟩
          · rw [hm] at h; cases h
          · rw [hm] at h
            simp only [Option.some.injEq] at h
            subst h
            intro s hs
            rcases List.mem_cons.mp hs with rfl | hs
            · refine ⟨rfl, ?_, hp, (rankOf_eq hr).symm⟩
              rw [hr]
              exact Option.some_ne_none _
            · exact ih hm s hs
    · rw [if_neg hg] at h
      exact ih h

theorem streamsOfAlternative_candidate {parseRef : String → Option String}
    {audiov : Alternative} {priority : List String} {l : List AudioStream}
    (h : streamsOfAlternative parseRef audiov priority = some l)
    (hg : audiov.GroupId ∈ priority) (hr : findRank audiov.URI.toList ≠ none) :
    ∃ s ∈ l, s.GroupID = audiov.GroupId ∧ s.Rank = rankOf audiov := by
  induction priority generalizing l with
  | nil => simp at hg
  | cons p rest ih =>
    unfold streamsOfAlternative at h
    by_cases hp : audiov.GroupId = p
    · rw [if_pos hp] at h
      rcases Option.eq_none_or_eq_some (findRank audiov.URI.toList) with hf | ⟨digits, hf⟩
      · exact absurd hf hr
      · rw [hf] at h
        simp only at h
        rcases Option.eq_none_or_eq_some (parseRef audiov.URI) with hu | ⟨u, hu⟩
        · rw [hu] at h; cases h
        · rw [hu] at h
          simp only at h
          rcases Option.eq_none_or_eq_some (streamsOfAlternative parseRef audiov rest)
            with hm | ⟨more, hm⟩
          · rw [hm] at h; cases h
          · rw [hm] at h
            simp only [Option.some.injEq] at h
            subst h
            exact ⟨_, List.mem_cons_self _ _, rfl, (rankOf_eq hf).symm⟩
    · rw [if_neg hp] at h
      have hg2 : audiov.GroupId ∈ rest := by
        rcases List.mem_cons.mp hg with h1 | h1
        · exact absurd h1 hp
        · exact h1
      exact ih h hg2

theorem streamsOfAlternative_isSome (parseRef : String → Option String) (audiov : Alternative)
    (priority : List String)
    (hp : findRank audiov.URI.toList ≠ none → audiov.GroupId ∈ priority →
      parseRef audiov.URI ≠ none) :
    ∃ l, streamsOfAlternative parseRef audiov priority = some l := by
  induction priority with
  | nil => exact ⟨[], rfl⟩
  | cons p rest ih =>
    have hrest : ∃ l, streamsOfAlternative parseRef audiov rest = some l :=
      ih (fun h1 h2 => hp h1 (List.mem_cons_of_mem _ h2))
    obtain ⟨more, hmore⟩ := hrest
    unfold streamsOfAlternative
    by_cases hg : audiov.GroupId = p
    · rw [if_pos hg]
      rcases Option.eq_none_or_eq_some (findRank audiov.URI.toList) with hf | ⟨digits, hf⟩
      · rw [hf]
        exact ⟨more, hmore⟩
      · rcases Option.eq_none_or_eq_some (parseRef audiov.URI) with hu | ⟨u, hu⟩
        · refine absurd hu (hp ?_ ?_)
          · rw [hf]
            exact Option.some_ne_none _
          · rw [hg]
            exact List.mem_cons_self _ _
        · rw [hf]
          simp only [hu, hmore]
          exact ⟨_, rfl⟩
    · rw [if_neg hg]
      exact ⟨more, hmore⟩

theorem collectStreams_mem {parseRef : String → Option String} {priority : List String}
    {alts : List Alternative} {l : List AudioStream}
    (h : collectStreams parseRef priority alts = some l) :
    ∀ s ∈ l, ∃ audiov ∈ alts, isCandidate priority audiov ∧ s.GroupID = audiov.GroupId ∧
      s.Rank = rankOf audiov ∧ parseRef audiov.URI = some s.URL := by
  induction alts generalizing l with
  | nil =>
    simp only [collectStreams, Option.some.injEq] at h
    subst h
    simp
  | cons a alts ih =>
    unfold collectStreams at h
    by_cases hu : a.URI ≠ ""
    · rw [if_pos hu] at h
      rcases Option.eq_none_or_eq_some (streamsOfAlternative parseRef a priority)
        with h1 | ⟨here, h1⟩
      · rw [h1] at h; cases h
      · rw [h1] at h
        simp only at h
        rcases Option.eq_none_or_eq_some (collectStreams parseRef priority alts)
          with h2 | ⟨more, h2⟩
        · rw [h2] at h; cases h
        · rw [h2] at h
          simp only [Option.some.injEq] at h
          subst h
          intro s hs
          rcases List.mem_append.mp hs with hs | hs
          · obtain ⟨hg, hr, hp, hk⟩ := streamsOfAlternative_mem h1 s hs
            have hin : a.GroupId ∈ priority := by
              have := streamsOfAlternative_some h1 s hs
              rwa [hg] at this
            exact ⟨a, List.mem_cons_self _ _, ⟨hu, hin, hr⟩, hg, hk, hp⟩
          · obtain ⟨audiov, hmem, hrest⟩ := ih h2 s hs
            exact ⟨audiov, List.mem_cons_of_mem _ hmem, hrest⟩
    · rw [if_neg hu] at h
      intro s hs
      obtain ⟨audiov, hmem, hrest⟩ := ih h s hs
      exact ⟨audiov, List.mem_cons_of_mem _ hmem, hrest⟩

theorem collectStreams_candidate {parseRef : String → Option String} {priority : List String}
    {alts : List Alternative} {l : List AudioStream}
    (h : collectStreams parseRef priority alts = some l) :
    ∀ audiov ∈ alts, isCandidate priority audiov →
      ∃ s ∈ l, s.GroupID = audiov.GroupId ∧ s.Rank = rankOf audiov := by
  induction alts generalizing l with
  | nil => simp
  | cons a alts ih =>
    unfold collectStreams at h
    by_cases hu : a.URI ≠ ""
    · rw [if_pos hu] at h
      rcases Option.eq_none_or_eq_some (streamsOfAlternative parseRef a priority)
        with h1 | ⟨here, h1⟩
      · rw [h1] at h; cases h
      · rw [h1] at h
        simp only at h
        rcases Option.eq_none_or_eq_some (collectStreams parseRef priority alts)
          with h2 | ⟨more, h2⟩
        · rw [h2] at h; cases h
        · rw [h2] at h
          simp only [Option.some.injEq] at h
          subst h
          intro audiov hmem hc
          rcases List.mem_cons.mp hmem with rfl | hmem
          · obtain ⟨s, hs, hrest⟩ := streamsOfAlternative_candidate h1 hc.2.1 hc.2.2
            exact ⟨s, List.mem_append_left _ hs, hrest⟩
          · obtain ⟨s, hs, hrest⟩ := ih h2 audiov hmem hc
            exact ⟨s, List.mem_append_right _ hs, hrest⟩
    · rw [if_neg hu] at h
      intro audiov hmem hc
      rcases List.mem_cons.mp hmem with rfl | hmem
      · exact absurd hc.1 hu
      · exact ih h audiov hmem hc

theorem collectStreams_isSome (parseRef : String → Option String) (priority : List String)
    (alts : List Alternative)
    (hp : ∀ audiov ∈ alts, isCandidate priority audiov → parseRef audiov.URI ≠ none) :
    ∃ l, collectStreams parseRef priority alts = some l := by
  induction alts with
  | nil => exact ⟨[], rfl⟩
  | cons a alts ih =>
    obtain ⟨more, hmore⟩ := ih (fun audiov hmem hc => hp audiov (List.mem_cons_of_mem _ hmem) hc)
    unfold collectStreams
    by_cases hu : a.URI ≠ ""
    · rw [if_pos hu]
      obtain ⟨here, hhere⟩ := streamsOfAlternative_isSome parseRef a
        priority (fun h1 h2 => hp a (List.mem_cons_self _ _) ⟨hu, h2, h1⟩)
      simp only [hhere, hmore]
      exact ⟨_, rfl⟩
    · rw [if_neg hu]
      exact ⟨more, hmore⟩

/-- C19 as stated fails: with the full priority list, a manifest offers an `audio-atmos`
candidate of rank 128 and an `audio-stereo-256` candidate of rank 256;
`extractMvAudio` returns the stereo stream, the candidate of highest rank, although the
Atmos group comes first in the priority list and has a candidate. -/
theorem extractMvAudio_priority_counterexample :
    extractMvAudio stableSortStreams sampleParseRef {} (.ok mvAudioManifest) =
      .ok { URL := "https://h/a_gr256_stereo.m3u8", Rank := 256,
            GroupID := "audio-stereo-256" } ∧
    audioPriority {} = ["audio-atmos", "audio-ac3", "audio-stereo-256"] ∧
    ∃ s ∈ candidateStreams sampleParseRef {} mvAudioManifest, s.GroupID = "audio-atmos" := by
  decide

/-- C19 (amended): for every music-video manifest and every sort meeting the contract of
`sort.Slice`, (1) `extractMvAudio` returns "no suitable audio stream found" exactly when
no alternative of the manifest is a candidate of an allowed group (the groups of the list
atmos, ac-3, stereo, or of the configured narrower list); (2) when some alternative is a
candidate and the URI of every candidate resolves against the manifest URL, a stream is
returned; (3) every stream returned is one of the collected candidates, comes from a
candidate alternative of the manifest whose group, scanned rank and resolved URI it
carries, and has the highest numeric rank among the candidates of all allowed groups
together; the order of the groups in the list is not consulted. -/
theorem extractMvAudio_highest_rank (sortStreams : List AudioStream → List AudioStream)
    (parseRef : String → Option String) (cfg : ConfigSet) (variants : List Variant)
    (hsort : SortStreamsSpec sortStreams) :
    (extractMvAudio sortStreams parseRef cfg (.ok variants) = .noSuitableAudio ↔
      ∀ variant ∈ variants, ∀ audiov ∈ variant.Alternatives,
        ¬ isCandidate (audioPriority cfg) audiov) ∧
    ((∃ variant ∈ variants, ∃ audiov ∈ variant.Alternatives,
        isCandidate (audioPriority cfg) audiov) →
      (∀ variant ∈ variants, ∀ audiov ∈ variant.Alternatives,
        isCandidate (audioPriority cfg) audiov → parseRef audiov.URI ≠ none) →
      ∃ stream, extractMvAudio sortStreams parseRef cfg (.ok variants) = .ok stream) ∧
    (∀ stream, extractMvAudio sortStreams parseRef cfg (.ok variants) = .ok stream →
      stream ∈ candidateStreams parseRef cfg variants ∧
      stream.GroupID ∈ audioPriority cfg ∧
      (∀ s ∈ candidateStreams parseRef cfg variants, s.Rank ≤ stream.Rank) ∧
      (∃ variant ∈ variants, ∃ audiov ∈ variant.Alternatives,
        isCandidate (audioPriority cfg) audiov ∧ stream.GroupID = audiov.GroupId ∧
        stream.Rank = rankOf audiov ∧ parseRef audiov.URI = some stream.URL) ∧
      (∀ variant ∈ variants, ∀ audiov ∈ variant.Alternatives,
        isCandidate (audioPriority cfg) audiov → rankOf audiov ≤ stream.Rank)) := by
  have hflat : ∀ audiov, audiov ∈ variants.flatMap (fun variant => variant.Alternatives) ↔
      ∃ variant ∈ variants, audiov ∈ variant.Alternatives := fun audiov => List.mem_flatMap
  refine ⟨⟨?_, ?_⟩, ?_, ?_⟩
  · intro h variant hv audiov ha hcand
    unfold extractMvAudio at h
    simp only at h
    rcases Option.eq_none_or_eq_some (collectStreams parseRef (audioPriority cfg)
      (variants.flatMap (fun variant => variant.Alternatives))) with hc | ⟨audioStreams, hc⟩
    · rw [hc] at h; cases h
    · rw [hc] at h
      simp only at h
      by_cases hlen : audioStreams.length = 0
      · obtain ⟨s, hs, _⟩ :=
          collectStreams_candidate hc audiov ((hflat audiov).mpr ⟨variant, hv, ha⟩) hcand
        rw [List.length_eq_zero.mp hlen] at hs
        cases hs
      · rw [if_neg hlen] at h
        rcases hs : sortStreams audioStreams with _ | ⟨first, rest⟩
        · rw [hs] at h; cases h
        · rw [hs] at h; cases h
  · intro hno
    obtain ⟨audioStreams, hc⟩ := collectStreams_isSome parseRef
      (audioPriority cfg) (variants.flatMap (fun variant => variant.Alternatives))
      (fun audiov hmem hcand => by
        obtain ⟨variant, hv, ha⟩ := (hflat audiov).mp hmem
        exact absurd hcand (hno variant hv audiov ha))
    have hnil : audioStreams = [] := by
      apply List.eq_nil_iff_forall_not_mem.mpr
      intro s hs
      obtain ⟨audiov, hmem, hcand, _⟩ := collectStreams_mem hc s hs
      obtain ⟨variant, hv, ha⟩ := (hflat audiov).mp hmem
      exact hno variant hv audiov ha hcand
    unfold extractMvAudio
    simp only [hc, hnil, List.length_nil, if_true]
  · intro hex hres
    obtain ⟨variant, hv, audiov, ha, hcand⟩ := hex
    obtain ⟨audioStreams, hc⟩ := collectStreams_isSome parseRef
      (audioPriority cfg) (variants.flatMap (fun variant => variant.Alternatives))
      (fun audiov hmem hcand => by
        obtain ⟨variant, hv, ha⟩ := (hflat audiov).mp hmem
        exact hres variant hv audiov ha hcand)
    obtain ⟨s, hs, _⟩ :=
      collectStreams_candidate hc audiov ((hflat audiov).mpr ⟨variant, hv, ha⟩) hcand
    have hlen : audioStreams.length ≠ 0 := by
      intro h0
      rw [List.length_eq_zero.mp h0] at hs
      cases hs
    unfold extractMvAudio
    simp only [hc, if_neg hlen]
    rcases hsorted : sortStreams audioStreams with _ | ⟨first, rest⟩
    · have := (hsort.perm audioStreams).symm.subset hs
      rw [hsorted] at this
      cases this
    · exact ⟨first, rfl⟩
  · intro stream h
    unfold extractMvAudio at h
    unfold candidateStreams
    simp only at h
    rcases Option.eq_none_or_eq_some (collectStreams parseRef (audioPriority cfg)
      (variants.flatMap (fun variant => variant.Alternatives))) with hc | ⟨audioStreams, hc⟩
    · rw [hc] at h; cases h
    · rw [hc] at h
      simp only at h
      simp only [hc, Option.getD_some]
      by_cases hlen : audioStreams.length = 0
      · rw [if_pos hlen] at h; cases h
      · rw [if_neg hlen] at h
        rcases hs : sortStreams audioStreams with _ | ⟨first, rest⟩
        · rw [hs] at h; cases h
        · rw [hs] at h
          simp only [AudioOutcome.ok.injEq] at h
          subst h
          have hmem : first ∈ audioStreams :=
            (hsort.perm audioStreams).subset (by rw [hs]; simp)
          have hmax : ∀ s ∈ audioStreams, s.Rank ≤ first.Rank := by
            intro s hs2
            have hs3 : s ∈ first :: rest := by
              rw [← hs]; exact (hsort.perm audioStreams).symm.subset hs2
            rcases List.mem_cons.mp hs3 with rfl | hs4
            · exact le_rfl
            · have hp := hsort.sorted audioStreams
              rw [hs] at hp
              exact List.rel_of_pairwise_cons hp hs4
          refine ⟨hmem, collectStreams_some hc first hmem, hmax, ?_, ?_⟩
          · obtain ⟨audiov, hin, hrest⟩ := collectStreams_mem hc first hmem
            obtain ⟨variant, hv, ha⟩ := (hflat audiov).mp hin
            exact ⟨variant, hv, audiov, ha, hrest⟩
          · intro variant hv audiov ha hcand
            obtain ⟨s, hs2, _, hrank⟩ :=
              collectStreams_candidate hc audiov ((hflat audiov).mpr ⟨variant, hv, ha⟩) hcand
            rw [← hrank]
            exact hmax s hs2

/-- Witness for C19 (amended): the manifest with an Atmos and a stereo rendition has
candidates and both URIs resolve, so the error is not returned and a stream is; the stream
returned is the stereo stream of rank 256, and no candidate has a higher rank. -/
theorem extractMvAudio_highest_rank_witness :
    SortStreamsSpec stableSortStreams ∧
    (∃ variant ∈ mvAudioManifest, ∃ audiov ∈ variant.Alternatives,
      isCandidate (audioPriority {}) audiov) ∧
    (∀ variant ∈ mvAudioManifest, ∀ audiov ∈ variant.Alternatives,
      isCandidate (audioPriority {}) audiov → sampleParseRef audiov.URI ≠ none) ∧
    extractMvAudio stableSortStreams sampleParseRef {} (.ok mvAudioManifest) ≠
      .noSuitableAudio ∧
    (∃ stream, extractMvAudio stableSortStreams sampleParseRef {} (.ok mvAudioManifest) =
      .ok stream) ∧
    extractMvAudio stableSortStreams sampleParseRef {} (.ok mvAudioManifest) =
      .ok { URL := "https://h/a_gr256_stereo.m3u8", Rank := 256,
            GroupID := "audio-stereo-256" } ∧
    (candidateStreams sampleParseRef {} mvAudioManifest).all (fun s => decide (s.Rank ≤ 256)) =
      true :=
  ⟨stableSortStreams_spec, by decide, by decide,
    fun h =>
      ((extractMvAudio_highest_rank stableSortStreams sampleParseRef {} mvAudioManifest
        stableSortStreams_spec).1.mp h)
        { URI := "v_1920x1080_a.m3u8",
          Alternatives :=
            [{ GroupId := "audio-atmos", URI := "a_gr128_atmos.m3u8" },
             { GroupId := "audio-stereo-256", URI := "a_gr256_stereo.m3u8" }] }
        (by decide) { GroupId := "audio-atmos", URI := "a_gr128_atmos.m3u8" } (by decide)
        (by decide),
    (extractMvAudio_highest_rank stableSortStreams sampleParseRef {} mvAudioManifest
      stableSortStreams_spec).2.1 (by decide) (by decide),
    by decide,
    List.all_eq_true.mpr (fun s hs => by
      simpa using
        ((extractMvAudio_highest_rank stableSortStreams sampleParseRef {} mvAudioManifest
          stableSortStreams_spec).2.2
          { URL := "https://h/a_gr256_stereo.m3u8", Rank := 256, GroupID := "audio-stereo-256" }
          (by decide)).2.2.1 s hs)⟩

/-! ## `writeMP4Tags` -/

theorem int16_of_range (x : Int) (h1 : -32768 ≤ x) (h2 : x ≤ 32767) : int16 x = x := by
  unfold int16
  omega

/-- The record `writeMP4Tags` writes is the result of the three-way branch on the
entity kind and `UseSongInfoForPlaylist`. -/
theorem writeMP4Tags_written {cfg : ConfigSet} {lrc : String} {metadata : AutoGenerated}
    {trackNum trackTotal : Int} {ioErr : Bool} {t : MP4Tags} {album : MetaData}
    {rest : List MetaData} (hdata : metadata.Data = album :: rest)
    (h : writeMP4Tags cfg lrc metadata trackNum trackTotal ioErr = .written t) :
    ∃ track t2, elemAt? album.Relationships.Tracks (trackNum - 1) = some track ∧
      albumFields cfg album track trackNum trackTotal t2 = some t := by
  unfold writeMP4Tags at h
  rw [hdata] at h
  simp only at h
  cases h1 : elemAt? album.Relationships.Tracks (trackNum - 1) with
  | none => rw [h1] at h; cases h
  | some track =>
    rw [h1] at h
    simp only at h
    cases h2 : track.Attributes.GenreNames with
    | nil => rw [h2] at h; cases h
    | cons genre gs =>
      rw [h2] at h
      simp only at h
      cases h3 : albumIDField album
          { Title := track.Attributes.Name, Artist := track.Attributes.ArtistName,
            CustomGenre := genre, Lyrics := lrc } with
      | none => rw [h3] at h; cases h
      | some t1 =>
        rw [h3] at h
        simp only at h
        cases h4 : artistIDField album track t1 with
        | none => rw [h4] at h; cases h
        | some t2 =>
          rw [h4] at h
          simp only at h
          cases h5 : albumFields cfg album track trackNum trackTotal t2 with
          | none => rw [h5] at h; cases h
          | some t3 =>
            rw [h5] at h
            simp only at h
            cases ioErr with
            | true => simp at h
            | false =>
              simp only [Bool.false_eq_true, if_false, TagOutcome.written.injEq] at h
              subst h
              exact ⟨track, t2, rfl, h5⟩

/-- C20: for every playlist entity (an entity whose id contains `pl.`) and every track
ordinal, the tag record written by `writeMP4Tags` takes, with per-song metadata
inheritance enabled (`UseSongInfoForPlaylist`), disc number, track number and album name
from that track's own catalog entry and the album artist from the track's own album, not
from the playlist; with inheritance disabled it takes disc 1 of 1, the playlist ordinal as
track number, and the playlist's name and artist. Numbers are stored as `int16`, which
leaves every value from -32768 to 32767 unchanged. -/
theorem writeMP4Tags_playlist_fields (cfg : ConfigSet) (lrc : String)
    (metadata : AutoGenerated) (trackNum trackTotal : Int) (ioErr : Bool) (t : MP4Tags)
    (album : MetaData) (rest : List MetaData) (hdata : metadata.Data = album :: rest)
    (hpl : Contains album.ID "pl." = true)
    (h : writeMP4Tags cfg lrc metadata trackNum trackTotal ioErr = .written t) :
    (cfg.UseSongInfoForPlaylist = true →
      ∃ track ownAlbum, elemAt? album.Relationships.Tracks (trackNum - 1) = some track ∧
        elemAt? track.Relationships.Albums 0 = some ownAlbum ∧
        t.DiscNumber = int16 track.Attributes.DiscNumber ∧
        t.TrackNumber = int16 track.Attributes.TrackNumber ∧
        t.Album = track.Attributes.AlbumName ∧
        t.AlbumArtist = ownAlbum.ArtistName) ∧
    (cfg.UseSongInfoForPlaylist = false →
      t.DiscNumber = 1 ∧ t.DiscTotal = 1 ∧ t.TrackNumber = int16 trackNum ∧
      t.Album = album.Attributes.Name ∧ t.AlbumArtist = album.Attributes.ArtistName) ∧
    (∀ x : Int, -32768 ≤ x → x ≤ 32767 → int16 x = x) := by
  obtain ⟨track, t2, htrack, hf⟩ := writeMP4Tags_written hdata h
  refine ⟨?_, ?_, int16_of_range⟩
  · intro huse
    unfold albumFields at hf
    simp only [hpl, huse, true_and, Bool.true_eq_false, if_false, if_true] at hf
    cases h1 : elemAt? album.Relationships.Tracks (trackTotal - 1) with
    | none => rw [h1] at hf; cases hf
    | some last =>
      rw [h1] at hf
      simp only at hf
      cases h2 : elemAt? track.Relationships.Albums 0 with
      | none => rw [h2] at hf; cases hf
      | some ownAlbum =>
        rw [h2] at hf
        simp only [Option.some.injEq] at hf
        subst hf
        exact ⟨track, ownAlbum, htrack, h2, rfl, rfl, rfl, rfl⟩
  · intro huse
    unfold albumFields at hf
    simp only [hpl, huse, true_and, if_true, Option.some.injEq] at hf
    subst hf
    exact ⟨rfl, rfl, rfl, rfl, rfl⟩

/-- Witness for C20: the second track of a two-track playlist, inheritance enabled: disc
2, track 6, album and album artist of the track, not of the playlist. -/
theorem writeMP4Tags_playlist_fields_witness :
    Contains samplePlaylistData.ID "pl." = true ∧
    writeMP4Tags { UseSongInfoForPlaylist := true } "" samplePlaylist 2 2 false =
      .written sampleInheritedTags ∧
    ∃ track ownAlbum,
      elemAt? samplePlaylistData.Relationships.Tracks (2 - 1) = some track ∧
      elemAt? track.Relationships.Albums 0 = some ownAlbum ∧
      sampleInheritedTags.DiscNumber = int16 track.Attributes.DiscNumber ∧
      sampleInheritedTags.TrackNumber = int16 track.Attributes.TrackNumber ∧
      sampleInheritedTags.Album = track.Attributes.AlbumName ∧
      sampleInheritedTags.AlbumArtist = ownAlbum.ArtistName :=
  ⟨by decide, by decide,
    (writeMP4Tags_playlist_fields { UseSongInfoForPlaylist := true } "" samplePlaylist 2 2
      false sampleInheritedTags samplePlaylistData [] rfl (by decide) (by decide)).1 rfl⟩

/-! ## `downloadTrack`: failed selection and failed post-processing -/

/-- C14 (divergence): for an audio track in lossless mode whose manifest has no acceptable
variant, `downloadTrack` counts Unavailable when the file-name template has no `Quality`
placeholder, but counts Error (Unavailable unchanged) when the template has one, because
the selection that reads the quality label fails first; the fetch capability is invoked
in neither case. -/
theorem downloadTrack_selection_failure_with_quality_label
    (lib : GoLib) (cfg : ConfigSet) (fl : Flags) (env : TrackEnv) (trackNum trackTotal : Int)
    (metadata : AutoGenerated) (track : TrackData) (albumId mediaUserToken Codec hls : String)
    (st : RunState)
    (hcov : fl.cover_art_only = false) (hty : track.Type_ ≠ "music-videos")
    (hhls : env.EnhancedHls = some hls) (hne : hls ≠ "")
    (hatmos : fl.dl_atmos = false) (haac : fl.dl_aac = false) :
    (∀ e, Contains cfg.SongFileFormat "Quality" = true →
      extractMedia lib.sortSlice lib.parseRef cfg fl env.qualityMaster true = .error e →
      downloadTrackEnd lib cfg fl env trackNum trackTotal metadata track albumId
        mediaUserToken Codec = (.error, false) ∧
      (downloadTrack lib cfg fl env trackNum trackTotal metadata track albumId
        mediaUserToken Codec st).counter.Error = st.counter.Error + 1 ∧
      (downloadTrack lib cfg fl env trackNum trackTotal metadata track albumId
        mediaUserToken Codec st).counter.Unavailable = st.counter.Unavailable) ∧
    (∀ e name, Contains cfg.SongFileFormat "Quality" = false →
      filename cfg track trackNum "" Codec = some name →
      fl.lyrics_only = false → env.trackExists = false →
      extractMedia lib.sortSlice lib.parseRef cfg fl env.streamMaster false = .error e →
      downloadTrackEnd lib cfg fl env trackNum trackTotal metadata track albumId
        mediaUserToken Codec = (.unavailable, false) ∧
      (downloadTrack lib cfg fl env trackNum trackTotal metadata track albumId
        mediaUserToken Codec st).counter.Unavailable = st.counter.Unavailable + 1 ∧
      (downloadTrack lib cfg fl env trackNum trackTotal metadata track albumId
        mediaUserToken Codec st).counter.Error = st.counter.Error) := by
  constructor
  · intro e hq hfail
    have hend : downloadTrackEnd lib cfg fl env trackNum trackTotal metadata track albumId
        mediaUserToken Codec = (.error, false) := by
      simp [downloadTrackEnd, qualityStep, hcov, hty, hhls, hne, hatmos, haac, hq, hfail]
    refine ⟨hend, ?_, ?_⟩ <;>
      simp [downloadTrack, hend, applyEnd, incError, incTotal]
  · intro e name hq hname hlyr hex hfail
    have hend : downloadTrackEnd lib cfg fl env trackNum trackTotal metadata track albumId
        mediaUserToken Codec = (.unavailable, false) := by
      simp [downloadTrackEnd, qualityStep, acquire, hcov, hty, hhls, hne, hatmos, haac, hq,
        hname, hlyr, hex, hfail]
    refine ⟨hend, ?_, ?_⟩ <;>
      simp [downloadTrack, hend, applyEnd, incUnavailable, incTotal]

set_option maxRecDepth 100000 in
/-- C14 witness: the lossy-only manifest `aacManifest` in lossless mode under a template
with the `Quality` placeholder ends the track with one Error and no Unavailable. -/
theorem downloadTrack_selection_failure_with_quality_label_witness :
    downloadTrackEnd sampleLib qualityConfig {} lossyOnlyEnv 1 1 sampleAlbum sampleTrack
      "1440857781" longToken "ALAC" = (.error, false) ∧
    (downloadTrack sampleLib qualityConfig {} lossyOnlyEnv 1 1 sampleAlbum sampleTrack
      "1440857781" longToken "ALAC" {}).counter.Error = 0 + 1 ∧
    (downloadTrack sampleLib qualityConfig {} lossyOnlyEnv 1 1 sampleAlbum sampleTrack
      "1440857781" longToken "ALAC" {}).counter.Unavailable = 0 :=
  (downloadTrack_selection_failure_with_quality_label sampleLib qualityConfig {} lossyOnlyEnv
    1 1 sampleAlbum sampleTrack "1440857781" longToken "ALAC" "https://h/master.m3u8" {}
    rfl (by decide) rfl (by decide) rfl rfl).1 .noCodecFound (by decide) (by decide)

/-- An audio track that passes every step up to a successful fetch ends as its
post-processing ends. -/
theorem downloadTrackEnd_acquired
    (lib : GoLib) (cfg : ConfigSet) (fl : Flags) (env : TrackEnv) (trackNum trackTotal : Int)
    (metadata : AutoGenerated) (track : TrackData)
    (albumId mediaUserToken Codec hls Quality name : String)
    (hcov : fl.cover_art_only = false) (hty : track.Type_ ≠ "music-videos")
    (hhls : env.EnhancedHls = some hls) (hav : ¬ (hls = "" ∧ fl.dl_atmos = true))
    (hq : qualityStep lib cfg fl env
      (decide ((fl.dl_aac = true ∧ cfg.AacType = "aac-lc") ∨ hls = "")) = .ok Quality)
    (hname : filename cfg track trackNum Quality Codec = some name)
    (hlyr : fl.lyrics_only = false) (hex : env.trackExists = false)
    (hacq : (((fl.dl_aac = true ∧ cfg.AacType = "aac-lc") ∨ hls = "") ∧
        50 < mediaUserToken.utf8ByteSize ∧ env.runv3Err = false) ∨
      (¬ ((fl.dl_aac = true ∧ cfg.AacType = "aac-lc") ∨ hls = "") ∧
        (∃ url q, extractMedia lib.sortSlice lib.parseRef cfg fl env.streamMaster false =
          .ok url q) ∧ env.runv2Err = false)) :
    downloadTrackEnd lib cfg fl env trackNum trackTotal metadata track albumId
      mediaUserToken Codec = (postProcess cfg env metadata albumId trackNum trackTotal, true) := by
  unfold downloadTrackEnd
  rw [if_neg (by simp [hcov]), if_neg hty]
  simp only [hhls]
  rw [if_neg hav]
  simp only [hq, hname]
  rw [if_neg (by simp [hlyr])]
  unfold acquire
  rw [if_neg (by simp [hex])]
  rcases hacq with ⟨hn, htok, hrun⟩ | ⟨hn, ⟨url, q, hext⟩, hrun⟩
  · rw [if_pos (by simpa using hn), if_neg (by omega), if_neg (by simp [hrun])]
  · rw [if_neg (by simpa using hn)]
    simp only [hext]
    rw [if_neg (by simp [hrun])]

/-- C15 (divergence): for an audio track whose acquisition succeeded, a failure of the
`MP4Box` embed counts one Error, but a failure of `writeMP4Tags` counts one Unavailable and
leaves Error unchanged; in both cases Success is unchanged and the ledger gains no entry. -/
theorem downloadTrack_tag_failure_counts_unavailable
    (lib : GoLib) (cfg : ConfigSet) (fl : Flags) (env : TrackEnv) (trackNum trackTotal : Int)
    (metadata : AutoGenerated) (track : TrackData)
    (albumId mediaUserToken Codec : String) (st : RunState)
    (hacquired : downloadTrackEnd lib cfg fl env trackNum trackTotal metadata track albumId
      mediaUserToken Codec = (postProcess cfg env metadata albumId trackNum trackTotal, true))
    (hdata : metadata.Data ≠ []) :
    (env.mp4boxErr = true →
      (downloadTrack lib cfg fl env trackNum trackTotal metadata track albumId
        mediaUserToken Codec st) =
        { counter := { st.counter with Total := st.counter.Total + 1,
                                       Error := st.counter.Error + 1 },
          okDict := st.okDict }) ∧
    (env.mp4boxErr = false → env.removeErr = false →
      writeMP4Tags cfg env.lrc metadata trackNum trackTotal env.tagIoErr = .error →
      (downloadTrack lib cfg fl env trackNum trackTotal metadata track albumId
        mediaUserToken Codec st) =
        { counter := { st.counter with Total := st.counter.Total + 1,
                                       Unavailable := st.counter.Unavailable + 1 },
          okDict := st.okDict }) := by
  cases hd : metadata.Data with
  | nil => exact absurd hd hdata
  | cons album rest =>
    constructor
    · intro hbox
      simp [downloadTrack, hacquired, postProcess, hd, hbox, applyEnd, incError, incTotal]
    · intro hbox hrem htag
      simp [downloadTrack, hacquired, postProcess, hd, hbox, hrem, htag, applyEnd,
        incUnavailable, incTotal]

set_option maxRecDepth 100000 in
/-- C15 witness: a fetched track whose tag writer fails is counted Unavailable, not
Error. -/
theorem downloadTrack_tag_failure_counts_unavailable_witness :
    downloadTrack sampleLib {} {} tagFailEnv 1 1 sampleAlbum sampleTrack "1440857781"
      longToken "ALAC" {} = { counter := { Total := 1, Unavailable := 1, Error := 0 } } :=
  (downloadTrack_tag_failure_counts_unavailable sampleLib {} {} tagFailEnv 1 1 sampleAlbum
    sampleTrack "1440857781" longToken "ALAC" {} (by decide) (by decide)).2 rfl rfl (by decide)

/-! ## The completion ledger never shrinks -/

theorem isInArray_iff_mem (l : List Int) (k : Int) : isInArray l k = true ↔ k ∈ l := by
  induction l with
  | nil => simp [isInArray]
  | cons num rest ih =>
    unfold isInArray
    by_cases h : num = k
    · simp [h]
    · rw [if_neg h, ih]
      simp [List.mem_cons, Ne.symm h]

theorem ledgerLe_refl (d : List (String × List Int)) : ledgerLe d d := fun _ _ h => h

theorem ledgerLe_trans {d1 d2 d3 : List (String × List Int)} (h12 : ledgerLe d1 d2)
    (h23 : ledgerLe d2 d3) : ledgerLe d1 d3 := fun a k h => h23 a k (h12 a k h)

theorem ledgerLe_ledgerAdd (albumId : String) (trackNum : Int) (st : RunState) :
    ledgerLe st.okDict (ledgerAdd albumId trackNum st).okDict := by
  intro a k h
  by_cases ha : a = albumId
  · subst ha
    have : okDictGet (ledgerAdd a trackNum st).okDict a = okDictGet st.okDict a ++ [trackNum] := by
      simp [ledgerAdd, okDictGet, List.lookup]
    rw [this, isInArray_iff_mem]
    rw [isInArray_iff_mem] at h
    exact List.mem_append_left _ h
  · have hb : (a == albumId) = false := by simpa using ha
    have : okDictGet (ledgerAdd albumId trackNum st).okDict a = okDictGet st.okDict a := by
      simp [ledgerAdd, okDictGet, List.lookup, hb]
    rw [this]
    exact h

theorem applyEnd_ledger (albumId : String) (trackNum : Int) (e : TrackEnd) (st : RunState) :
    ledgerLe st.okDict (applyEnd albumId trackNum e st).okDict := by
  cases e
  case successLedger =>
    exact ledgerLe_ledgerAdd albumId trackNum (incSuccess st)
  all_goals exact ledgerLe_refl _

theorem downloadTrack_ledger (lib : GoLib) (cfg : ConfigSet) (fl : Flags) (env : TrackEnv)
    (trackNum trackTotal : Int) (metadata : AutoGenerated) (track : TrackData)
    (albumId mediaUserToken Codec : String) (st : RunState) :
    ledgerLe st.okDict (downloadTrack lib cfg fl env trackNum trackTotal metadata track albumId
      mediaUserToken Codec st).okDict :=
  applyEnd_ledger albumId trackNum _ (incTotal st)

theorem ripTrackLoop_ledger (f : Int → TrackData → RunState → RunState)
    (hmono : ∀ n t s, ledgerLe s.okDict (f n t s).okDict) (albumId : String)
    (selected : List Int) (tracks : List TrackData) (trackNum : Int) (st : RunState)
    (calls : List Int) :
    ledgerLe st.okDict (ripTrackLoop f albumId selected trackNum tracks (st, calls)).1.okDict := by
  induction tracks generalizing trackNum st calls with
  | nil => exact ledgerLe_refl _
  | cons track rest ih =>
    unfold ripTrackLoop
    by_cases h1 : isInArray (okDictGet st.okDict albumId) trackNum = true
    · rw [if_pos h1]
      exact ih (trackNum + 1) (countLedgerHit st) calls
    · rw [if_neg h1]
      by_cases h2 : isInArray selected trackNum = true
      · rw [if_pos h2]
        exact ledgerLe_trans (hmono _ _ _) (ih (trackNum + 1) _ _)
      · rw [if_neg h2]
        exact ih (trackNum + 1) st calls

theorem ripTracks_ledger (f : Int → TrackData → RunState → RunState)
    (hmono : ∀ n t s, ledgerLe s.okDict (f n t s).okDict) (fl : Flags)
    (albumId urlArg_i input : String) (tracks : List TrackData) (st : RunState) :
    ledgerLe st.okDict (ripTracks f fl albumId urlArg_i input tracks st).1.okDict := by
  unfold ripTracks
  split
  · split
    · exact ledgerLe_refl _
    · split
      · exact hmono _ _ _
      · exact ledgerLe_refl _
  · exact ripTrackLoop_ledger f hmono albumId _ tracks 1 st []

theorem rip_ledger (lib : GoLib) (cfg : ConfigSet) (fl : Flags) (env : RipEnv)
    (albumId mediaUserToken urlArg_i : String) (st : RunState) :
    ledgerLe st.okDict (rip lib cfg fl env albumId mediaUserToken urlArg_i st).st.okDict := by
  unfold rip
  dsimp only
  repeat' split
  all_goals first
    | exact ledgerLe_refl _
    | (apply ripTracks_ledger; intro n t s; exact downloadTrack_ledger _ _ _ _ _ _ _ _ _ _ _ s)

theorem getUrlSong_ledger (env : MainEnv) (songUrl : String) (m : MainState) :
    (getUrlSong env songUrl m).2.st.okDict = m.st.okDict := by
  unfold getUrlSong
  split <;> rfl

theorem processMv_ledger (cfg : ConfigSet) (env : MainEnv) (urlRaw : String) (m : MainState) :
    (processMv cfg env urlRaw m).st.okDict = m.st.okDict := by
  unfold processMv
  repeat' split
  all_goals rfl

theorem processAlbum_ledger (lib : GoLib) (cfg : ConfigSet) (env : MainEnv) (urlRaw : String)
    (m : MainState) :
    ledgerLe m.st.okDict (processAlbum lib cfg env urlRaw m).st.okDict := by
  unfold processAlbum
  repeat' split
  all_goals first
    | exact ledgerLe_refl _
    | exact rip_ledger _ _ _ _ _ _ _ _

theorem processTarget_ledger (lib : GoLib) (cfg : ConfigSet) (env : MainEnv) (urlRaw : String)
    (m : MainState) :
    ledgerLe m.st.okDict (processTarget lib cfg env urlRaw m).st.okDict := by
  have hsong : (processSong env urlRaw m).2.st.okDict = m.st.okDict :=
    getUrlSong_ledger env urlRaw m
  unfold processTarget
  split
  · rw [processMv_ledger]
    exact ledgerLe_refl _
  · split
    · split
      · rw [hsong]
        exact ledgerLe_refl _
      · have h := processAlbum_ledger lib cfg env (processSong env urlRaw m).1
          (processSong env urlRaw m).2
        rwa [hsong] at h
    · exact processAlbum_ledger lib cfg env urlRaw m

theorem runPass_ledger (lib : GoLib) (cfg : ConfigSet) (env : MainEnv) (targets : List String)
    (m : MainState) : ledgerLe m.st.okDict (runPass lib cfg env targets m).st.okDict := by
  induction targets generalizing m with
  | nil => exact ledgerLe_refl _
  | cons urlRaw rest ih =>
    unfold runPass
    split
    · exact processTarget_ledger lib cfg env urlRaw m
    · exact ledgerLe_trans (processTarget_ledger lib cfg env urlRaw m) (ih _)

theorem endOfPass_some {st st1 : RunState} (h : endOfPass st = some st1) :
    st.counter.Error ≠ 0 ∧ st1.counter = {} ∧ st1.okDict = st.okDict := by
  unfold endOfPass at h
  split at h
  · cases h
  · rename_i hne
    cases h
    exact ⟨hne, rfl, rfl⟩

theorem batchLoop_ledger (lib : GoLib) (cfg : ConfigSet) (envs : Nat → MainEnv)
    (targets : List String) (fuel pass : Nat) (m m1 : MainState)
    (h : batchLoop lib cfg envs targets fuel pass m = some m1) :
    ledgerLe m.st.okDict m1.st.okDict := by
  induction fuel generalizing pass m with
  | zero => simp [batchLoop] at h
  | succ fuel ih =>
    unfold batchLoop at h
    split at h
    · cases h
      exact runPass_ledger lib cfg (envs pass) targets m
    · split at h
      · cases h
        exact runPass_ledger lib cfg (envs pass) targets m
      · rename_i st hst
        refine ledgerLe_trans (runPass_ledger lib cfg (envs pass) targets m) ?_
        have := ih (pass + 1) _ h
        simpa [(endOfPass_some hst).2.2] using this

/-- C11: the ledger `okDict` only grows. Every (entity id, ordinal) pair in the ledger
before a call of `downloadTrack`, a call of `rip`, the music-video branch of `main` with
its call of `mvDownloader` (which has no access to the ledger), a whole iteration of the
loop of `main`, the counter reset at the end of a pass, or a whole run of the batch loop,
is in the ledger after it. -/
theorem okDict_grows_monotonically (lib : GoLib) (cfg : ConfigSet) :
    (∀ (fl : Flags) (env : TrackEnv) (trackNum trackTotal : Int) (metadata : AutoGenerated)
      (track : TrackData) (albumId mediaUserToken Codec : String) (st : RunState),
      ledgerLe st.okDict (downloadTrack lib cfg fl env trackNum trackTotal metadata track
        albumId mediaUserToken Codec st).okDict) ∧
    (∀ (fl : Flags) (env : RipEnv) (albumId mediaUserToken urlArg_i : String) (st : RunState),
      ledgerLe st.okDict (rip lib cfg fl env albumId mediaUserToken urlArg_i st).st.okDict) ∧
    (∀ (env : MainEnv) (urlRaw : String) (m : MainState),
      (processMv cfg env urlRaw m).st.okDict = m.st.okDict) ∧
    (∀ (env : MainEnv) (urlRaw : String) (m : MainState),
      ledgerLe m.st.okDict (processTarget lib cfg env urlRaw m).st.okDict) ∧
    (∀ st st1 : RunState, endOfPass st = some st1 → st1.okDict = st.okDict) ∧
    (∀ (envs : Nat → MainEnv) (targets : List String) (fuel pass : Nat) (m m1 : MainState),
      batchLoop lib cfg envs targets fuel pass m = some m1 →
      ledgerLe m.st.okDict m1.st.okDict) :=
  ⟨fun fl env trackNum trackTotal metadata track albumId mediaUserToken Codec st =>
      downloadTrack_ledger lib cfg fl env trackNum trackTotal metadata track albumId
        mediaUserToken Codec st,
    fun fl env albumId mediaUserToken urlArg_i st =>
      rip_ledger lib cfg fl env albumId mediaUserToken urlArg_i st,
    fun env urlRaw m => processMv_ledger cfg env urlRaw m,
    fun env urlRaw m => processTarget_ledger lib cfg env urlRaw m,
    fun _ _ h => (endOfPass_some h).2.2,
    fun envs targets fuel pass m m1 h => batchLoop_ledger lib cfg envs targets fuel pass m m1 h⟩

/-- C11 witness: a run of two passes over one music video, started with a ledger entry,
ends with that entry still in the ledger. -/
theorem okDict_grows_monotonically_witness :
    ledgerLe errorState.okDict
      { st := { counter := { Total := 1, Success := 1 }, okDict := [("a1", [1])] },
        log := [.mvDownloader "1553279848" "us", .mvDownloader "1553279848" "us"] :
        MainState }.st.okDict :=
  (okDict_grows_monotonically sampleLib tokenConfig).2.2.2.2.2 retryEnvs mvTargets 2 0
    { st := errorState } _ (by decide)

/-- C12: at the end of a batch pass that was not cut short, the loop of `main` stops if
and only if the Error counter is 0, whatever the other counters hold; when it does not
stop, the next pass runs over the same target list from a state in which all five
counters are 0 and the ledger, the flags and the call history are as the pass left
them. -/
theorem batch_loop_stops_iff_no_error (lib : GoLib) (cfg : ConfigSet) (envs : Nat → MainEnv)
    (targets : List String) (fuel pass : Nat) (m : MainState)
    (hrun : (runPass lib cfg (envs pass) targets m).crashed = false) :
    (endOfPass (runPass lib cfg (envs pass) targets m).st = none ↔
      (runPass lib cfg (envs pass) targets m).st.counter.Error = 0) ∧
    ((runPass lib cfg (envs pass) targets m).st.counter.Error = 0 →
      batchLoop lib cfg envs targets (fuel + 1) pass m =
        some (runPass lib cfg (envs pass) targets m)) ∧
    ((runPass lib cfg (envs pass) targets m).st.counter.Error ≠ 0 →
      batchLoop lib cfg envs targets (fuel + 1) pass m =
        batchLoop lib cfg envs targets fuel (pass + 1)
          { runPass lib cfg (envs pass) targets m with
            st := { counter := { Unavailable := 0, NotSong := 0, Error := 0, Success := 0,
                                 Total := 0 },
                    okDict := (runPass lib cfg (envs pass) targets m).st.okDict } }) := by
  refine ⟨?_, ?_, ?_⟩
  · unfold endOfPass
    split <;> simp_all
  · intro h0
    rw [batchLoop, if_neg (by simp [hrun])]
    simp [endOfPass, h0]
  · intro hne
    rw [batchLoop, if_neg (by simp [hrun])]
    simp [endOfPass, hne]

/-- C12 witness: a first pass that ends with one error is followed by a second pass over
the same targets, started from zero counters and the same ledger. -/
theorem batch_loop_stops_iff_no_error_witness :
    batchLoop sampleLib tokenConfig retryEnvs mvTargets (1 + 1) 0 { st := errorState } =
      batchLoop sampleLib tokenConfig retryEnvs mvTargets 1 (0 + 1)
        { runPass sampleLib tokenConfig (retryEnvs 0) mvTargets { st := errorState } with
          st := { counter := { Unavailable := 0, NotSong := 0, Error := 0, Success := 0,
                               Total := 0 },
                  okDict := (runPass sampleLib tokenConfig (retryEnvs 0) mvTargets
                    { st := errorState }).st.okDict } } :=
  (batch_loop_stops_iff_no_error sampleLib tokenConfig retryEnvs mvTargets 1 0
    { st := errorState } (by decide)).2.2 (by decide)

/-! ## The Atmos pre-scan of `rip` -/

theorem checkAlbumLoop_prefix (probe : TrackData → Option (List Variant))
    (tracks : List TrackData) : (checkAlbumLoop probe tracks).2 <+: tracks := by
  induction tracks with
  | nil => simp [checkAlbumLoop]
  | cons track rest ih =>
    unfold checkAlbumLoop
    split
    · exact (List.prefix_cons_inj track).mpr ih
    · split
      · exact (List.prefix_cons_inj track).mpr (List.nil_prefix)
      · exact (List.prefix_cons_inj track).mpr ih

theorem checkAlbumLoop_true_iff (probe : TrackData → Option (List Variant))
    (tracks : List TrackData) :
    (checkAlbumLoop probe tracks).1 = true ↔
      ∃ track ∈ tracks, ∃ variants ∈ probe track, trackHasAtmos variants = true := by
  induction tracks with
  | nil => simp [checkAlbumLoop]
  | cons track rest ih =>
    unfold checkAlbumLoop
    cases hp : probe track with
    | none => simp [ih, hp]
    | some variants =>
      by_cases ha : trackHasAtmos variants = true
      · simp [hp, ha]
      · simp [ih, hp, ha]

theorem checkAlbumHasAtmos_cons (probe : TrackData → Option (List Variant))
    (metadata : AutoGenerated) (album : MetaData) (rest : List MetaData)
    (hdata : metadata.Data = album :: rest) (hty : album.Type_ ≠ "playlists") :
    checkAlbumHasAtmos probe metadata =
      checkAlbumLoop probe
        (album.Relationships.Tracks.take (min 3 album.Relationships.Tracks.length)) := by
  unfold checkAlbumHasAtmos
  simp only [hdata]
  rw [if_neg hty]
  by_cases h : album.Relationships.Tracks.length < 3
  · simp only [h, if_true]
    rw [Nat.min_eq_right (Nat.le_of_lt h)]
  · simp only [h, if_false]
    rw [Nat.min_eq_left (Nat.le_of_not_lt h)]

/-- C13 (counterexample): with atmos-only and cover-art-only both enabled, `rip` on an
album whose first three tracks have no Atmos variant takes the cover-art branch: Success
is counted, Unavailable is not. -/
theorem rip_atmos_prescan_counterexample :
    (checkAlbumHasAtmos lateAtmosProbe lateAtmosAlbum).1 = false ∧
    (rip sampleLib {} { atmos_only := true, cover_art_only := true }
      { getMeta := some lateAtmosAlbum, probe := lateAtmosProbe } "1440857781" longToken ""
      {}).st.counter = { Success := 1, Unavailable := 0 } := by
  decide

/-- C13 (amended): with atmos-only enabled and cover-art-only disabled, for every album
whose metadata was fetched, the pre-scan probes only a prefix of the tracks at positions
1..min(3, n); if none of the tracks at those positions has a manifest with a variant of
codec `ec-3` whose label contains `atmos`, `rip` adds one to Unavailable, changes nothing
else in the counters or the ledger, and calls `downloadTrack` for no track, whatever the
remaining tracks contain. -/
theorem rip_atmos_prescan (lib : GoLib) (cfg : ConfigSet) (fl : Flags) (env : RipEnv)
    (albumId mediaUserToken urlArg_i : String) (st : RunState) (metadata : AutoGenerated)
    (album : MetaData) (rest : List MetaData)
    (hatmos : fl.atmos_only = true) (hcov : fl.cover_art_only = false)
    (hmeta : env.getMeta = some metadata) (hdata : metadata.Data = album :: rest)
    (hty : album.Type_ ≠ "playlists") :
    (checkAlbumHasAtmos env.probe metadata).2 <+:
      album.Relationships.Tracks.take (min 3 album.Relationships.Tracks.length) ∧
    ((∀ track ∈ album.Relationships.Tracks.take (min 3 album.Relationships.Tracks.length),
        ∀ variants ∈ env.probe track, trackHasAtmos variants = false) →
      (rip lib cfg fl env albumId mediaUserToken urlArg_i st).st =
        { counter := { st.counter with Unavailable := st.counter.Unavailable + 1 },
          okDict := st.okDict } ∧
      (rip lib cfg fl env albumId mediaUserToken urlArg_i st).calls = [] ∧
      (rip lib cfg fl env albumId mediaUserToken urlArg_i st).panicked = false) := by
  have hcheck := checkAlbumHasAtmos_cons env.probe metadata album rest hdata hty
  constructor
  · rw [hcheck]
    exact checkAlbumLoop_prefix _ _
  · intro hnone
    have hfalse : (checkAlbumHasAtmos env.probe metadata).1 = false := by
      rw [hcheck]
      cases hb : (checkAlbumLoop env.probe
          (album.Relationships.Tracks.take (min 3 album.Relationships.Tracks.length))).1 with
      | false => rfl
      | true =>
        obtain ⟨track, ht, variants, hv, ha⟩ := (checkAlbumLoop_true_iff _ _).mp hb
        rw [hnone track ht variants hv] at ha
        cases ha
    unfold rip
    simp only [hmeta]
    rw [if_neg (by simp [hcov]), if_pos ⟨hatmos, hfalse⟩]
    exact ⟨rfl, rfl, rfl⟩

/-- C13 witness: an album of four tracks whose only Atmos track is the fourth is skipped
as Unavailable with no call of `downloadTrack`. -/
theorem rip_atmos_prescan_witness :
    (rip sampleLib {} { atmos_only := true }
      { getMeta := some lateAtmosAlbum, probe := lateAtmosProbe } "1440857781" longToken ""
      {}).st = { counter := { Unavailable := 1 }, okDict := [] } ∧
    (rip sampleLib {} { atmos_only := true }
      { getMeta := some lateAtmosAlbum, probe := lateAtmosProbe } "1440857781" longToken ""
      {}).calls = [] ∧
    (rip sampleLib {} { atmos_only := true }
      { getMeta := some lateAtmosAlbum, probe := lateAtmosProbe } "1440857781" longToken ""
      {}).panicked = false :=
  (rip_atmos_prescan sampleLib {} { atmos_only := true }
    { getMeta := some lateAtmosAlbum, probe := lateAtmosProbe } "1440857781" longToken "" {}
    lateAtmosAlbum
    { ID := "1440857781", Type_ := "albums",
      Relationships := { Tracks := [{ sampleTrack with ID := "t1" },
        { sampleTrack with ID := "t2" }, { sampleTrack with ID := "t3" },
        { sampleTrack with ID := "t4" }] } } []
    rfl rfl rfl rfl (by decide)).2 (by decide)

/-! ## Malformed targets in the batch loop -/

theorem getUrlSong_log (env : MainEnv) (songUrl : String) (m : MainState) :
    (getUrlSong env songUrl m).2.log =
      m.log ++ [.getInfoFromAdam (checkUrlSong songUrl).2 (checkUrlSong songUrl).1] := by
  unfold getUrlSong
  split <;> rfl

theorem processAlbum_log (lib : GoLib) (cfg : ConfigSet) (env : MainEnv) (urlRaw : String)
    (m : MainState) : ∃ calls, (processAlbum lib cfg env urlRaw m).log = m.log ++ calls := by
  unfold processAlbum
  repeat' split
  · exact ⟨[], by simp⟩
  · exact ⟨[], by simp⟩
  · exact ⟨_, rfl⟩

/-- C17 (divergence): a target that matches none of the five URL shapes is skipped with
no call and no change of state when it contains neither `/song/` nor `/music-video/`.
When it contains `/song/`, the loop first calls `getInfoFromAdam` with an empty id and an
empty storefront (inside `getUrlSong`). When it contains `/music-video/` and music videos
are not skipped, the loop calls `mvDownloader` with an empty id and counts the target. -/
theorem processTarget_malformed_target (lib : GoLib) (cfg : ConfigSet) (env : MainEnv)
    (urlRaw : String) (m : MainState) (hshape : matchesNoShape urlRaw) :
    (Contains urlRaw "/music-video/" = false → Contains urlRaw "/song/" = false →
      processTarget lib cfg env urlRaw m = m) ∧
    (Contains urlRaw "/music-video/" = false → Contains urlRaw "/song/" = true →
      ∃ calls, (processTarget lib cfg env urlRaw m).log =
        m.log ++ NetCall.getInfoFromAdam "" "" :: calls) ∧
    (Contains urlRaw "/music-video/" = true → m.fl.debug_mode = false →
      m.fl.skip_mv = false → 50 < cfg.MediaUserToken.utf8ByteSize →
      env.mp4decryptFound = true →
      (processTarget lib cfg env urlRaw m).log = m.log ++ [NetCall.mvDownloader "" ""] ∧
      (processTarget lib cfg env urlRaw m).st.counter.Total = m.st.counter.Total + 1) := by
  obtain ⟨halbum, hmvs, hsongs, hpl, -⟩ := hshape
  refine ⟨?_, ?_, ?_⟩
  · intro hmv hsong
    unfold processTarget
    rw [if_neg (by simp [hmv]), if_neg (by simp [hsong])]
    unfold processAlbum
    have hid : (targetIds urlRaw).2 = "" := by
      unfold targetIds
      split
      · rw [hpl]
      · rw [halbum]
    rw [if_pos hid]
  · intro hmv hsong
    unfold processTarget
    rw [if_neg (by simp [hmv]), if_pos hsong]
    have hlog : (processSong env urlRaw m).2.log = m.log ++ [.getInfoFromAdam "" ""] := by
      have h := getUrlSong_log env urlRaw m
      rw [hsongs] at h
      exact h
    split
    · exact ⟨[], hlog⟩
    · obtain ⟨calls, hc⟩ := processAlbum_log lib cfg env (processSong env urlRaw m).1
        (processSong env urlRaw m).2
      exact ⟨calls, by rw [hc, hlog]; simp⟩
  · intro hmv hdebug hskip htok hdec
    unfold processTarget
    rw [if_pos hmv]
    unfold processMv
    rw [if_neg (by simp [hdebug]), if_neg (by simp [hskip]), if_neg (by omega),
      if_neg (by simp [hdec]), hmvs]
    split <;> exact ⟨rfl, rfl⟩

/-- C17 witness: the malformed target `https://example.com/song/abc` matches no shape, yet
the loop calls `getInfoFromAdam` for it. -/
theorem processTarget_malformed_target_witness :
    ∃ calls, (processTarget sampleLib tokenConfig {} "https://example.com/song/abc" {}).log =
      ([] : List NetCall) ++ NetCall.getInfoFromAdam "" "" :: calls :=
  (processTarget_malformed_target sampleLib tokenConfig {} "https://example.com/song/abc" {}
    (by decide)).2.1 (by decide) (by decide)

/-! ## Forbidden characters in track file names -/

theorem utf8ByteSize_mk (l : List Char) :
    (String.mk l).utf8ByteSize = (l.map Char.utf8Size).sum := by
  induction l with
  | nil => rfl
  | cons c cs ih =>
    simp only [String.utf8ByteSize, String.utf8ByteSize.go, List.map_cons, List.sum_cons] at ih ⊢
    omega

theorem forbiddenChar_utf8Size {c : Char} (h : forbiddenChar c = true) : c.utf8Size = 1 := by
  have hle : c.toNat ≤ 127 := by
    simp only [forbiddenChar, Bool.or_eq_true, decide_eq_true_eq] at h
    rcases h with ((((((((h | h) | h) | h) | h) | h) | h) | h) | h)
    all_goals first
      | (subst h; decide)
      | omega
  have : c.val ≤ 127 := by
    simp only [Char.toNat] at hle
    exact UInt32.le_def.mpr (by simpa using hle)
  simp [Char.utf8Size, this]

theorem forbiddenNamesReplaceAll_toList (s : String) :
    (forbiddenNamesReplaceAll s).toList =
      s.toList.map (fun c => if forbiddenChar c then '_' else c) := rfl

theorem forbiddenNamesReplaceAll_clean (s : String) :
    ∀ c ∈ (forbiddenNamesReplaceAll s).toList, forbiddenChar c = false := by
  intro c hc
  rw [forbiddenNamesReplaceAll_toList, List.mem_map] at hc
  obtain ⟨d, -, hd⟩ := hc
  by_cases hf : forbiddenChar d = true
  · rw [if_pos hf] at hd
    subst hd
    decide
  · rw [if_neg hf] at hd
    subst hd
    simpa using hf

theorem forbiddenNamesReplaceAll_utf8ByteSize (s : String) :
    (forbiddenNamesReplaceAll s).utf8ByteSize = s.utf8ByteSize := by
  have hs : s = String.mk s.toList := rfl
  rw [forbiddenNamesReplaceAll]
  conv_rhs => rw [hs]
  rw [utf8ByteSize_mk, utf8ByteSize_mk, List.map_map]
  congr 1
  apply List.map_congr_left
  intro c _
  by_cases hf : forbiddenChar c = true
  · simp [hf, forbiddenChar_utf8Size hf]
    decide
  · simp [hf]

/-- C22: the file name `downloadTrack` uses is the rendered template (or the rendered
fallback template) with each of the nine characters of `forbiddenNames` replaced by one
underscore and every other character kept in place, followed by `.m4a`; it contains none
of the nine characters, and the replacement changes neither the number of characters nor
the number of bytes. -/
theorem filename_has_no_forbidden_character (cfg : ConfigSet) (track : TrackData)
    (trackNum : Int) (Quality Codec name : String)
    (h : filename cfg track trackNum Quality Codec = some name) :
    (∀ c ∈ name.toList, forbiddenChar c = false) ∧
    ∃ rendered : String,
      (songName cfg track trackNum Quality Codec = some rendered ∨
        rendered = songNameFallback cfg track trackNum) ∧
      name = forbiddenNamesReplaceAll rendered ++ ".m4a" ∧
      (forbiddenNamesReplaceAll rendered).length = rendered.length ∧
      (forbiddenNamesReplaceAll rendered).utf8ByteSize = rendered.utf8ByteSize ∧
      ∀ (i : Nat) (c : Char), rendered.toList.get? i = some c →
        (forbiddenNamesReplaceAll rendered).toList.get? i =
          some (if forbiddenChar c = true then '_' else c) := by
  have hshape : ∀ rendered : String, name = forbiddenNamesReplaceAll rendered ++ ".m4a" →
      (∀ c ∈ name.toList, forbiddenChar c = false) ∧
      (forbiddenNamesReplaceAll rendered).length = rendered.length ∧
      (forbiddenNamesReplaceAll rendered).utf8ByteSize = rendered.utf8ByteSize ∧
      ∀ (i : Nat) (c : Char), rendered.toList.get? i = some c →
        (forbiddenNamesReplaceAll rendered).toList.get? i =
          some (if forbiddenChar c = true then '_' else c) := by
    intro rendered hname
    refine ⟨?_, ?_, forbiddenNamesReplaceAll_utf8ByteSize rendered, ?_⟩
    · intro c hc
      subst hname
      rw [String.toList, String.data_append, List.mem_append] at hc
      rcases hc with hc | hc
      · exact forbiddenNamesReplaceAll_clean rendered c hc
      · have : c ∈ ['.', 'm', '4', 'a'] := hc
        simp only [List.mem_cons, List.mem_singleton, List.not_mem_nil, or_false] at this
        rcases this with h | h | h | h <;> subst h <;> decide
    · show (rendered.toList.map _).length = rendered.toList.length
      exact List.length_map _ _
    · intro i c hi
      rw [forbiddenNamesReplaceAll_toList]
      simp only [List.get?_eq_getElem?] at hi ⊢
      rw [List.getElem?_map, hi]
      rfl
  unfold filename at h
  cases hs : songName cfg track trackNum Quality Codec with
  | none => rw [hs] at h; cases h
  | some rendered =>
    rw [hs] at h
    simp only at h
    by_cases hlen : (forbiddenNamesReplaceAll rendered ++ ".m4a").utf8ByteSize > maxNameLength
    · rw [if_pos hlen] at h
      simp only [Option.some.injEq] at h
      have hname : name = forbiddenNamesReplaceAll (songNameFallback cfg track trackNum) ++
          ".m4a" := h.symm
      obtain ⟨h1, h2, h3, h4⟩ := hshape _ hname
      exact ⟨h1, _, Or.inr rfl, hname, h2, h3, h4⟩
    · rw [if_neg hlen] at h
      simp only [Option.some.injEq] at h
      obtain ⟨h1, h2, h3, h4⟩ := hshape rendered h.symm
      exact ⟨h1, rendered, Or.inl rfl, h.symm, h2, h3, h4⟩

/-- C22 witness: a track whose title holds slash, colon, question mark and star. -/
theorem filename_has_no_forbidden_character_witness :
    filename {} { sampleTrack with Attributes := { Name := "AC/DC: Who Made Who? *Live*" } }
      1 "" "ALAC" = some "01. AC_DC_ Who Made Who_ _Live_.m4a" ∧
    "01. AC_DC_ Who Made Who_ _Live_.m4a".toList.all (fun c => !forbiddenChar c) = true :=
  ⟨by decide,
    List.all_eq_true.mpr (fun c hc => by
      simp [(filename_has_no_forbidden_character {}
        { sampleTrack with Attributes := { Name := "AC/DC: Who Made Who? *Live*" } } 1 ""
        "ALAC" "01. AC_DC_ Who Made Who_ _Live_.m4a" (by decide)).1 c hc])⟩

/-! ## The counters across one call of `downloadTrack` -/

/-- C25: every call of `downloadTrack` that returns adds exactly one to Total and exactly
one to exactly one of Success, Error, Unavailable and NotSong, so the equation
`Total = Success + Error + Unavailable + NotSong` is kept by the call. -/
theorem downloadTrack_counts_once (lib : GoLib) (cfg : ConfigSet) (fl : Flags) (env : TrackEnv)
    (trackNum trackTotal : Int) (metadata : AutoGenerated) (track : TrackData)
    (albumId mediaUserToken Codec : String) (st : RunState)
    (hret : (downloadTrackEnd lib cfg fl env trackNum trackTotal metadata track albumId
      mediaUserToken Codec).1 ≠ .panic) :
    (downloadTrack lib cfg fl env trackNum trackTotal metadata track albumId
      mediaUserToken Codec st).counter.Total = st.counter.Total + 1 ∧
    ((downloadTrack lib cfg fl env trackNum trackTotal metadata track albumId
        mediaUserToken Codec st).counter =
        { st.counter with Total := st.counter.Total + 1,
                          Success := st.counter.Success + 1 } ∨
      (downloadTrack lib cfg fl env trackNum trackTotal metadata track albumId
        mediaUserToken Codec st).counter =
        { st.counter with Total := st.counter.Total + 1, Error := st.counter.Error + 1 } ∨
      (downloadTrack lib cfg fl env trackNum trackTotal metadata track albumId
        mediaUserToken Codec st).counter =
        { st.counter with Total := st.counter.Total + 1,
                          Unavailable := st.counter.Unavailable + 1 } ∨
      (downloadTrack lib cfg fl env trackNum trackTotal metadata track albumId
        mediaUserToken Codec st).counter =
        { st.counter with Total := st.counter.Total + 1,
                          NotSong := st.counter.NotSong + 1 }) ∧
    (st.counter.Total =
        st.counter.Success + st.counter.Error + st.counter.Unavailable + st.counter.NotSong →
      (downloadTrack lib cfg fl env trackNum trackTotal metadata track albumId
        mediaUserToken Codec st).counter.Total =
        (downloadTrack lib cfg fl env trackNum trackTotal metadata track albumId
          mediaUserToken Codec st).counter.Success +
        (downloadTrack lib cfg fl env trackNum trackTotal metadata track albumId
          mediaUserToken Codec st).counter.Error +
        (downloadTrack lib cfg fl env trackNum trackTotal metadata track albumId
          mediaUserToken Codec st).counter.Unavailable +
        (downloadTrack lib cfg fl env trackNum trackTotal metadata track albumId
          mediaUserToken Codec st).counter.NotSong) := by
  unfold downloadTrack
  cases he : (downloadTrackEnd lib cfg fl env trackNum trackTotal metadata track albumId
      mediaUserToken Codec).1 with
  | panic => exact absurd he hret
  | success =>
    refine ⟨rfl, Or.inl rfl, ?_⟩
    intro h
    simp only [applyEnd, incSuccess, incTotal]
    omega
  | successLedger =>
    refine ⟨rfl, Or.inl rfl, ?_⟩
    intro h
    simp only [applyEnd, ledgerAdd, incSuccess, incTotal]
    omega
  | error =>
    refine ⟨rfl, Or.inr (Or.inl rfl), ?_⟩
    intro h
    simp only [applyEnd, incError, incTotal]
    omega
  | unavailable =>
    refine ⟨rfl, Or.inr (Or.inr (Or.inl rfl)), ?_⟩
    intro h
    simp only [applyEnd, incUnavailable, incTotal]
    omega
  | notSong =>
    refine ⟨rfl, Or.inr (Or.inr (Or.inr rfl)), ?_⟩
    intro h
    simp only [applyEnd, incNotSong, incTotal]
    omega

set_option maxRecDepth 100000 in
/-- C25 witness: a track fetched and tagged without error adds one to Total and one to
Success. -/
theorem downloadTrack_counts_once_witness :
    (downloadTrack sampleLib {} {} { streamMaster := .ok scenarioManifestRateFirst } 1 1
      sampleAlbum sampleTrack "1440857781" longToken "ALAC" {}).counter.Total = 0 + 1 :=
  (downloadTrack_counts_once sampleLib {} {} { streamMaster := .ok scenarioManifestRateFirst }
    1 1 sampleAlbum sampleTrack "1440857781" longToken "ALAC" {} (by decide)).1

/-! ## Index accesses of the selection loop -/

/-- C28 (divergence): in Atmos mode every access to the split label is in bounds (the loop
reads only the last field, and `strings.Split` never returns an empty list), so the scan
never panics there; but in lossless mode a variant of codec `alac` whose label has no `-`
makes `split[length-2]` an access at index -1, and in lossy mode a matching variant whose
label has fewer than three fields makes `split[2]` out of range: selection ends in a
panic. -/
theorem scanVariants_label_index_panics :
    (∀ (parseRef : String → Option String) (cfg : ConfigSet) (fl : Flags) (l : List Variant),
      scanVariants parseRef cfg { fl with dl_atmos := true } l ≠ .panicked) ∧
    index? (Split "" '-') (((Split "" '-').length : Int) - 2) = none ∧
    extractMedia stableSortSlice sampleParseRef {} {} (.ok unlabelledAlacManifest) false =
      .panic ∧
    index? (Split "aac-lc" '-') 2 = none ∧
    extractMedia stableSortSlice sampleParseRef {} { dl_aac := true } (.ok shortAacManifest)
      false = .panic := by
  refine ⟨?_, by decide, by decide, by decide, by decide⟩
  intro parseRef cfg fl l
  induction l with
  | nil => simp [scanVariants]
  | cons v rest ih =>
    rw [scanVariants]
    simp only [if_true]
    have hlast := index?_last_Split v.Audio '-'
    repeat' split
    all_goals first
      | exact ih
      | (intro hc; cases hc; done)
      | (obtain ⟨d, hd⟩ := hlast; simp_all)

/-! ## Catalogue ids in the tag record -/

theorem int32_of_lt (n : Nat) (h : n < 2 ^ 31) : int32 (n : Int) = n := by
  unfold int32
  omega

theorem int32_of_ge (n : Nat) (h1 : 2 ^ 31 ≤ n) (h2 : n < 2 ^ 32) :
    int32 (n : Int) = (n : Int) - 2 ^ 32 := by
  unfold int32
  omega

theorem ParseUint32_lt {s : String} {n : Nat} (h : ParseUint32 s = some n) : n < 2 ^ 32 := by
  unfold ParseUint32 at h
  split at h
  · cases h
  · split at h
    · split at h
      · rename_i hlt
        simp only [Option.some.injEq] at h
        omega
      · cases h
    · cases h

theorem albumFields_ids {cfg : ConfigSet} {album : MetaData} {track : TrackData}
    {trackNum trackTotal : Int} {t2 t : MP4Tags}
    (h : albumFields cfg album track trackNum trackTotal t2 = some t) :
    t.ItunesAlbumID = t2.ItunesAlbumID ∧ t.ItunesArtistID = t2.ItunesArtistID := by
  unfold albumFields at h
  repeat' split at h
  all_goals first
    | cases h; done
    | (simp only [Option.some.injEq] at h; subst h; exact ⟨rfl, rfl⟩)

theorem artistIDField_albumID {album : MetaData} {track : TrackData} {t1 t2 : MP4Tags}
    (h : artistIDField album track t1 = some t2) : t2.ItunesAlbumID = t1.ItunesAlbumID := by
  unfold artistIDField at h
  repeat' split at h
  all_goals first
    | cases h; done
    | (simp only [Option.some.injEq] at h; subst h; rfl)

/-- C29 (divergence): for a non-playlist album whose id the 32-bit unsigned parse accepts
with value `n`, the `ItunesAlbumID` written is `int32(n)`: it equals `n` when `n < 2^31`,
but for `2^31 <= n < 2^32` it is `n - 2^32`, a negative number. -/
theorem writeMP4Tags_album_id_wraps (cfg : ConfigSet) (lrc : String)
    (metadata : AutoGenerated) (trackNum trackTotal : Int) (ioErr : Bool) (t : MP4Tags)
    (album : MetaData) (rest : List MetaData) (n : Nat)
    (hdata : metadata.Data = album :: rest) (hpl : Contains album.ID "pl." = false)
    (hid : ParseUint32 album.ID = some n)
    (h : writeMP4Tags cfg lrc metadata trackNum trackTotal ioErr = .written t) :
    t.ItunesAlbumID = int32 (n : Int) ∧
    (n < 2 ^ 31 → t.ItunesAlbumID = (n : Int)) ∧
    (2 ^ 31 ≤ n → t.ItunesAlbumID = (n : Int) - 2 ^ 32 ∧ t.ItunesAlbumID < 0) := by
  have hlt := ParseUint32_lt hid
  have hval : t.ItunesAlbumID = int32 (n : Int) := by
    unfold writeMP4Tags at h
    rw [hdata] at h
    simp only at h
    cases h1 : elemAt? album.Relationships.Tracks (trackNum - 1) with
    | none => rw [h1] at h; cases h
    | some track =>
      rw [h1] at h
      simp only at h
      cases h2 : track.Attributes.GenreNames with
      | nil => rw [h2] at h; cases h
      | cons genre gs =>
        rw [h2] at h
        simp only at h
        have h3 : albumIDField album
            { Title := track.Attributes.Name, Artist := track.Attributes.ArtistName,
              CustomGenre := genre, Lyrics := lrc } =
            some { Title := track.Attributes.Name, Artist := track.Attributes.ArtistName,
                   CustomGenre := genre, Lyrics := lrc, ItunesAlbumID := int32 (n : Int) } := by
          simp [albumIDField, hpl, hid]
        rw [h3] at h
        simp only at h
        cases h4 : artistIDField album track
            { Title := track.Attributes.Name, Artist := track.Attributes.ArtistName,
              CustomGenre := genre, Lyrics := lrc, ItunesAlbumID := int32 (n : Int) } with
        | none => rw [h4] at h; cases h
        | some t2 =>
          rw [h4] at h
          simp only at h
          cases h5 : albumFields cfg album track trackNum trackTotal t2 with
          | none => rw [h5] at h; cases h
          | some t3 =>
            rw [h5] at h
            simp only at h
            cases ioErr with
            | true => simp at h
            | false =>
              simp only [Bool.false_eq_true, if_false, TagOutcome.written.injEq] at h
              subst h
              rw [(albumFields_ids h5).1, artistIDField_albumID h4]
  refine ⟨hval, ?_, ?_⟩
  · intro h31
    rw [hval, int32_of_lt n h31]
  · intro h31
    rw [hval, int32_of_ge n h31 hlt]
    exact ⟨rfl, by omega⟩

/-- C29 witness: the album id `3000000000` is written as `-1294967296`. -/
theorem writeMP4Tags_album_id_wraps_witness :
    ParseUint32 "3000000000" = some 3000000000 ∧
    ({ Title := "Bohemian Rhapsody", Artist := "Queen", CustomGenre := "Music",
       ItunesAlbumID := -1294967296, DiscNumber := 1, DiscTotal := 1, TrackNumber := 1,
       TrackTotal := 1, AlbumArtist := "Queen", AlbumArtistSort := "Queen" } :
      MP4Tags).ItunesAlbumID = ((3000000000 : Nat) : Int) - 2 ^ 32 :=
  ⟨by decide,
    ((writeMP4Tags_album_id_wraps {} "" highIdAlbum 1 1 false
      { Title := "Bohemian Rhapsody", Artist := "Queen", CustomGenre := "Music",
        ItunesAlbumID := -1294967296, DiscNumber := 1, DiscTotal := 1, TrackNumber := 1,
        TrackTotal := 1, AlbumArtist := "Queen", AlbumArtistSort := "Queen" }
      { ID := "3000000000", Type_ := "albums",
        Attributes := { Name := "A Night at the Opera", ArtistName := "Queen" },
        Relationships := { Tracks := [sampleTrack] } } [] 3000000000
      rfl (by decide) (by decide) (by decide)).2.2 (by decide)).1⟩

/-! ## Playlists under atmos-only -/

/-- C30 (counterexample): with atmos-only and cover-art-only both enabled, `rip` on a
playlist takes the cover-art branch: Success is counted, Unavailable is not. -/
theorem rip_atmos_only_playlist_counterexample :
    (rip sampleLib {} { atmos_only := true, cover_art_only := true }
      { getMeta := some samplePlaylist, probe := allAtmosProbe }
      "pl.f4d106fed2bd41149aaacabb233eb5eb" longToken "" {}).st.counter =
      { Success := 1, Unavailable := 0 } := by
  decide

/-- C30 (amended): with atmos-only enabled and cover-art-only disabled, for every playlist
entity whose metadata was fetched, `checkAlbumHasAtmos` answers false and probes no track,
so `rip` adds one to Unavailable, changes nothing else in the counters or the ledger, and
calls `downloadTrack` for no track, whatever the manifests of the tracks hold. -/
theorem rip_atmos_only_playlist (lib : GoLib) (cfg : ConfigSet) (fl : Flags) (env : RipEnv)
    (albumId mediaUserToken urlArg_i : String) (st : RunState) (metadata : AutoGenerated)
    (album : MetaData) (rest : List MetaData)
    (hatmos : fl.atmos_only = true) (hcov : fl.cover_art_only = false)
    (hmeta : env.getMeta = some metadata) (hdata : metadata.Data = album :: rest)
    (hty : album.Type_ = "playlists") :
    checkAlbumHasAtmos env.probe metadata = (false, []) ∧
    (rip lib cfg fl env albumId mediaUserToken urlArg_i st).st =
      { counter := { st.counter with Unavailable := st.counter.Unavailable + 1 },
        okDict := st.okDict } ∧
    (rip lib cfg fl env albumId mediaUserToken urlArg_i st).calls = [] ∧
    (rip lib cfg fl env albumId mediaUserToken urlArg_i st).panicked = false := by
  have hcheck : checkAlbumHasAtmos env.probe metadata = (false, []) := by
    unfold checkAlbumHasAtmos
    simp only [hdata]
    rw [if_pos hty]
  refine ⟨hcheck, ?_⟩
  unfold rip
  simp only [hmeta]
  rw [if_neg (by simp [hcov]), if_pos ⟨hatmos, by rw [hcheck]⟩]
  exact ⟨rfl, rfl, rfl⟩

/-- C30 witness: a playlist in which every track has an Atmos variant is skipped as
Unavailable. -/
theorem rip_atmos_only_playlist_witness :
    checkAlbumHasAtmos allAtmosProbe samplePlaylist = (false, []) ∧
    (rip sampleLib {} { atmos_only := true }
      { getMeta := some samplePlaylist, probe := allAtmosProbe }
      "pl.f4d106fed2bd41149aaacabb233eb5eb" longToken "" {}).st =
      { counter := { Unavailable := 1 }, okDict := [] } ∧
    (rip sampleLib {} { atmos_only := true }
      { getMeta := some samplePlaylist, probe := allAtmosProbe }
      "pl.f4d106fed2bd41149aaacabb233eb5eb" longToken "" {}).calls = [] ∧
    (rip sampleLib {} { atmos_only := true }
      { getMeta := some samplePlaylist, probe := allAtmosProbe }
      "pl.f4d106fed2bd41149aaacabb233eb5eb" longToken "" {}).panicked = false :=
  rip_atmos_only_playlist sampleLib {} { atmos_only := true }
    { getMeta := some samplePlaylist, probe := allAtmosProbe }
    "pl.f4d106fed2bd41149aaacabb233eb5eb" longToken "" {} samplePlaylist samplePlaylistData []
    rfl rfl rfl rfl rfl

/-! ## The counters at the end of a pass -/

set_option maxRecDepth 100000 in
/-- C26 (divergence): three paths count a result without counting the target in Total.
In cover-art-only mode a pass over one album ends with Success 1 and Total 0; in
atmos-only mode a pass over one album without Atmos ends with Unavailable 1 and Total 0;
a pass over one song URL whose lookup fails ends with NotSong 1 and Total 0. In each
case the sum of the four result counters exceeds Total. A regular pass over the same
album counts the track in Total. -/
theorem runPass_counts_without_total :
    (runPass sampleLib tokenConfig albumEnv albumTargets
      { fl := { cover_art_only := true } }).st.counter = { Success := 1, Total := 0 } ∧
    (runPass sampleLib tokenConfig albumEnv albumTargets
      { fl := { atmos_only := true } }).st.counter = { Unavailable := 1, Total := 0 } ∧
    (runPass sampleLib tokenConfig albumEnv songTargets {}).st.counter =
      { NotSong := 1, Total := 0 } ∧
    (runPass sampleLib tokenConfig albumEnv albumTargets {}).st.counter =
      { Unavailable := 1, Total := 1 } ∧
    ¬ ((runPass sampleLib tokenConfig albumEnv albumTargets
        { fl := { cover_art_only := true } }).st.counter.Success ≤
      (runPass sampleLib tokenConfig albumEnv albumTargets
        { fl := { cover_art_only := true } }).st.counter.Total) := by
  refine ⟨by decide, by decide, by decide, by decide, by decide⟩

/-! ## The single-track flag -/

theorem rip_dl_song (lib : GoLib) (cfg : ConfigSet) (fl : Flags) (env : RipEnv)
    (albumId mediaUserToken urlArg_i : String) (st : RunState) :
    (rip lib cfg fl env albumId mediaUserToken urlArg_i st).fl.dl_song = fl.dl_song := by
  unfold rip
  dsimp only
  repeat' split
  all_goals rfl

theorem processMv_fl (cfg : ConfigSet) (env : MainEnv) (urlRaw : String) (m : MainState) :
    (processMv cfg env urlRaw m).fl = m.fl := by
  unfold processMv
  repeat' split
  all_goals rfl

theorem processAlbum_dl_song (lib : GoLib) (cfg : ConfigSet) (env : MainEnv) (urlRaw : String)
    (m : MainState) : (processAlbum lib cfg env urlRaw m).fl.dl_song = m.fl.dl_song := by
  unfold processAlbum
  repeat' split
  all_goals first
    | rfl
    | exact rip_dl_song _ _ _ _ _ _ _ _

theorem processTarget_song_sets_dl_song (lib : GoLib) (cfg : ConfigSet) (env : MainEnv)
    (urlRaw : String) (m : MainState) (hmv : Contains urlRaw "/music-video/" = false)
    (hsong : Contains urlRaw "/song/" = true) :
    (processTarget lib cfg env urlRaw m).fl.dl_song = true := by
  unfold processTarget
  rw [if_neg (by simp [hmv]), if_pos hsong]
  split
  · rfl
  · rw [processAlbum_dl_song]
    rfl

theorem processTarget_keeps_dl_song (lib : GoLib) (cfg : ConfigSet) (env : MainEnv)
    (urlRaw : String) (m : MainState) (h : m.fl.dl_song = true) :
    (processTarget lib cfg env urlRaw m).fl.dl_song = true := by
  unfold processTarget
  split
  · rw [processMv_fl]
    exact h
  · split
    · split
      · rfl
      · rw [processAlbum_dl_song]
        rfl
    · rw [processAlbum_dl_song]
      exact h

theorem runPass_keeps_dl_song (lib : GoLib) (cfg : ConfigSet) (env : MainEnv)
    (targets : List String) (m : MainState) (h : m.fl.dl_song = true) :
    (runPass lib cfg env targets m).fl.dl_song = true := by
  induction targets generalizing m with
  | nil => exact h
  | cons urlRaw rest ih =>
    unfold runPass
    split
    · exact processTarget_keeps_dl_song lib cfg env urlRaw m h
    · exact ih _ (processTarget_keeps_dl_song lib cfg env urlRaw m h)

theorem batchLoop_keeps_dl_song (lib : GoLib) (cfg : ConfigSet) (envs : Nat → MainEnv)
    (targets : List String) (fuel pass : Nat) (m m1 : MainState) (h : m.fl.dl_song = true)
    (hrun : batchLoop lib cfg envs targets fuel pass m = some m1) : m1.fl.dl_song = true := by
  induction fuel generalizing pass m with
  | zero => simp [batchLoop] at hrun
  | succ fuel ih =>
    unfold batchLoop at hrun
    split at hrun
    · cases hrun
      exact runPass_keeps_dl_song lib cfg (envs pass) targets m h
    · split at hrun
      · cases hrun
        exact runPass_keeps_dl_song lib cfg (envs pass) targets m h
      · refine ih (pass + 1) _ ?_ hrun
        exact runPass_keeps_dl_song lib cfg (envs pass) targets m h

theorem findTrack_some {urlArg_i : String} {tracks : List TrackData} {k n : Int}
    {track : TrackData} (h : findTrack urlArg_i k tracks = some (n, track)) :
    track.ID = urlArg_i ∧ k ≤ n ∧ tracks.get? (n - k).toNat = some track := by
  induction tracks generalizing k with
  | nil => simp [findTrack] at h
  | cons t rest ih =>
    unfold findTrack at h
    split at h
    · rename_i heq
      simp only [Option.some.injEq, Prod.mk.injEq] at h
      obtain ⟨h1, h2⟩ := h
      subst h1 h2
      refine ⟨heq.symm, le_refl _, ?_⟩
      simp
    · obtain ⟨h1, h2, h3⟩ := ih h
      refine ⟨h1, by omega, ?_⟩
      have : (n - k).toNat = (n - (k + 1)).toNat + 1 := by omega
      rw [this, List.get?_cons_succ]
      exact h3

theorem ripTracks_dl_song (f : Int → TrackData → RunState → RunState) (fl : Flags)
    (albumId urlArg_i input : String) (tracks : List TrackData) (st : RunState)
    (h : fl.dl_song = true) :
    (ripTracks f fl albumId urlArg_i input tracks st).2.length ≤ 1 ∧
    (urlArg_i = "" → (ripTracks f fl albumId urlArg_i input tracks st).2 = []) ∧
    ∀ n ∈ (ripTracks f fl albumId urlArg_i input tracks st).2,
      ∃ track, elemAt? tracks (n - 1) = some track ∧ track.ID = urlArg_i := by
  unfold ripTracks
  rw [if_pos h]
  by_cases hi : urlArg_i = ""
  · rw [if_pos hi]
    simp
  · rw [if_neg hi]
    cases hf : findTrack urlArg_i 1 tracks with
    | none => simp [hi]
    | some p =>
      obtain ⟨n, track⟩ := p
      obtain ⟨h1, h2, h3⟩ := findTrack_some hf
      refine ⟨by simp, fun h0 => absurd h0 hi, ?_⟩
      intro k hk
      simp only [List.mem_singleton] at hk
      subst hk
      refine ⟨track, ?_, h1⟩
      unfold elemAt?
      rw [if_neg (by omega)]
      exact h3

theorem rip_calls_dl_song (lib : GoLib) (cfg : ConfigSet) (fl : Flags) (env : RipEnv)
    (albumId mediaUserToken urlArg_i : String) (st : RunState) (h : fl.dl_song = true) :
    (rip lib cfg fl env albumId mediaUserToken urlArg_i st).calls.length ≤ 1 ∧
    (urlArg_i = "" → (rip lib cfg fl env albumId mediaUserToken urlArg_i st).calls = []) ∧
    ∀ n ∈ (rip lib cfg fl env albumId mediaUserToken urlArg_i st).calls,
      ∃ metadata album rest track, env.getMeta = some metadata ∧
        metadata.Data = album :: rest ∧
        elemAt? album.Relationships.Tracks (n - 1) = some track ∧ track.ID = urlArg_i := by
  unfold rip
  dsimp only
  repeat' split
  all_goals first
    | (simp; done)
    | (refine ⟨(ripTracks_dl_song _ _ _ _ _ _ _ h).1, (ripTracks_dl_song _ _ _ _ _ _ _ h).2.1,
        fun n hn => ?_⟩
       obtain ⟨track, ht1, ht2⟩ := (ripTracks_dl_song _ _ _ _ _ _ _ h).2.2 n hn
       exact ⟨_, _, _, track, by assumption, by assumption, ht1, ht2⟩)

/-- C27: a song-type target (one the loop of `main` treats as a song: it contains `/song/`
and not `/music-video/`) leaves `dl_song` set; no later iteration, pass or retry clears
it; and under `dl_song` a call of `rip` invokes `downloadTrack` at most once, only for a
track whose id equals the URL's `i` parameter, and not at all when that parameter is
empty. -/
theorem dl_song_stays_set (lib : GoLib) (cfg : ConfigSet) :
    (∀ (env : MainEnv) (urlRaw : String) (m : MainState),
      Contains urlRaw "/music-video/" = false → Contains urlRaw "/song/" = true →
      (processTarget lib cfg env urlRaw m).fl.dl_song = true) ∧
    (∀ (env : MainEnv) (urlRaw : String) (m : MainState), m.fl.dl_song = true →
      (processTarget lib cfg env urlRaw m).fl.dl_song = true) ∧
    (∀ (env : MainEnv) (targets : List String) (m : MainState), m.fl.dl_song = true →
      (runPass lib cfg env targets m).fl.dl_song = true) ∧
    (∀ (envs : Nat → MainEnv) (targets : List String) (fuel pass : Nat) (m m1 : MainState),
      m.fl.dl_song = true → batchLoop lib cfg envs targets fuel pass m = some m1 →
      m1.fl.dl_song = true) ∧
    (∀ (fl : Flags) (env : RipEnv) (albumId mediaUserToken urlArg_i : String) (st : RunState),
      fl.dl_song = true →
      (rip lib cfg fl env albumId mediaUserToken urlArg_i st).calls.length ≤ 1 ∧
      (urlArg_i = "" → (rip lib cfg fl env albumId mediaUserToken urlArg_i st).calls = []) ∧
      ∀ n ∈ (rip lib cfg fl env albumId mediaUserToken urlArg_i st).calls,
        ∃ metadata album rest track, env.getMeta = some metadata ∧
          metadata.Data = album :: rest ∧
          elemAt? album.Relationships.Tracks (n - 1) = some track ∧ track.ID = urlArg_i) :=
  ⟨fun env urlRaw m hmv hsong => processTarget_song_sets_dl_song lib cfg env urlRaw m hmv hsong,
    fun env urlRaw m h => processTarget_keeps_dl_song lib cfg env urlRaw m h,
    fun env targets m h => runPass_keeps_dl_song lib cfg env targets m h,
    fun envs targets fuel pass m m1 h hrun =>
      batchLoop_keeps_dl_song lib cfg envs targets fuel pass m m1 h hrun,
    fun fl env albumId mediaUserToken urlArg_i st h =>
      rip_calls_dl_song lib cfg fl env albumId mediaUserToken urlArg_i st h⟩

/-- C27 witness: with `dl_song` set, `rip` on an album URL without `i` parameter calls
`downloadTrack` for no track. -/
theorem dl_song_stays_set_witness :
    (rip sampleLib tokenConfig { dl_song := true } { getMeta := some sampleAlbum } "1440857781"
      longToken "" {}).calls = [] :=
  ((dl_song_stays_set sampleLib tokenConfig).2.2.2.2 { dl_song := true }
    { getMeta := some sampleAlbum } "1440857781" longToken "" {} rfl).2.1 rfl

/-! ## Folder names: dots and the cover-art-only branch -/

theorem TrimSpace_subset (s : String) : ∀ c ∈ (TrimSpace s).toList, c ∈ s.toList := by
  intro c hc
  have h1 : c ∈ ((s.toList.dropWhile isSpace).reverse.dropWhile isSpace).reverse := hc
  rw [List.mem_reverse] at h1
  have h2 := (List.dropWhile_suffix isSpace).subset h1
  rw [List.mem_reverse] at h2
  exact (List.dropWhile_suffix isSpace).subset h2

/-- C21 (divergence): when a rendered folder name ends with a dot, the dot-stripping step
of `rip` removes every dot of the name, not only the trailing ones: `R.E.M.` becomes
`REM`. A name that does not end with a dot is only trimmed, so a name ending in a dot
followed by a space keeps its final dot. -/
theorem stripDots_removes_every_dot :
    (∀ s : String, HasSuffix s "." = true → ∀ c ∈ (stripDots s).toList, c ≠ '.') ∧
    (∀ s : String, HasSuffix s "." = false → stripDots s = TrimSpace s) ∧
    stripDots "R.E.M." = "REM" ∧
    singerFoldername {} "1440850062" dottedArtistAlbum = some "REM" ∧
    stripDots "Live. " = "Live." := by
  refine ⟨?_, ?_, by decide, by decide, by decide⟩
  · intro s hs c hc
    unfold stripDots at hc
    rw [if_pos hs] at hc
    have hmem := TrimSpace_subset _ c hc
    have hmem2 : c ∈ s.toList.filter (fun c => c ≠ '.') := hmem
    simpa using (List.mem_filter.mp hmem2).2
  · intro s hs
    unfold stripDots
    rw [if_neg (by simp [hs])]

/-- C21 witness: the artist name `R.E.M.` ends with a dot, and no dot is left in the
folder name. -/
theorem stripDots_removes_every_dot_witness :
    HasSuffix "R.E.M." "." = true ∧
    (stripDots "R.E.M.").toList.all (fun c => c != '.') = true :=
  ⟨by decide,
    List.all_eq_true.mpr (fun c hc => by
      simpa using stripDots_removes_every_dot.1 "R.E.M." (by decide) c hc)⟩

/-- C24 (divergence): the cover-art-only branch resolves the same folder as the regular
path in lossless mode when the entity has no tag mark, the template has no `Quality`
value, and the rendered album name neither ends with a dot nor exceeds `maxNameLength`
bytes after trimming; but the branch has neither the dot-stripping step nor the
over-length fallback, so for the album `F.A.M.E.` it resolves `.../F.A.M.E.` where the
regular path resolves `.../FAME`. -/
theorem coverSanAlbumFolder_vs_regular (join : String → String → String) (cfg : ConfigSet)
    (fl : Flags) (albumId : String) (album : MetaData) (rendered : String)
    (hatmos : fl.dl_atmos = false) (htag : albumTag cfg album = "")
    (hr : albumTemplate cfg albumId album "" "ALAC" "" = some rendered) :
    (HasSuffix rendered "." = false → (TrimSpace rendered).utf8ByteSize ≤ maxNameLength →
      coverSanAlbumFolder join cfg albumId album =
        sanAlbumFolder join cfg fl albumId album "" "ALAC") ∧
    coverSanAlbumFolder sampleJoin {} "426285273" dottedAlbum =
      some "AM-DL downloads/Chris Brown/F.A.M.E." ∧
    sanAlbumFolder sampleJoin {} {} "426285273" dottedAlbum "" "ALAC" =
      some "AM-DL downloads/Chris Brown/FAME" := by
  refine ⟨?_, by decide, by decide⟩
  intro hdot hlen
  have hstrip : stripDots rendered = TrimSpace rendered := by
    unfold stripDots
    rw [if_neg (by simp [hdot])]
  unfold coverSanAlbumFolder sanAlbumFolder
  rw [htag, hr]
  cases hs : singerFoldername cfg albumId album with
  | none => rfl
  | some singer =>
    simp only [hstrip]
    rw [if_neg (by simp [hatmos]), if_neg (by omega)]

/-- C24 witness: for an album whose name has no dot the two paths resolve the same
folder. -/
theorem coverSanAlbumFolder_vs_regular_witness :
    coverSanAlbumFolder sampleJoin {} "1440850062" dottedArtistAlbum =
      sanAlbumFolder sampleJoin {} {} "1440850062" dottedArtistAlbum "" "ALAC" :=
  (coverSanAlbumFolder_vs_regular sampleJoin {} {} "1440850062" dottedArtistAlbum
    "Automatic for the People" rfl (by decide) (by decide)).1 (by decide) (by decide)

/-! ## Enumerate mode -/

set_option maxRecDepth 100000 in
/-- C23 (divergence): in enumerate mode `extractMedia` returns an empty URL, an empty
quality and no error for every decoded manifest; but the report keeps the best variant
only for AAC and Atmos. For the two lossless categories and for Dolby Audio each variant
overwrites the one before, so after the sort by descending bandwidth the variant reported
is the last one scanned: with lossless variants at 192 kHz and 96 kHz the Hi-Res line
reads 96 kHz, and with Dolby Audio at 640 and 448 kbps it reads 448 kbps, while the AAC
line reads the higher of 256 and 128 kbps. -/
theorem availabilityReport_last_variant_wins :
    (∀ (sortSlice : List Variant → List Variant) (parseRef : String → Option String)
      (cfg : ConfigSet) (fl : Flags) (variants : List Variant),
      extractMedia sortSlice parseRef cfg { fl with debug_mode := true } (.ok variants) true =
        .ok "" "") ∧
    availabilityReport stableSortSlice hiResManifest =
      some ["AAC | 2 Channel | 256 kbps", "Not Available",
            "ALAC | 2 Channel | 24-bit/96 kHz", "Not Available",
            "AC-3 |  16 Channel | 448 kbps"] := by
  refine ⟨?_, by decide⟩
  intro sortSlice parseRef cfg fl variants
  simp [extractMedia]

end Amd
